import Mathlib

/-!
# K-Means driver: shallow embedding and checked properties

The definitions below translate `src/serial.cpp` function by function, and then
`src/parallel.cpp` as one thread runs it (`ParKMeans`).

* `double` coordinates are taken in an arbitrary linearly ordered field `α`: the
  arithmetic of the embedding is exact, with no rounding, overflow or NaN. Where the
  program rounds, the value the embedding computes differs from the value the program
  stores: a sum `1 + 2^-60` is kept apart from `1`, a mean `10/3` is not rounded to
  53 bits, and `(2^600)^2` does not overflow to `INFINITY`. The theorems below are
  therefore about labels, member collections, faults and control flow, stated
  relative to the id the nearest-centre query of the embedding returns, and about
  values only where the statement itself is one of exact arithmetic or every value is
  exactly representable. How the `double` results of `getIDNearestCenter` and of the
  centre recomputation relate to the exact values is outside the embedding.
* `sqrt` is kept symbolic: a distance is `Dist.sqrt r` for its radicand `r`, or
  `Dist.infinity`; `Dist.lt` compares radicands, which is the order of the exact
  square roots of non-negative numbers (`Dist.lt_sqrt_iff_real`).
* C++ `int` is `Int`; every `vector` subscript goes through `vecAt` / `vecSet`,
  which fault with `Fault.outOfRange` outside `[0, size)`.
* `rand()` is a list of draws consumed from the front; the `while (true)` driver
  loop carries a step budget.
* The two scenarios of the specification (`fourPoints`, `fivePoints`) are evaluated
  on `ℚ`, for every choice of seeds.
-/

namespace Kmeans

set_option linter.unusedSectionVars false

/-- Ways in which the embedded program can leave its defined behaviour. -/
inductive Fault where
  | outOfRange
  | divideByZero
  | noMoreDraws
  | outOfFuel
  deriving DecidableEq, Repr

/-- Subscript `xs[i]` of a `vector` with an `int` index. -/
def vecAt {β : Type} (xs : List β) (i : Int) : Except Fault β :=
  if i < 0 then Except.error Fault.outOfRange
  else
    match xs[i.toNat]? with
    | some x => Except.ok x
    | none => Except.error Fault.outOfRange

/-- Assignment `xs[i] = v` into a `vector` with an `int` index. -/
def vecSet {β : Type} (xs : List β) (i : Int) (v : β) : Except Fault (List β) :=
  if i < 0 then Except.error Fault.outOfRange
  else if i.toNat < xs.length then Except.ok (xs.set i.toNat v)
  else Except.error Fault.outOfRange

/-- The loop `for (int i = 0; i < n; i++) body`: iterations `0, …, n-1` in ascending
order on the loop-carried state, stopping at the first fault. -/
def forLoop {σ : Type} (n : Nat) (body : Nat → σ → Except Fault σ) (init : σ) :
    Except Fault σ :=
  match n with
  | 0 => Except.ok init
  | k + 1 => forLoop k body init >>= body k

/-- A `double` holding a distance: `INFINITY`, or `sqrt` of an exact radicand. -/
inductive Dist (α : Type) where
  | infinity : Dist α
  | sqrt (radicand : α) : Dist α
  deriving DecidableEq, Repr

variable {α : Type} [LinearOrderedField α]

/-- Comparison `a < b` of two distances. -/
def Dist.lt : Dist α → Dist α → Bool
  | Dist.sqrt a, Dist.sqrt b => decide (a < b)
  | Dist.sqrt _, Dist.infinity => true
  | Dist.infinity, _ => false

/-! ## class Point -/

/-- Class `Point`. -/
structure Point (α : Type) where
  id_point : Int
  id_cluster : Int
  values : List α
  total_values : Int
  deriving DecidableEq, Repr

/-- Constructor `Point(int id_point, vector<double>& values)`. -/
def Point.new (id_point : Int) (values : List α) : Point α :=
  { id_point := id_point, id_cluster := -1, values := values, total_values := values.length }

/-- Getter `getID`. -/
def Point.getID (p : Point α) : Int := p.id_point

/-- Setter `setCluster`. -/
def Point.setCluster (p : Point α) (id_cluster : Int) : Point α :=
  { p with id_cluster := id_cluster }

/-- Getter `getCluster`. -/
def Point.getCluster (p : Point α) : Int := p.id_cluster

/-- Getter `getValue(index)`, the subscript `values[index]`. -/
def Point.getValue (p : Point α) (index : Int) : Except Fault α := vecAt p.values index

/-- Getter `getTotalValues`. -/
def Point.getTotalValues (p : Point α) : Int := p.total_values

/-! ## class Cluster -/

/-- Class `Cluster`. -/
structure Cluster (α : Type) where
  id_cluster : Int
  central_values : List α
  points : List (Point α)
  deriving DecidableEq, Repr

/-- Constructor `Cluster(int id_cluster, Point point)`: the centre is read off the
point coordinate by coordinate and the point becomes the only member. -/
def Cluster.new (id_cluster : Int) (point : Point α) : Except Fault (Cluster α) := do
  let central_values ← forLoop point.getTotalValues.toNat
    (fun i (cv : List α) => do
      let v ← point.getValue i
      pure (cv ++ [v])) []
  pure { id_cluster := id_cluster, central_values := central_values, points := [point] }

/-- Method `addPoint`: `points.push_back(point)`. -/
def Cluster.addPoint (c : Cluster α) (point : Point α) : Cluster α :=
  { c with points := c.points ++ [point] }

/-- The scan of `removePoint` over the member vector: the first member whose id is
`id_point` is erased and `true` returned; `false` when the scan finds none. -/
def removeScan (id_point : Int) : List (Point α) → Bool × List (Point α)
  | [] => (false, [])
  | p :: ps =>
    if p.getID = id_point then (true, ps)
    else ((removeScan id_point ps).1, p :: (removeScan id_point ps).2)

/-- Method `removePoint(int id_point)`. -/
def Cluster.removePoint (c : Cluster α) (id_point : Int) : Bool × Cluster α :=
  ((removeScan id_point c.points).1, { c with points := (removeScan id_point c.points).2 })

/-- Getter `getCentralValue(index)`. -/
def Cluster.getCentralValue (c : Cluster α) (index : Int) : Except Fault α :=
  vecAt c.central_values index

/-- Setter `setCentralValue(index, value)`. -/
def Cluster.setCentralValue (c : Cluster α) (index : Int) (value : α) :
    Except Fault (Cluster α) := do
  let cv ← vecSet c.central_values index value
  pure { c with central_values := cv }

/-- Getter `getPoint(index)`. -/
def Cluster.getPoint (c : Cluster α) (index : Int) : Except Fault (Point α) :=
  vecAt c.points index

/-- Getter `getTotalPoints`. -/
def Cluster.getTotalPoints (c : Cluster α) : Int := c.points.length

/-- Getter `getID`. -/
def Cluster.getID (c : Cluster α) : Int := c.id_cluster

/-! ## class KMeans -/

/-- Class `KMeans`. -/
structure KMeans (α : Type) where
  K : Int
  total_values : Int
  total_points : Int
  max_iterations : Int
  clusters : List (Cluster α)
  deriving DecidableEq, Repr

/-- Constructor `KMeans(K, total_points, total_values, max_iterations)`. -/
def KMeans.new (K total_points total_values max_iterations : Int) : KMeans α :=
  { K := K, total_values := total_values, total_points := total_points,
    max_iterations := max_iterations, clusters := [] }

/-- Inner loop of `getIDNearestCenter`: the sum of squared coordinate differences
between the centre of cluster `i` and the point, accumulated in exact arithmetic where
the program accumulates `pow(., 2.0)` in `double`. -/
def KMeans.sumSquares (km : KMeans α) (point : Point α) (i : Nat) : Except Fault α :=
  forLoop km.total_values.toNat
    (fun j (dist : α) => do
      let c ← vecAt km.clusters i
      let cv ← c.getCentralValue j
      let pv ← point.getValue j
      pure (dist + (cv - pv) ^ 2)) 0

/-- Body of the outer loop of `getIDNearestCenter` on the pair
`(min_dist, id_cluster_center)`. -/
def KMeans.nearestBody (km : KMeans α) (point : Point α) (i : Nat) (st : Dist α × Int) :
    Except Fault (Dist α × Int) := do
  let dist ← km.sumSquares point i
  let dist := Dist.sqrt dist
  if dist.lt st.1 then pure (dist, (i : Int)) else pure st

/-- Method `getIDNearestCenter(Point point)`. -/
def KMeans.getIDNearestCenter (km : KMeans α) (point : Point α) : Except Fault Int := do
  let st ← forLoop km.K.toNat (km.nearestBody point) (Dist.infinity, 0)
  pure st.2

/-- Body of the loop of `assignPointsToClusters` for point index `i`. -/
def KMeans.assignBody (i : Nat) (st : KMeans α × List (Point α)) :
    Except Fault (KMeans α × List (Point α)) := do
  let km := st.1
  let points := st.2
  let pt ← vecAt points i
  let id_old_cluster := pt.getCluster
  let id_nearest_center ← km.getIDNearestCenter pt
  if id_old_cluster ≠ id_nearest_center then
    let clusters1 ←
      if id_old_cluster ≠ -1 then do
        let c ← vecAt km.clusters id_old_cluster
        vecSet km.clusters id_old_cluster (c.removePoint pt.getID).2
      else pure km.clusters
    let pt1 := pt.setCluster id_nearest_center
    let points1 ← vecSet points i pt1
    let c ← vecAt clusters1 id_nearest_center
    let clusters2 ← vecSet clusters1 id_nearest_center (c.addPoint pt1)
    pure ({ km with clusters := clusters2 }, points1)
  else pure (km, points)

/-- Method `assignPointsToClusters(vector<Point>& points)`. -/
def KMeans.assignPointsToClusters (km : KMeans α) (points : List (Point α)) :
    Except Fault (KMeans α × List (Point α)) :=
  forLoop km.total_points.toNat KMeans.assignBody (km, points)

/-- Body of the centre recomputation for cluster `i` and coordinate `j`; the sum over the
members and the quotient are exact where the program computes them in `double`. -/
def KMeans.recalcBody (i j : Nat) (km : KMeans α) : Except Fault (KMeans α) := do
  let c ← vecAt km.clusters i
  let total_points_cluster := c.getTotalPoints
  if total_points_cluster > 0 then
    let sum ← forLoop total_points_cluster.toNat
      (fun p (sum : α) => do
        let pt ← c.getPoint p
        let v ← pt.getValue j
        pure (sum + v)) 0
    let c1 ← c.setCentralValue j (sum / (total_points_cluster : α))
    let clusters1 ← vecSet km.clusters i c1
    pure { km with clusters := clusters1 }
  else pure km

/-- The loop nest "Recalculating the center of each cluster" of `run`. -/
def KMeans.recalcCenters (km : KMeans α) : Except Fault (KMeans α) :=
  forLoop km.K.toNat (fun i km1 => forLoop km.total_values.toNat (KMeans.recalcBody i) km1) km

/-- The loop "Check termination condition" of `run`, on the flag `done`. -/
def KMeans.checkTermination (km : KMeans α) (points : List (Point α)) (done : Bool) :
    Except Fault Bool :=
  forLoop km.total_points.toNat
    (fun i (done : Bool) => do
      let pt ← vecAt points i
      let id_old_cluster := pt.getCluster
      let id_nearest_center ← km.getIDNearestCenter pt
      if id_old_cluster ≠ id_nearest_center then pure false else pure done) done

/-- One pass of the rejection loop `while (true)` seeding cluster `i`: draws are
taken until `rand() % total_points` is an index not yet in `base_indexes`. -/
def KMeans.drawCenter (i : Nat) (km : KMeans α) (points : List (Point α))
    (base_indexes : List Int) :
    List Nat → Except Fault (KMeans α × List (Point α) × List Int × List Nat)
  | [] => Except.error Fault.noMoreDraws
  | r :: rest =>
    if km.total_points = 0 then Except.error Fault.divideByZero
    else
      let index_point : Int := Int.tmod (r : Int) km.total_points
      if index_point ∉ base_indexes then do
        let pt ← vecAt points index_point
        let pt1 := pt.setCluster (i : Int)
        let points1 ← vecSet points index_point pt1
        let cluster ← Cluster.new (i : Int) pt1
        pure ({ km with clusters := km.clusters ++ [cluster] }, points1,
          base_indexes ++ [index_point], rest)
      else KMeans.drawCenter i km points base_indexes rest

/-- The loop "choose K distinct values for the centers of the clusters" of `run`. -/
def KMeans.chooseCenters (km : KMeans α) (points : List (Point α)) (draws : List Nat) :
    Except Fault (KMeans α × List (Point α) × List Int × List Nat) :=
  forLoop km.K.toNat
    (fun i st => KMeans.drawCenter i st.1 st.2.1 st.2.2.1 st.2.2.2) (km, points, [], draws)

/-- State of the driver loop of `run` when an iteration ends. -/
structure LoopState (α : Type) where
  km : KMeans α
  points : List (Point α)
  iter : Int
  done : Bool
  deriving DecidableEq, Repr

/-- The termination check as a step on the driver state: it reads the object and the
points and writes the flag `done`. -/
def KMeans.checkPhase (s : LoopState α) : Except Fault (LoopState α) := do
  let done ← s.km.checkTermination s.points s.done
  pure { s with done := done }

/-- Body of the driver loop up to the test of the exit condition: `done = true`,
the assignment step, the centre recomputation, the termination check. -/
def KMeans.iteration (km : KMeans α) (points : List (Point α)) (iter : Int) :
    Except Fault (LoopState α) := do
  let done := true
  let st ← km.assignPointsToClusters points
  let km2 ← st.1.recalcCenters
  KMeans.checkPhase { km := km2, points := st.2, iter := iter, done := done }

/-- The driver loop `while (true)` of `run`, entered with the counter `iter`; the
first argument bounds the number of iterations the model will follow. -/
def KMeans.mainLoop : Nat → KMeans α → List (Point α) → Int → Except Fault (LoopState α)
  | 0, _, _, _ => Except.error Fault.outOfFuel
  | fuel + 1, km, points, iter => do
    let s ← km.iteration points iter
    if s.done || decide (iter ≥ s.km.max_iterations) then pure s
    else KMeans.mainLoop fuel s.km s.points (iter + 1)

/-- The driver loop body run back to back with no exit test: the state at the end of
pass number `n + 1`, the first pass carrying the counter `iter`. -/
def KMeans.nthIteration : Nat → KMeans α → List (Point α) → Int → Except Fault (LoopState α)
  | 0, km, points, iter => km.iteration points iter
  | n + 1, km, points, iter =>
    km.iteration points iter >>= fun s => KMeans.nthIteration n s.km s.points (iter + 1)

/-- What `run` writes to `cout`, one entry per line. -/
inductive Out (α : Type) where
  | breakIn (iter : Int)
  | clusterHeader (n : Int)
  | pointLine (n : Int) (values : List α)
  | clusterValues (values : List α)
  deriving DecidableEq, Repr

/-- The loop "Shows elements of clusters" of `run`. -/
def KMeans.showClusters (km : KMeans α) : Except Fault (List (Out α)) :=
  forLoop km.K.toNat
    (fun i (out : List (Out α)) => do
      let c ← vecAt km.clusters i
      let total_points_cluster := c.getTotalPoints
      let out1 := out ++ [Out.clusterHeader (c.getID + 1)]
      let out2 ← forLoop total_points_cluster.toNat
        (fun j (o : List (Out α)) => do
          let pt ← c.getPoint j
          let vals ← forLoop km.total_values.toNat
            (fun p (vs : List α) => do
              let v ← pt.getValue p
              pure (vs ++ [v])) []
          pure (o ++ [Out.pointLine (pt.getID + 1) vals])) out1
      let cvs ← forLoop km.total_values.toNat
        (fun j (vs : List α) => do
          let v ← c.getCentralValue j
          pure (vs ++ [v])) []
      pure (out2 ++ [Out.clusterValues cvs])) []

/-- Everything `run` leaves behind: the object, the caller's point vector, the
draws not consumed and the lines printed. -/
structure RunResult (α : Type) where
  km : KMeans α
  points : List (Point α)
  draws : List Nat
  output : List (Out α)
  deriving DecidableEq, Repr

/-- Method `run(vector<Point>& points)`. -/
def KMeans.run (fuel : Nat) (km : KMeans α) (points : List (Point α)) (draws : List Nat) :
    Except Fault (RunResult α) :=
  if km.K > km.total_points then
    pure { km := km, points := points, draws := draws, output := [] }
  else do
    let st ← km.chooseCenters points draws
    let s ← KMeans.mainLoop fuel st.1 st.2.1 1
    let shown ← s.km.showClusters
    pure { km := s.km, points := s.points, draws := st.2.2.2,
           output := Out.breakIn s.iter :: shown }

/-! ## The program of `parallel.cpp` run by one thread

`Point` and `Cluster` are the classes of `serial.cpp` unchanged. With a team of one
thread every `#pragma omp parallel for` loop runs its iterations in ascending order and
the `critical` region is entered without contention; the lock of the object is modelled
by a flag. -/

/-- Class `KMeans` of `parallel.cpp`: the fields of the serial class and `omp_lock_t lock`
(`true` while the lock is set). -/
structure ParKMeans (α : Type) where
  K : Int
  total_values : Int
  total_points : Int
  max_iterations : Int
  clusters : List (Cluster α)
  lock : Bool
  deriving DecidableEq, Repr

/-- Constructor of `parallel.cpp`; `omp_init_lock` leaves the lock unset. -/
def ParKMeans.new (K total_points total_values max_iterations : Int) : ParKMeans α :=
  { K := K, total_values := total_values, total_points := total_points,
    max_iterations := max_iterations, clusters := [], lock := false }

/-- Call `omp_set_lock(&lock)` by the only thread: a lock that is already set is never
obtained, which the model reports as `Fault.outOfFuel`, the fault of a computation that
does not return. -/
def ParKMeans.setLock (km : ParKMeans α) : Except Fault (ParKMeans α) :=
  if km.lock then Except.error Fault.outOfFuel else Except.ok { km with lock := true }

/-- Call `omp_unset_lock(&lock)`. -/
def ParKMeans.unsetLock (km : ParKMeans α) : ParKMeans α := { km with lock := false }

/-- Inner loop of `getIDNearestCenter` in `parallel.cpp`. -/
def ParKMeans.sumSquares (km : ParKMeans α) (point : Point α) (i : Nat) : Except Fault α :=
  forLoop km.total_values.toNat
    (fun j (dist : α) => do
      let c ← vecAt km.clusters i
      let cv ← c.getCentralValue j
      let pv ← point.getValue j
      pure (dist + (cv - pv) ^ 2)) 0

/-- Body of the `parallel for` loop of `getIDNearestCenter` in `parallel.cpp`, the
`critical` region included. -/
def ParKMeans.nearestBody (km : ParKMeans α) (point : Point α) (i : Nat)
    (st : Dist α × Int) : Except Fault (Dist α × Int) := do
  let dist ← km.sumSquares point i
  let dist := Dist.sqrt dist
  if dist.lt st.1 then pure (dist, (i : Int)) else pure st

/-- Method `getIDNearestCenter(Point point)` of `parallel.cpp`. -/
def ParKMeans.getIDNearestCenter (km : ParKMeans α) (point : Point α) : Except Fault Int := do
  let st ← forLoop km.K.toNat (km.nearestBody point) (Dist.infinity, 0)
  pure st.2

/-- Body of the `parallel for` loop of `assignPointsToClusters` in `parallel.cpp`: the
migration runs between `omp_set_lock` and `omp_unset_lock`. -/
def ParKMeans.assignBody (i : Nat) (st : ParKMeans α × List (Point α)) :
    Except Fault (ParKMeans α × List (Point α)) := do
  let km := st.1
  let points := st.2
  let pt ← vecAt points i
  let id_old_cluster := pt.getCluster
  let id_nearest_center ← km.getIDNearestCenter pt
  if id_old_cluster ≠ id_nearest_center then
    let km1 ← km.setLock
    let clusters1 ←
      if id_old_cluster ≠ -1 then do
        let c ← vecAt km1.clusters id_old_cluster
        vecSet km1.clusters id_old_cluster (c.removePoint pt.getID).2
      else pure km1.clusters
    let pt1 := pt.setCluster id_nearest_center
    let points1 ← vecSet points i pt1
    let c ← vecAt clusters1 id_nearest_center
    let clusters2 ← vecSet clusters1 id_nearest_center (c.addPoint pt1)
    pure (ParKMeans.unsetLock { km1 with clusters := clusters2 }, points1)
  else pure (km, points)

/-- Method `assignPointsToClusters(vector<Point>& points, int num_threads)` of
`parallel.cpp`. -/
def ParKMeans.assignPointsToClusters (km : ParKMeans α) (points : List (Point α))
    (num_threads : Int) : Except Fault (ParKMeans α × List (Point α)) :=
  forLoop km.total_points.toNat ParKMeans.assignBody (km, points)

/-- Body of the centre recomputation of `parallel.cpp` for cluster `i`, coordinate `j`. -/
def ParKMeans.recalcBody (i j : Nat) (km : ParKMeans α) : Except Fault (ParKMeans α) := do
  let c ← vecAt km.clusters i
  let total_points_cluster := c.getTotalPoints
  if total_points_cluster > 0 then
    let sum ← forLoop total_points_cluster.toNat
      (fun p (sum : α) => do
        let pt ← c.getPoint p
        let v ← pt.getValue j
        pure (sum + v)) 0
    let c1 ← c.setCentralValue j (sum / (total_points_cluster : α))
    let clusters1 ← vecSet km.clusters i c1
    pure { km with clusters := clusters1 }
  else pure km

/-- The `parallel for` loop nest "recalculating the center of each cluster" of `run` in
`parallel.cpp`. -/
def ParKMeans.recalcCenters (km : ParKMeans α) : Except Fault (ParKMeans α) :=
  forLoop km.K.toNat
    (fun i km1 => forLoop km.total_values.toNat (ParKMeans.recalcBody i) km1) km

/-- The `parallel for` loop "Check termination condition" of `run` in `parallel.cpp`. -/
def ParKMeans.checkTermination (km : ParKMeans α) (points : List (Point α)) (done : Bool) :
    Except Fault Bool :=
  forLoop km.total_points.toNat
    (fun i (done : Bool) => do
      let pt ← vecAt points i
      let id_old_cluster := pt.getCluster
      let id_nearest_center ← km.getIDNearestCenter pt
      if id_old_cluster ≠ id_nearest_center then pure false else pure done) done

/-- One pass of the rejection loop of `run` in `parallel.cpp`, seeding cluster `i`. -/
def ParKMeans.drawCenter (i : Nat) (km : ParKMeans α) (points : List (Point α))
    (base_indexes : List Int) :
    List Nat → Except Fault (ParKMeans α × List (Point α) × List Int × List Nat)
  | [] => Except.error Fault.noMoreDraws
  | r :: rest =>
    if km.total_points = 0 then Except.error Fault.divideByZero
    else
      let index_point : Int := Int.tmod (r : Int) km.total_points
      if index_point ∉ base_indexes then do
        let pt ← vecAt points index_point
        let pt1 := pt.setCluster (i : Int)
        let points1 ← vecSet points index_point pt1
        let cluster ← Cluster.new (i : Int) pt1
        pure ({ km with clusters := km.clusters ++ [cluster] }, points1,
          base_indexes ++ [index_point], rest)
      else ParKMeans.drawCenter i km points base_indexes rest

/-- The seeding loop of `run` in `parallel.cpp`. -/
def ParKMeans.chooseCenters (km : ParKMeans α) (points : List (Point α)) (draws : List Nat) :
    Except Fault (ParKMeans α × List (Point α) × List Int × List Nat) :=
  forLoop km.K.toNat
    (fun i st => ParKMeans.drawCenter i st.1 st.2.1 st.2.2.1 st.2.2.2) (km, points, [], draws)

/-- State of the driver loop of `parallel.cpp` when an iteration ends. -/
structure ParLoopState (α : Type) where
  km : ParKMeans α
  points : List (Point α)
  iter : Int
  done : Bool
  deriving DecidableEq, Repr

/-- Body of the driver loop of `parallel.cpp` up to the test of the exit condition. -/
def ParKMeans.iteration (km : ParKMeans α) (points : List (Point α)) (num_threads : Int)
    (iter : Int) : Except Fault (ParLoopState α) := do
  let done := true
  let st ← km.assignPointsToClusters points num_threads
  let km2 ← st.1.recalcCenters
  let done ← km2.checkTermination st.2 done
  pure { km := km2, points := st.2, iter := iter, done := done }

/-- The driver loop `while (true)` of `run` in `parallel.cpp`, with a step budget. -/
def ParKMeans.mainLoop (num_threads : Int) :
    Nat → ParKMeans α → List (Point α) → Int → Except Fault (ParLoopState α)
  | 0, _, _, _ => Except.error Fault.outOfFuel
  | fuel + 1, km, points, iter => do
    let s ← km.iteration points num_threads iter
    if s.done || decide (iter ≥ s.km.max_iterations) then pure s
    else ParKMeans.mainLoop num_threads fuel s.km s.points (iter + 1)

/-- The loop "shows elements of clusters" of `run` in `parallel.cpp`. -/
def ParKMeans.showClusters (km : ParKMeans α) : Except Fault (List (Out α)) :=
  forLoop km.K.toNat
    (fun i (out : List (Out α)) => do
      let c ← vecAt km.clusters i
      let total_points_cluster := c.getTotalPoints
      let out1 := out ++ [Out.clusterHeader (c.getID + 1)]
      let out2 ← forLoop total_points_cluster.toNat
        (fun j (o : List (Out α)) => do
          let pt ← c.getPoint j
          let vals ← forLoop km.total_values.toNat
            (fun p (vs : List α) => do
              let v ← pt.getValue p
              pure (vs ++ [v])) []
          pure (o ++ [Out.pointLine (pt.getID + 1) vals])) out1
      let cvs ← forLoop km.total_values.toNat
        (fun j (vs : List α) => do
          let v ← c.getCentralValue j
          pure (vs ++ [v])) []
      pure (out2 ++ [Out.clusterValues cvs])) []

/-- Everything `run` of `parallel.cpp` leaves behind. -/
structure ParRunResult (α : Type) where
  km : ParKMeans α
  points : List (Point α)
  draws : List Nat
  output : List (Out α)
  deriving DecidableEq, Repr

/-- Method `run(vector<Point>& points, int num_threads)` of `parallel.cpp`, executed by
one thread. -/
def ParKMeans.run (fuel : Nat) (km : ParKMeans α) (points : List (Point α))
    (num_threads : Int) (draws : List Nat) : Except Fault (ParRunResult α) :=
  if km.K > km.total_points then
    pure { km := km, points := points, draws := draws, output := [] }
  else do
    let st ← km.chooseCenters points draws
    let s ← ParKMeans.mainLoop num_threads fuel st.1 st.2.1 1
    let shown ← s.km.showClusters
    pure { km := s.km, points := s.points, draws := st.2.2.2,
           output := Out.breakIn s.iter :: shown }

/-- The serial object with the fields of a parallel object. -/
def ParKMeans.toSerial (km : ParKMeans α) : KMeans α :=
  { K := km.K, total_values := km.total_values, total_points := km.total_points,
    max_iterations := km.max_iterations, clusters := km.clusters }

/-- The serial result with the fields of a parallel result. -/
def ParRunResult.toSerial (r : ParRunResult α) : RunResult α :=
  { km := r.km.toSerial, points := r.points, draws := r.draws, output := r.output }

/-- The parallel object with the fields of a serial object and the given lock flag. -/
def KMeans.withLock (km : KMeans α) (lock : Bool) : ParKMeans α :=
  { K := km.K, total_values := km.total_values, total_points := km.total_points,
    max_iterations := km.max_iterations, clusters := km.clusters, lock := lock }

/-- The parallel driver state with the fields of a serial driver state, lock unset. -/
def LoopState.toPar (s : LoopState α) : ParLoopState α :=
  { km := s.km.withLock false, points := s.points, iter := s.iter, done := s.done }

/-- The parallel result with the fields of a serial result, lock unset. -/
def RunResult.toPar (r : RunResult α) : ParRunResult α :=
  { km := r.km.withLock false, points := r.points, draws := r.draws, output := r.output }

/-! ## Specification-side notions -/

/-- Squared Euclidean distance `Σ_{j < n} (c[j] - p[j])^2` of two coordinate vectors. -/
def sqDist (n : Nat) (c p : List α) : α :=
  ∑ j in Finset.range n, (c.getD j 0 - p.getD j 0) ^ 2

/-- Squared distance from the point to the centre of the cluster stored at index `k`
(the empty centre when there is no such cluster). -/
def KMeans.sqDistTo (km : KMeans α) (point : Point α) (k : Nat) : α :=
  sqDist km.total_values.toNat ((km.clusters[k]?.map Cluster.central_values).getD [])
    point.values

/-- Shape of a `KMeans` object: `K` clusters, each with a centre of `total_values`
coordinates. -/
def KMeans.Shaped (km : KMeans α) : Prop :=
  (km.clusters.length : Int) = km.K ∧
    ∀ c ∈ km.clusters, (c.central_values.length : Int) = km.total_values

/-- The id the nearest-centre query returns (`0` when the query faults). -/
def KMeans.nearestId (km : KMeans α) (point : Point α) : Int :=
  match km.getIDNearestCenter point with
  | Except.ok n => n
  | Except.error _ => 0

/-- Member collections with `f` applied to the collection of cluster `k`; no change
when `k` is not the index of a cluster. -/
def updateMembers (mem : List (List (Point α))) (k : Int)
    (f : List (Point α) → List (Point α)) : List (List (Point α)) :=
  if k < 0 then mem else mem.modify f k.toNat

/-- Migration of one point to the cluster `n`, as the assignment contract words it:
nothing happens when the point is already labelled `n`; otherwise the first entry with
the point's id leaves the old cluster's members (no removal for the label `-1`) and the
relabelled point is appended to the members of cluster `n`. -/
def migrateSpec (mem : List (List (Point α))) (p : Point α) (n : Int) :
    List (List (Point α)) :=
  if p.id_cluster = n then mem
  else
    updateMembers
      (if p.id_cluster = -1 then mem
       else updateMembers mem p.id_cluster
         (List.eraseP (fun q => decide (q.id_point = p.id_point))))
      n (fun ms => ms ++ [p.setCluster n])

/-- The configuration fields and the cluster ids and centres of two objects agree. -/
def KMeans.SameCentres (km1 km2 : KMeans α) : Prop :=
  km1.K = km2.K ∧ km1.total_values = km2.total_values ∧
    km1.total_points = km2.total_points ∧ km1.max_iterations = km2.max_iterations ∧
    km1.clusters.map Cluster.id_cluster = km2.clusters.map Cluster.id_cluster ∧
    km1.clusters.map Cluster.central_values = km2.clusters.map Cluster.central_values

/-- Shape of the caller's point vector: `total_points` points of `total_values`
coordinates each. -/
def KMeans.PointsOk (km : KMeans α) (points : List (Point α)) : Prop :=
  (points.length : Int) = km.total_points ∧
    ∀ p ∈ points, (p.values.length : Int) = km.total_values

/-- Every label is `-1` or the index of a cluster. -/
def KMeans.LabelsOk (km : KMeans α) (points : List (Point α)) : Prop :=
  ∀ p ∈ points, p.id_cluster = -1 ∨ (0 ≤ p.id_cluster ∧ p.id_cluster < km.K)

/-- The point relabelled with its nearest centre. -/
def KMeans.relabel (km : KMeans α) (p : Point α) : Point α :=
  p.setCluster (km.nearestId p)

/-- Member collections after the migrations of a sequence of points, each towards its
nearest centre under the centres of `km`. -/
def KMeans.migrateAll (km : KMeans α) (points : List (Point α))
    (mem : List (List (Point α))) : List (List (Point α)) :=
  points.foldl (fun m p => migrateSpec m p (km.nearestId p)) mem

/-- Arithmetic mean of coordinate `j` over a member collection. -/
def meanCoord (ms : List (Point α)) (j : Nat) : α :=
  (ms.map (fun q => q.values.getD j 0)).sum / (ms.length : α)

/-- A cluster whose centre coordinates below `j` have been replaced by the member
means; a cluster without members is left as it is. -/
def recentre (c : Cluster α) (j : Nat) : Cluster α :=
  if c.points.length = 0 then c
  else
    { c with central_values :=
        c.central_values.mapIdx (fun l x => if l < j then meanCoord c.points l else x) }

/-- Every member copy held by a cluster has `total_values` coordinates. -/
def KMeans.MembersOk (km : KMeans α) : Prop :=
  ∀ c ∈ km.clusters, ∀ q ∈ c.points, (q.values.length : Int) = km.total_values

/-- The values of a list that are not in `seen`, each kept at its first occurrence. -/
def firstDistinct : List Int → List Int → List Int
  | _, [] => []
  | seen, x :: xs =>
    if x ∈ seen then firstDistinct seen xs else x :: firstDistinct (seen ++ [x]) xs

/-- The candidate indices `rand() % total_points` of a list of draws. -/
def KMeans.candidates (km : KMeans α) (draws : List Nat) : List Int :=
  draws.map (fun r => Int.tmod (r : Int) km.total_points)

/-- A point as the constructor `Point.new` leaves it. -/
def Point.Built (p : Point α) : Prop :=
  p.id_cluster = -1 ∧ p.total_values = (p.values.length : Int)

/-- Standing shape of the driver state between two steps: at least one cluster, `K`
centres and `total_points` points of `total_values` coordinates, labels `-1` or cluster
indices, member copies of `total_values` coordinates. -/
structure KMeans.Ready (km : KMeans α) (points : List (Point α)) : Prop where
  kpos : 1 ≤ km.K
  shaped : km.Shaped
  pointsOk : km.PointsOk points
  labelsOk : km.LabelsOk points
  membersOk : km.MembersOk

/-- Number of entries of a member collection that carry the point id `id_point`. -/
def memberCount (ms : List (Point α)) (id_point : Int) : Nat :=
  ms.countP (fun q => decide (q.id_point = id_point))

/-- The label/membership invariant of the data model: a point is labelled with a
cluster's id exactly when that cluster's members hold an entry with the point's id, and
then they hold exactly one. -/
def KMeans.LabelMember (km : KMeans α) (points : List (Point α)) : Prop :=
  ∀ p ∈ points, ∀ c ∈ km.clusters,
    (p.id_cluster = c.id_cluster ↔ ∃ q ∈ c.points, q.id_point = p.id_point) ∧
    (p.id_cluster = c.id_cluster → memberCount c.points p.id_point = 1)

/-- The states of a run at the boundaries of its steps: the state the seeding leaves,
and every state an assignment step, a centre recomputation or a termination check
leaves when started from such a state. -/
inductive Reachable (km0 : KMeans α) (points0 : List (Point α)) (draws : List Nat) :
    KMeans α → List (Point α) → Prop where
  | seeded (km : KMeans α) (pts : List (Point α)) (sel : List Int) (rest : List Nat) :
      km0.chooseCenters points0 draws = Except.ok (km, pts, sel, rest) →
      Reachable km0 points0 draws km pts
  | assigned (km : KMeans α) (pts : List (Point α)) (km1 : KMeans α)
      (pts1 : List (Point α)) :
      Reachable km0 points0 draws km pts →
      km.assignPointsToClusters pts = Except.ok (km1, pts1) →
      Reachable km0 points0 draws km1 pts1
  | recentred (km : KMeans α) (pts : List (Point α)) (km1 : KMeans α) :
      Reachable km0 points0 draws km pts →
      km.recalcCenters = Except.ok km1 →
      Reachable km0 points0 draws km1 pts
  | checked (km : KMeans α) (pts : List (Point α)) (iter : Int) (done : Bool)
      (s : LoopState α) :
      Reachable km0 points0 draws km pts →
      KMeans.checkPhase (LoopState.mk km pts iter done) = Except.ok s →
      Reachable km0 points0 draws s.km s.points

/-- The states of a run from its first assignment step on. -/
inductive Iterating (km0 : KMeans α) (points0 : List (Point α)) (draws : List Nat) :
    KMeans α → List (Point α) → Prop where
  | assigned (km : KMeans α) (pts : List (Point α)) (km1 : KMeans α)
      (pts1 : List (Point α)) :
      Reachable km0 points0 draws km pts →
      km.assignPointsToClusters pts = Except.ok (km1, pts1) →
      Iterating km0 points0 draws km1 pts1
  | recentred (km : KMeans α) (pts : List (Point α)) (km1 : KMeans α) :
      Iterating km0 points0 draws km pts →
      km.recalcCenters = Except.ok km1 →
      Iterating km0 points0 draws km1 pts
  | checked (km : KMeans α) (pts : List (Point α)) (iter : Int) (done : Bool)
      (s : LoopState α) :
      Iterating km0 points0 draws km pts →
      KMeans.checkPhase (LoopState.mk km pts iter done) = Except.ok s →
      Iterating km0 points0 draws s.km s.points

/-- The invariant carried through the steps: a well-shaped state, pairwise distinct
point ids, cluster ids equal to cluster indices, and for every point and every cluster
index one entry with the point's id when the point is labelled with that index and none
otherwise. -/
structure KMeans.Tidy (km : KMeans α) (points : List (Point α)) : Prop where
  ready : km.Ready points
  distinct : (points.map Point.id_point).Nodup
  ids : ∀ (k : Nat) (c : Cluster α), km.clusters[k]? = some c → c.id_cluster = (k : Int)
  counts : ∀ p ∈ points, ∀ (k : Nat) (ms : List (Point α)),
    (km.clusters.map Cluster.points)[k]? = some ms →
    memberCount ms p.id_point = if p.id_cluster = (k : Int) then 1 else 0

/-- Every point appears in the members of exactly one cluster, and there once. -/
def KMeans.Partitioned (km : KMeans α) (points : List (Point α)) : Prop :=
  ∀ p ∈ points, ∃ (k : Nat) (c : Cluster α), km.clusters[k]? = some c ∧
    memberCount c.points p.id_point = 1 ∧
    ∀ (k1 : Nat) (c1 : Cluster α), km.clusters[k1]? = some c1 → k1 ≠ k →
      memberCount c1.points p.id_point = 0

/-! ## A small concrete state

Three one-dimensional points `0`, `10`, `9`, of which the first two seed two clusters. -/

/-- The point vector of the example, as it stands after the seeding. -/
def examplePoints : List (Point ℚ) :=
  [{ id_point := 0, id_cluster := 0, values := [0], total_values := 1 },
   { id_point := 1, id_cluster := 1, values := [10], total_values := 1 },
   { id_point := 2, id_cluster := -1, values := [9], total_values := 1 }]

/-- The object of the example, as it stands after the seeding. -/
def exampleKMeans : KMeans ℚ :=
  { K := 2, total_values := 1, total_points := 3, max_iterations := 10,
    clusters :=
      [{ id_cluster := 0, central_values := [0],
         points := [{ id_point := 0, id_cluster := 0, values := [0], total_values := 1 }] },
       { id_cluster := 1, central_values := [10],
         points := [{ id_point := 1, id_cluster := 1, values := [10], total_values := 1 }] }] }

/-- Three freshly constructed one-dimensional points `0`, `10`, `9`. -/
def freshPoints : List (Point ℚ) :=
  [Point.new 0 [0], Point.new 1 [10], Point.new 2 [9]]

/-- A freshly constructed object for `K = 2` clusters over three points. -/
def freshKMeans : KMeans ℚ := KMeans.new 2 3 1 10

/-- The driver state one pass of the loop body leaves on the example state. -/
def exampleConverged : LoopState ℚ :=
  { km :=
      { K := 2, total_values := 1, total_points := 3, max_iterations := 10,
        clusters :=
          [{ id_cluster := 0, central_values := [0],
             points := [{ id_point := 0, id_cluster := 0, values := [0], total_values := 1 }] },
           { id_cluster := 1, central_values := [19 / 2],
             points :=
               [{ id_point := 1, id_cluster := 1, values := [10], total_values := 1 },
                { id_point := 2, id_cluster := 1, values := [9], total_values := 1 }] }] },
    points :=
      [{ id_point := 0, id_cluster := 0, values := [0], total_values := 1 },
       { id_point := 1, id_cluster := 1, values := [10], total_values := 1 },
       { id_point := 2, id_cluster := 1, values := [9], total_values := 1 }],
    iter := 1, done := true }

/-- The body of the centre recomputation with the division guarded: the same steps as
`KMeans.recalcBody`, reporting `Fault.divideByZero` should the divisor of the mean be
zero when the division is reached. -/
def KMeans.recalcBodyChecked (i j : Nat) (km : KMeans α) : Except Fault (KMeans α) := do
  let c ← vecAt km.clusters i
  let total_points_cluster := c.getTotalPoints
  if total_points_cluster > 0 then
    let sum ← forLoop total_points_cluster.toNat
      (fun p (sum : α) => do
        let pt ← c.getPoint p
        let v ← pt.getValue j
        pure (sum + v)) 0
    if total_points_cluster = 0 then Except.error Fault.divideByZero
    else
      let c1 ← c.setCentralValue j (sum / (total_points_cluster : α))
      let clusters1 ← vecSet km.clusters i c1
      pure { km with clusters := clusters1 }
  else pure km

/-- Member copies agree with the top-level points: every entry of the member collection
at a cluster index is, field for field, a point of the top-level vector, and its label is
that index. -/
def KMeans.Faithful (km : KMeans α) (points : List (Point α)) : Prop :=
  ∀ (k : Nat) (ms : List (Point α)), (km.clusters.map Cluster.points)[k]? = some ms →
    ∀ q ∈ ms, q ∈ points ∧ q.id_cluster = (k : Int)

/-- The object with another value of `max_iterations`. -/
def KMeans.setMax (km : KMeans α) (max_iterations : Int) : KMeans α :=
  { km with max_iterations := max_iterations }

/-- The driver state with another value of `max_iterations` in its object. -/
def LoopState.setMax (s : LoopState α) (max_iterations : Int) : LoopState α :=
  { s with km := s.km.setMax max_iterations }

/-- The five identical points `[3.0, 3.0]` of the second scenario, as `main` builds
them. -/
def fivePoints : List (Point ℚ) :=
  [Point.new 0 [3, 3], Point.new 1 [3, 3], Point.new 2 [3, 3], Point.new 3 [3, 3],
    Point.new 4 [3, 3]]

/-- The five points once all of them carry the label `0`. -/
def fiveLabelled : List (Point ℚ) := fivePoints.map (fun p => p.setCluster 0)

/-- The object and the points right after the seeding drew the point of index `a`
(with `max_iterations = 0`). -/
def fiveSeeded (a : Nat) : KMeans ℚ × List (Point ℚ) :=
  ({ K := 1, total_values := 2, total_points := 5, max_iterations := 0,
     clusters := [Cluster.mk 0 [3, 3] [(Point.new (a : Int) [3, 3]).setCluster 0]] },
   fivePoints.set a ((Point.new (a : Int) [3, 3]).setCluster 0))

/-- Members of the single cluster at the end of the run seeded with the point of index
`a`: the seed first, then the other points in ascending order. -/
def fiveMembers (a : Nat) : List (Point ℚ) :=
  (Point.new (a : Int) [3, 3]).setCluster 0 :: fiveLabelled.eraseIdx a

/-- State of the driver loop at the end of the first pass from `fiveSeeded a`. -/
def fiveFinal (a : Nat) : LoopState ℚ :=
  { km := { K := 1, total_values := 2, total_points := 5, max_iterations := 0,
            clusters := [Cluster.mk 0 [3, 3] (fiveMembers a)] },
    points := fiveLabelled, iter := 1, done := true }

/-- The four points `[0.0], [1.0], [9.0], [10.0]` of the first scenario, as `main`
builds them. -/
def fourPoints : List (Point ℚ) :=
  [Point.new 0 [0], Point.new 1 [1], Point.new 2 [9], Point.new 3 [10]]

/-- The object `KMeans(2, 4, 1, 10)` of the first scenario. -/
def fourKMeans : KMeans ℚ := KMeans.new 2 4 1 10

/-- The object and the points right after the seeding took the point of index `a` for
cluster `0` and the point of index `b` for cluster `1`. -/
def fourSeeded (a b : Nat) : KMeans ℚ × List (Point ℚ) :=
  let p := fourPoints.getD a (Point.new 0 [])
  let pts1 := fourPoints.set a (p.setCluster 0)
  let q := pts1.getD b (Point.new 0 [])
  (KMeans.mk 2 1 4 10
      [Cluster.mk 0 p.values [p.setCluster 0], Cluster.mk 1 q.values [q.setCluster 1]],
    pts1.set b (q.setCluster 1))

/-- The point of index `i` of the first scenario carrying the label `k`. -/
def fourLabelled (i : Nat) (k : Int) : Point ℚ :=
  (fourPoints.getD i (Point.new 0 [])).setCluster k

/-- The cluster has the centre `[centre]` and exactly two members: the points of
indices `i` and `j`, labelled with the cluster's id, in either order. -/
@[reducible] def Cluster.HoldsPair (c : Cluster ℚ) (centre : ℚ) (i j : Nat) : Prop :=
  c.central_values = [centre] ∧
    (c.points = [fourLabelled i c.id_cluster, fourLabelled j c.id_cluster] ∨
      c.points = [fourLabelled j c.id_cluster, fourLabelled i c.id_cluster])

/-- Within-cluster sum of squares of a state: the sum over the points `p` of
`Σ_{j < total_values} (p[j] - centroid_{p.cluster_id}[j])^2`. -/
def KMeans.cost (km : KMeans α) (points : List (Point α)) : α :=
  (points.map (fun p => ∑ j in Finset.range km.total_values.toNat,
    (p.values.getD j 0 -
      ((km.clusters[p.id_cluster.toNat]?.map Cluster.central_values).getD []).getD j 0) ^ 2)).sum

/-- Member copies carry the coordinates of the top-level points: every entry of a
member collection has the id of a top-level point and the coordinates of that point. -/
def KMeans.CopiesAgree (km : KMeans α) (points : List (Point α)) : Prop :=
  ∀ c ∈ km.clusters, ∀ q ∈ c.points,
    ∃ p ∈ points, p.id_point = q.id_point ∧ q.values = p.values

/-- Three one-dimensional points `0`, `10`, `9`, the last one labelled with the farther
of the two clusters. -/
def strayPoints : List (Point ℚ) :=
  [{ id_point := 0, id_cluster := 0, values := [0], total_values := 1 },
   { id_point := 1, id_cluster := 1, values := [10], total_values := 1 },
   { id_point := 2, id_cluster := 0, values := [9], total_values := 1 }]

/-- Two clusters with centres `0` and `10` holding the copies of `strayPoints`. -/
def strayKMeans : KMeans ℚ :=
  { K := 2, total_values := 1, total_points := 3, max_iterations := 10,
    clusters :=
      [{ id_cluster := 0, central_values := [0],
         points :=
           [{ id_point := 0, id_cluster := 0, values := [0], total_values := 1 },
            { id_point := 2, id_cluster := 0, values := [9], total_values := 1 }] },
       { id_cluster := 1, central_values := [10],
         points := [{ id_point := 1, id_cluster := 1, values := [10], total_values := 1 }] }] }

/-! ## Invariants and auxiliary notions used by the proofs -/

/-- Invariant of the scan of `getIDNearestCenter` after `m` clusters: the incumbent is
the lowest index among the minimisers of the squared distance over the first `m`. -/
def NearestInv (km : KMeans α) (point : Point α) (m : Nat) (st : Dist α × Int) : Prop :=
  (m = 0 ∧ st = (Dist.infinity, 0)) ∨
    ∃ i : Nat, i < m ∧ st = (Dist.sqrt (km.sqDistTo point i), (i : Int)) ∧
      (∀ k, k < m → km.sqDistTo point i ≤ km.sqDistTo point k) ∧
      (∀ k, k < i → km.sqDistTo point i < km.sqDistTo point k)

/-- Invariant of the assignment loop after `i` points, against the object `km` and the
point vector `points` the step started from. -/
def AssignInv (km : KMeans α) (points : List (Point α)) (i : Nat)
    (st : KMeans α × List (Point α)) : Prop :=
  st.1.SameCentres km ∧ st.2.length = points.length ∧
    (∀ j, st.2[j]? = if j < i then points[j]?.map km.relabel else points[j]?) ∧
    st.1.clusters.map Cluster.points =
      km.migrateAll (points.take i) (km.clusters.map Cluster.points)

/-- The state-independent part of one step of the recomputation on a cluster. -/
def stepCentre (c : Cluster α) (j : Nat) : Cluster α :=
  if c.points.length = 0 then c
  else { c with central_values := c.central_values.set j (meanCoord c.points j) }

/-- Invariant of the seeding loop after `i` clusters, against the object, the points
and the draws `run` started from. The state is the object, the points, `base_indexes`
and the draws still to come. -/
structure SeedInv (km0 : KMeans α) (points0 : List (Point α)) (draws0 : List Nat) (i : Nat)
    (st : KMeans α × List (Point α) × List Int × List Nat) : Prop where
  cfgK : st.1.K = km0.K
  cfgV : st.1.total_values = km0.total_values
  cfgP : st.1.total_points = km0.total_points
  cfgM : st.1.max_iterations = km0.max_iterations
  nbase : st.2.2.1.length = i
  nclusters : st.1.clusters.length = i
  order : st.2.2.1 ++ firstDistinct st.2.2.1 (km0.candidates st.2.2.2) =
    firstDistinct [] (km0.candidates draws0)
  nodup : st.2.2.1.Nodup
  range : ∀ x ∈ st.2.2.1, 0 ≤ x ∧ x < km0.total_points
  npoints : st.2.1.length = points0.length
  built : ∀ p ∈ st.2.1, p.total_values = (p.values.length : Int)
  seeded : ∀ (k : Nat) (x : Int) (p : Point α), st.2.2.1[k]? = some x →
    points0[x.toNat]? = some p →
    st.1.clusters[k]? = some (Cluster.mk (k : Int) p.values [p.setCluster (k : Int)]) ∧
      st.2.1[x.toNat]? = some (p.setCluster (k : Int))
  others : ∀ j : Nat, (j : Int) ∉ st.2.2.1 → st.2.1[j]? = points0[j]?
  consumed : ∃ used, draws0 = used ++ st.2.2.2

/-- What a migration of `p` to `n` does to the member collection stored at index `m`. -/
def migrateAt (p : Point α) (n : Int) (m : Nat) (ms : List (Point α)) : List (Point α) :=
  if p.id_cluster = n then ms
  else
    (fun ms1 => if 0 ≤ n ∧ n.toNat = m then ms1 ++ [p.setCluster n] else ms1)
      (if p.id_cluster ≠ -1 ∧ 0 ≤ p.id_cluster ∧ p.id_cluster.toNat = m then
        ms.eraseP (fun q => decide (q.id_point = p.id_point))
      else ms)

/-- The object after the centre recomputation. -/
def KMeans.recentred (km : KMeans α) : KMeans α :=
  KMeans.mk km.K km.total_values km.total_points km.max_iterations
    (km.clusters.map (fun c => recentre c km.total_values.toNat))

/-! ## Basic facts about faults, subscripts and loops -/

@[simp] theorem ok_bind {β γ : Type} (a : β) (f : β → Except Fault γ) :
    (Except.ok a >>= f) = f a := rfl

@[simp] theorem error_bind {β γ : Type} (e : Fault) (f : β → Except Fault γ) :
    ((Except.error e : Except Fault β) >>= f) = Except.error e := rfl

@[simp] theorem pure_eq_ok {β : Type} (a : β) : (pure a : Except Fault β) = Except.ok a := rfl

theorem vecAt_nat {β : Type} (xs : List β) (i : Nat) (x : β) (h : xs[i]? = some x) :
    vecAt xs (i : Int) = Except.ok x := by
  simp [vecAt, h]

theorem vecAt_nat_lt {β : Type} (xs : List β) (i : Nat) (h : i < xs.length) :
    vecAt xs (i : Int) = Except.ok (xs.get ⟨i, h⟩) := by
  apply vecAt_nat
  simp [List.getElem?_eq_getElem h]

theorem vecAt_ok_iff {β : Type} (xs : List β) (i : Int) (x : β) :
    vecAt xs i = Except.ok x ↔ 0 ≤ i ∧ xs[i.toNat]? = some x := by
  unfold vecAt
  by_cases hi : i < 0
  · simp [hi]
  · cases hx : xs[i.toNat]? with
    | none => simp [hi]
    | some y => simp [hi]; omega

theorem vecSet_nat {β : Type} (xs : List β) (i : Nat) (v : β) (h : i < xs.length) :
    vecSet xs (i : Int) v = Except.ok (xs.set i v) := by
  simp [vecSet, h]

theorem vecSet_ok_iff {β : Type} (xs : List β) (i : Int) (v : β) (ys : List β) :
    vecSet xs i v = Except.ok ys ↔ 0 ≤ i ∧ i.toNat < xs.length ∧ ys = xs.set i.toNat v := by
  unfold vecSet
  by_cases hi : i < 0
  · simp [hi]
  · by_cases hl : i.toNat < xs.length
    · simp [hi, hl]
      constructor
      · intro h; exact ⟨by omega, h.symm⟩
      · intro h; exact h.2.symm
    · simp [hi, hl]

theorem forLoop_zero {σ : Type} (body : Nat → σ → Except Fault σ) (init : σ) :
    forLoop 0 body init = Except.ok init := rfl

theorem forLoop_succ {σ : Type} (k : Nat) (body : Nat → σ → Except Fault σ) (init : σ) :
    forLoop (k + 1) body init = (forLoop k body init >>= body k) := rfl

/-- Loop-invariant rule for `forLoop`: an invariant that holds on entry and that every
iteration re-establishes without faulting holds on exit, and the loop does not fault. -/
theorem forLoop_inv {σ : Type} (P : Nat → σ → Prop) (n : Nat)
    (body : Nat → σ → Except Fault σ) (init : σ) (h0 : P 0 init)
    (hstep : ∀ i s, i < n → P i s → ∃ s1, body i s = Except.ok s1 ∧ P (i + 1) s1) :
    ∃ s1, forLoop n body init = Except.ok s1 ∧ P n s1 := by
  induction n with
  | zero => exact ⟨init, rfl, h0⟩
  | succ k ih =>
    obtain ⟨s, hs, hP⟩ := ih (fun i s hi hp => hstep i s (Nat.lt_succ_of_lt hi) hp)
    obtain ⟨s1, hs1, hP1⟩ := hstep k s (Nat.lt_succ_self k) hP
    exact ⟨s1, by rw [forLoop_succ, hs, ok_bind, hs1], hP1⟩

/-- Two loop bodies that agree on every index below the bound give the same loop. -/
theorem forLoop_congr {σ : Type} (n : Nat) (f g : Nat → σ → Except Fault σ) (init : σ)
    (h : ∀ i s, i < n → f i s = g i s) : forLoop n f init = forLoop n g init := by
  induction n with
  | zero => rfl
  | succ k ih =>
    rw [forLoop_succ, forLoop_succ, ih (fun i s hi => h i s (Nat.lt_succ_of_lt hi))]
    cases forLoop k g init with
    | error e => rfl
    | ok s => exact h k s (Nat.lt_succ_self k)

theorem vecAt_getD {β : Type} (xs : List β) (j : Nat) (d : β) (h : j < xs.length) :
    vecAt xs (j : Int) = Except.ok (xs.getD j d) := by
  apply vecAt_nat
  simp [List.getD, List.getElem?_eq_getElem h]

/-! ## Nearest-centre query -/

theorem sqDist_nonneg (n : Nat) (c p : List α) : 0 ≤ sqDist n c p :=
  Finset.sum_nonneg (fun _ _ => sq_nonneg _)

/-- On a well-shaped object the inner loop does not fault and computes the squared
distance to the centre of cluster `i`. -/
theorem sumSquares_eq (km : KMeans α) (point : Point α) (i : Nat) (hs : km.Shaped)
    (hi : i < km.clusters.length) (hp : (point.values.length : Int) = km.total_values) :
    km.sumSquares point i = Except.ok (km.sqDistTo point i) := by
  have hc : km.clusters[i]? = some (km.clusters.get ⟨i, hi⟩) := by
    simp [List.getElem?_eq_getElem hi]
  have hcv : (km.clusters.get ⟨i, hi⟩).central_values.length = km.total_values.toNat := by
    have := hs.2 _ (List.get_mem km.clusters i hi)
    omega
  have hpv : point.values.length = km.total_values.toNat := by omega
  obtain ⟨d, hd, hP⟩ := forLoop_inv
    (fun j (dist : α) =>
      dist = sqDist j (km.clusters.get ⟨i, hi⟩).central_values point.values)
    km.total_values.toNat
    (fun j (dist : α) => do
      let c ← vecAt km.clusters i
      let cv ← c.getCentralValue j
      let pv ← point.getValue j
      pure (dist + (cv - pv) ^ 2)) 0 (by simp [sqDist])
    (by
      intro j dist hj hdist
      refine ⟨dist + (((km.clusters.get ⟨i, hi⟩).central_values).getD j 0
        - point.values.getD j 0) ^ 2, ?_, ?_⟩
      · have h1 := vecAt_getD (km.clusters.get ⟨i, hi⟩).central_values j 0 (by omega)
        have h2 := vecAt_getD point.values j 0 (by omega)
        simp only [vecAt_nat _ _ _ hc, Cluster.getCentralValue, Point.getValue, ok_bind,
          h1, h2, pure_eq_ok]
      · simp only [sqDist] at hdist ⊢
        rw [Finset.sum_range_succ, hdist])
  unfold KMeans.sumSquares
  rw [hd, hP]
  simp [KMeans.sqDistTo, hc]

theorem nearestBody_inv (km : KMeans α) (point : Point α) (hs : km.Shaped)
    (hp : (point.values.length : Int) = km.total_values) (m : Nat) (st : Dist α × Int)
    (hm : m < km.clusters.length) (hinv : NearestInv km point m st) :
    ∃ st1, km.nearestBody point m st = Except.ok st1 ∧ NearestInv km point (m + 1) st1 := by
  unfold KMeans.nearestBody
  rw [sumSquares_eq km point m hs hm hp]
  rcases hinv with ⟨hm0, hst⟩ | ⟨i, him, hst, hle, hlt⟩
  · subst hm0
    subst hst
    refine ⟨(Dist.sqrt (km.sqDistTo point 0), ((0 : Nat) : Int)), by simp [Dist.lt], ?_⟩
    right
    refine ⟨0, by omega, rfl, ?_, ?_⟩
    · intro k hk
      have : k = 0 := by omega
      subst this
      exact le_refl _
    · intro k hk
      omega
  · subst hst
    by_cases hcmp : km.sqDistTo point m < km.sqDistTo point i
    · refine ⟨(Dist.sqrt (km.sqDistTo point m), (m : Int)), by simp [Dist.lt, hcmp], ?_⟩
      right
      refine ⟨m, by omega, rfl, ?_, ?_⟩
      · intro k hk
        rcases Nat.lt_succ_iff_lt_or_eq.mp hk with hk1 | hk1
        · exact le_of_lt (lt_of_lt_of_le hcmp (hle k hk1))
        · subst hk1
          exact le_refl _
      · intro k hk
        exact lt_of_lt_of_le hcmp (hle k hk)
    · refine ⟨(Dist.sqrt (km.sqDistTo point i), (i : Int)), by simp [Dist.lt, hcmp], ?_⟩
      right
      refine ⟨i, by omega, rfl, ?_, hlt⟩
      intro k hk
      rcases Nat.lt_succ_iff_lt_or_eq.mp hk with hk1 | hk1
      · exact hle k hk1
      · subst hk1
        exact not_lt.mp hcmp

/-- The query on a well-shaped object with at least one cluster: it does not fault and
returns the lowest index among the clusters at minimum squared distance. -/
theorem nearest_spec (km : KMeans α) (point : Point α) (hK : 1 ≤ km.K) (hs : km.Shaped)
    (hp : (point.values.length : Int) = km.total_values) :
    ∃ i : Nat, km.getIDNearestCenter point = Except.ok (i : Int) ∧ i < km.clusters.length ∧
      (∀ k, k < km.clusters.length → km.sqDistTo point i ≤ km.sqDistTo point k) ∧
      (∀ k, k < i → km.sqDistTo point i < km.sqDistTo point k) := by
  have hlen : km.K.toNat = km.clusters.length := by
    have := hs.1
    omega
  obtain ⟨st, hst, hinv⟩ := forLoop_inv (NearestInv km point) km.K.toNat
    (km.nearestBody point) (Dist.infinity, 0) (Or.inl ⟨rfl, rfl⟩)
    (fun m st hm hinv => nearestBody_inv km point hs hp m st (by omega) hinv)
  rcases hinv with ⟨h0, _⟩ | ⟨i, hi, hsti, hle, hlt⟩
  · omega
  · refine ⟨i, ?_, by omega, fun k hk => hle k (by omega), hlt⟩
    unfold KMeans.getIDNearestCenter
    rw [hst, hsti]
    rfl

/-- The symbolic comparison of distances is the comparison of the real square roots. -/
theorem Dist.lt_sqrt_iff_real (a b : ℝ) (ha : 0 ≤ a) :
    Dist.lt (Dist.sqrt a) (Dist.sqrt b) = true ↔ Real.sqrt a < Real.sqrt b := by
  simp only [Dist.lt, decide_eq_true_eq]
  constructor
  · intro h
    exact Real.sqrt_lt_sqrt ha h
  · intro h
    by_contra hn
    exact absurd (Real.sqrt_le_sqrt (not_lt.mp hn)) (not_le.mpr h)

/-! ## Assignment step -/

theorem removeScan_snd (id_point : Int) (ps : List (Point α)) :
    (removeScan id_point ps).2 = ps.eraseP (fun q => decide (q.id_point = id_point)) := by
  induction ps with
  | nil => rfl
  | cons p ps ih =>
    by_cases h : p.id_point = id_point
    · simp [removeScan, Point.getID, h]
    · simp [removeScan, Point.getID, h, ih]

theorem vecAt_map {β γ δ : Type} (xs : List β) (g : β → γ) (i : Int)
    (F : γ → Except Fault δ) :
    (vecAt xs i >>= fun c => F (g c)) = (vecAt (xs.map g) i >>= F) := by
  unfold vecAt
  by_cases hi : i < 0
  · simp [hi]
  · cases hx : xs[i.toNat]? with
    | none => simp [hi, hx]
    | some y => simp [hi, hx]

theorem KMeans.SameCentres.refl (km : KMeans α) : km.SameCentres km :=
  ⟨rfl, rfl, rfl, rfl, rfl, rfl⟩

theorem KMeans.SameCentres.trans {km1 km2 km3 : KMeans α} (h12 : km1.SameCentres km2)
    (h23 : km2.SameCentres km3) : km1.SameCentres km3 :=
  ⟨h12.1.trans h23.1, h12.2.1.trans h23.2.1, h12.2.2.1.trans h23.2.2.1,
    h12.2.2.2.1.trans h23.2.2.2.1, h12.2.2.2.2.1.trans h23.2.2.2.2.1,
    h12.2.2.2.2.2.trans h23.2.2.2.2.2⟩

theorem KMeans.SameCentres.symm {km1 km2 : KMeans α} (h : km1.SameCentres km2) :
    km2.SameCentres km1 :=
  ⟨h.1.symm, h.2.1.symm, h.2.2.1.symm, h.2.2.2.1.symm, h.2.2.2.2.1.symm, h.2.2.2.2.2.symm⟩

theorem KMeans.SameCentres.shaped {km1 km2 : KMeans α} (h : km1.SameCentres km2)
    (hs : km2.Shaped) : km1.Shaped := by
  obtain ⟨hK, htv, _, _, _, hcv⟩ := h
  have hlen : km1.clusters.length = km2.clusters.length := by
    have := congrArg List.length hcv
    simpa using this
  refine ⟨by rw [hlen, hK]; exact hs.1, ?_⟩
  intro c hc
  have hmem : c.central_values ∈ km2.clusters.map Cluster.central_values := by
    rw [← hcv]
    exact List.mem_map_of_mem _ hc
  obtain ⟨c2, hc2, hcc⟩ := List.mem_map.mp hmem
  rw [← hcc, htv]
  exact hs.2 c2 hc2

/-- The query reads only the configuration and the centres. -/
theorem getIDNearestCenter_congr {km1 km2 : KMeans α} (h : km1.SameCentres km2)
    (point : Point α) : km1.getIDNearestCenter point = km2.getIDNearestCenter point := by
  obtain ⟨hK, htv, _, _, _, hcv⟩ := h
  have hsum : ∀ i, km1.sumSquares point i = km2.sumSquares point i := by
    intro i
    unfold KMeans.sumSquares
    rw [htv]
    apply forLoop_congr
    intro j dist _
    have e1 := vecAt_map km1.clusters Cluster.central_values (i : Int)
      (fun cvs => vecAt cvs (j : Int) >>= fun cv =>
        point.getValue (j : Int) >>= fun pv => pure (dist + (cv - pv) ^ 2))
    have e2 := vecAt_map km2.clusters Cluster.central_values (i : Int)
      (fun cvs => vecAt cvs (j : Int) >>= fun cv =>
        point.getValue (j : Int) >>= fun pv => pure (dist + (cv - pv) ^ 2))
    simp only [Cluster.getCentralValue]
    rw [e1, e2, hcv]
  unfold KMeans.getIDNearestCenter
  rw [hK]
  have hbody : km1.nearestBody point = km2.nearestBody point := by
    funext i st
    unfold KMeans.nearestBody
    rw [hsum i]
  rw [hbody]

theorem nearestId_congr {km1 km2 : KMeans α} (h : km1.SameCentres km2) (point : Point α) :
    km1.nearestId point = km2.nearestId point := by
  unfold KMeans.nearestId
  rw [getIDNearestCenter_congr h]

theorem nearestId_of_ok (km : KMeans α) (point : Point α) (n : Int)
    (h : km.getIDNearestCenter point = Except.ok n) : km.nearestId point = n := by
  unfold KMeans.nearestId
  rw [h]

/-- Reading a cluster and writing it back changed is `List.modify`. -/
theorem vecAt_vecSet_modify {β : Type} (cs : List β) (k : Int) (F : β → β) (h0 : 0 ≤ k)
    (hk : k.toNat < cs.length) :
    (vecAt cs k >>= fun c => vecSet cs k (F c)) = Except.ok (cs.modify F k.toNat) := by
  have h1 : vecAt cs k = Except.ok (cs.get ⟨k.toNat, hk⟩) := by
    rw [vecAt_ok_iff]
    exact ⟨h0, by simp [List.getElem?_eq_getElem hk]⟩
  have h2 : vecSet cs k (F (cs.get ⟨k.toNat, hk⟩)) =
      Except.ok (cs.set k.toNat (F (cs.get ⟨k.toNat, hk⟩))) := by
    rw [vecSet_ok_iff]
    exact ⟨h0, hk, rfl⟩
  rw [h1, ok_bind, h2, List.modify_eq_set_get F hk]

theorem map_modify_comm {β γ : Type} (cs : List β) (g : β → γ) (F : β → β) (f : γ → γ)
    (k : Nat) (h : ∀ c, g (F c) = f (g c)) :
    (cs.modify F k).map g = (cs.map g).modify f k := by
  apply List.ext_getElem?
  intro m
  simp only [List.getElem?_map, List.getElem?_modify]
  cases cs[m]? with
  | none => rfl
  | some c =>
    by_cases hkm : k = m
    · simp [hkm, h]
    · simp [hkm]

theorem map_modify_fixed {β γ : Type} (cs : List β) (g : β → γ) (F : β → β) (k : Nat)
    (h : ∀ c, g (F c) = g c) : (cs.modify F k).map g = cs.map g := by
  rw [map_modify_comm cs g F id k (by simpa using h)]
  simp

theorem modify_addPoint_ids (cs : List (Cluster α)) (q : Point α) (k : Nat) :
    (cs.modify (fun c => c.addPoint q) k).map Cluster.id_cluster =
      cs.map Cluster.id_cluster :=
  map_modify_fixed cs Cluster.id_cluster (fun c => c.addPoint q) k (fun _ => rfl)

theorem modify_addPoint_centres (cs : List (Cluster α)) (q : Point α) (k : Nat) :
    (cs.modify (fun c => c.addPoint q) k).map Cluster.central_values =
      cs.map Cluster.central_values :=
  map_modify_fixed cs Cluster.central_values (fun c => c.addPoint q) k (fun _ => rfl)

theorem modify_removePoint_ids (cs : List (Cluster α)) (id_point : Int) (k : Nat) :
    (cs.modify (fun c => (c.removePoint id_point).2) k).map Cluster.id_cluster =
      cs.map Cluster.id_cluster :=
  map_modify_fixed cs Cluster.id_cluster (fun c => (c.removePoint id_point).2) k
    (fun _ => rfl)

theorem modify_removePoint_centres (cs : List (Cluster α)) (id_point : Int) (k : Nat) :
    (cs.modify (fun c => (c.removePoint id_point).2) k).map Cluster.central_values =
      cs.map Cluster.central_values :=
  map_modify_fixed cs Cluster.central_values (fun c => (c.removePoint id_point).2) k
    (fun _ => rfl)

theorem set_of_getElem? {β : Type} (xs : List β) (i : Nat) (x : β) (h : xs[i]? = some x) :
    xs.set i x = xs := by
  apply List.ext_getElem?
  intro m
  rw [List.getElem?_set]
  by_cases him : i = m
  · subst him
    have hlt : i < xs.length := (List.getElem?_eq_some.mp h).1
    simp [hlt, h]
  · simp [him]

theorem setCluster_self (p : Point α) : p.setCluster p.id_cluster = p := by
  cases p
  rfl

/-- One iteration of the assignment loop on a point whose nearest centre is `n`: the
point is relabelled, the centres are left alone and the member collections change as
`migrateSpec` says. -/
theorem assignBody_spec (km : KMeans α) (pts : List (Point α)) (i : Nat) (p : Point α)
    (n : Nat) (hp : pts[i]? = some p)
    (hnear : km.getIDNearestCenter p = Except.ok (n : Int)) (hn : n < km.clusters.length)
    (hlab : p.id_cluster = -1 ∨
      (0 ≤ p.id_cluster ∧ p.id_cluster.toNat < km.clusters.length)) :
    ∃ km1, KMeans.assignBody i (km, pts) = Except.ok (km1, pts.set i (p.setCluster n)) ∧
      km1.SameCentres km ∧
      km1.clusters.map Cluster.points = migrateSpec (km.clusters.map Cluster.points) p n := by
  have hi : i < pts.length := (List.getElem?_eq_some.mp hp).1
  unfold KMeans.assignBody
  simp only [vecAt_nat _ _ _ hp, ok_bind, hnear, Point.getCluster]
  by_cases hsame : p.id_cluster = (n : Int)
  · refine ⟨km, ?_, KMeans.SameCentres.refl km, ?_⟩
    · rw [← hsame, setCluster_self, set_of_getElem? _ _ _ hp]
      simp [hsame]
    · simp [migrateSpec, hsame]
  · have hneg : ¬ ((n : Int) < 0) := by omega
    have htail : ∀ cs1 : List (Cluster α), cs1.length = km.clusters.length →
        (vecSet pts (i : Int) (p.setCluster (n : Int)) >>= fun points1 =>
          vecAt cs1 (n : Int) >>= fun c =>
          vecSet cs1 (n : Int) (c.addPoint (p.setCluster (n : Int))) >>= fun clusters2 =>
          (pure (KMeans.mk km.K km.total_values km.total_points km.max_iterations clusters2,
            points1) : Except Fault (KMeans α × List (Point α)))) =
        Except.ok (KMeans.mk km.K km.total_values km.total_points km.max_iterations
          (cs1.modify (fun c => c.addPoint (p.setCluster (n : Int))) n),
          pts.set i (p.setCluster (n : Int))) := by
      intro cs1 hlen1
      have hn1 : n < cs1.length := by omega
      simp only [ok_bind, vecSet_nat _ _ _ hi, vecAt_nat_lt _ _ hn1, vecSet_nat _ _ _ hn1,
        pure_eq_ok]
      rw [List.modify_eq_set_get _ hn1]
    by_cases hold : p.id_cluster = -1
    · refine ⟨KMeans.mk km.K km.total_values km.total_points km.max_iterations
        (km.clusters.modify (fun c => c.addPoint (p.setCluster (n : Int))) n), ?_, ?_, ?_⟩
      · simp only [ne_eq, hsame, not_false_eq_true, if_true, hold, not_true_eq_false,
          if_false, pure_eq_ok, ok_bind]
        have := htail km.clusters rfl
        simp only [hold] at this
        exact this
      · exact ⟨rfl, rfl, rfl, rfl, modify_addPoint_ids _ _ _, modify_addPoint_centres _ _ _⟩
      · show (km.clusters.modify _ n).map Cluster.points = _
        simp only [migrateSpec, hsame, if_false, hold, if_true, updateMembers, hneg,
          Int.toNat_ofNat]
        exact map_modify_comm _ _ _ _ _ (fun c => rfl)
    · rcases hlab with h | ⟨h0, hlt⟩
      · exact absurd h hold
      · have hneg0 : ¬ p.id_cluster < 0 := by omega
        have h1 : vecAt km.clusters p.id_cluster =
            Except.ok (km.clusters.get ⟨p.id_cluster.toNat, hlt⟩) := by
          rw [vecAt_ok_iff]
          exact ⟨h0, by simp [List.getElem?_eq_getElem hlt]⟩
        have h2 : ∀ c, vecSet km.clusters p.id_cluster c =
            Except.ok (km.clusters.set p.id_cluster.toNat c) := by
          intro c
          rw [vecSet_ok_iff]
          exact ⟨h0, hlt, rfl⟩
        refine ⟨KMeans.mk km.K km.total_values km.total_points km.max_iterations
          ((km.clusters.modify (fun c => (c.removePoint p.getID).2) p.id_cluster.toNat).modify
            (fun c => c.addPoint (p.setCluster (n : Int))) n), ?_, ?_, ?_⟩
        · simp only [ne_eq, hsame, not_false_eq_true, if_true, hold, h1, h2, ok_bind]
          rw [← List.modify_eq_set_get (fun c => (c.removePoint p.getID).2) hlt]
          exact htail _ (by simp)
        · refine ⟨rfl, rfl, rfl, rfl, ?_, ?_⟩
          · exact (modify_addPoint_ids _ _ _).trans (modify_removePoint_ids _ _ _)
          · exact (modify_addPoint_centres _ _ _).trans (modify_removePoint_centres _ _ _)
        · show ((km.clusters.modify _ _).modify _ n).map Cluster.points = _
          simp only [migrateSpec, hsame, if_false, hold, updateMembers, hneg, hneg0,
            Int.toNat_ofNat]
          rw [map_modify_comm _ Cluster.points _
            (fun ms => ms ++ [p.setCluster (n : Int)]) n (fun c => rfl)]
          rw [map_modify_comm _ Cluster.points _
            (List.eraseP (fun q => decide (q.id_point = p.id_point))) _
            (fun c => by simp [Cluster.removePoint, removeScan_snd, Point.getID])]

theorem assignBody_inv (km : KMeans α) (points : List (Point α)) (hK : 1 ≤ km.K)
    (hs : km.Shaped) (hpts : km.PointsOk points) (hlab : km.LabelsOk points) (i : Nat)
    (st : KMeans α × List (Point α)) (hi : i < points.length)
    (hinv : AssignInv km points i st) :
    ∃ st1, KMeans.assignBody i st = Except.ok st1 ∧ AssignInv km points (i + 1) st1 := by
  obtain ⟨kmi, ptsi⟩ := st
  obtain ⟨hsame, hlen, hget, hmem⟩ := hinv
  simp only at hsame hlen hget hmem
  obtain ⟨q, hp0⟩ : ∃ q, points[i]? = some q :=
    ⟨points.get ⟨i, hi⟩, by simp [List.getElem?_eq_getElem hi]⟩
  have hp : ptsi[i]? = some q := by
    rw [hget i, if_neg (Nat.lt_irrefl i), hp0]
  have hpmem : q ∈ points := List.mem_iff_getElem?.mpr ⟨i, hp0⟩
  have hsi : kmi.Shaped := hsame.shaped hs
  obtain ⟨n, hn, hnlt, _, _⟩ := nearest_spec kmi q
    (by rw [hsame.1]; exact hK) hsi (by rw [hsame.2.1]; exact hpts.2 _ hpmem)
  have hnid : km.nearestId q = (n : Int) := by
    rw [← nearestId_congr hsame]
    exact nearestId_of_ok _ _ _ hn
  have hKlen : km.K = (kmi.clusters.length : Int) := by
    rw [← hsame.1]
    exact hsi.1.symm
  obtain ⟨km1, hbody, hsame1, hmem1⟩ := assignBody_spec kmi ptsi i q n hp
    hn hnlt (by
      rcases hlab _ hpmem with h | ⟨h0, h1⟩
      · exact Or.inl h
      · exact Or.inr ⟨h0, by omega⟩)
  refine ⟨(km1, ptsi.set i (q.setCluster (n : Int))), hbody,
    hsame1.trans hsame, by simp [hlen], ?_, ?_⟩
  · intro j
    simp only
    rw [List.getElem?_set]
    by_cases hij : i = j
    · subst hij
      have hil : i < ptsi.length := by omega
      simp [hil, hp0, KMeans.relabel, hnid]
    · rw [if_neg hij, hget j]
      by_cases hji : j < i
      · have : j < i + 1 := by omega
        simp [hji, this]
      · have : ¬ j < i + 1 := by omega
        simp [hji, this]
  · simp only
    rw [hmem1, hmem, List.take_succ, hp0]
    simp [KMeans.migrateAll, List.foldl_append, hnid]

/-- Effect of the assignment step, proved once for all its uses. -/
theorem assign_spec (km : KMeans α) (points : List (Point α)) (hK : 1 ≤ km.K)
    (hs : km.Shaped) (hpts : km.PointsOk points) (hlab : km.LabelsOk points) :
    ∃ km1, km.assignPointsToClusters points = Except.ok (km1, points.map km.relabel) ∧
      km1.SameCentres km ∧
      km1.clusters.map Cluster.points = km.migrateAll points (km.clusters.map Cluster.points) := by
  have hn : km.total_points.toNat = points.length := by
    have := hpts.1
    omega
  obtain ⟨st, hst, hsame, hlen, hget, hmem⟩ := forLoop_inv (AssignInv km points)
    km.total_points.toNat KMeans.assignBody (km, points)
    ⟨KMeans.SameCentres.refl km, rfl, fun j => by simp, by simp [KMeans.migrateAll]⟩
    (fun i st hi hinv => assignBody_inv km points hK hs hpts hlab i st (by omega) hinv)
  obtain ⟨km1, pts1⟩ := st
  simp only at hsame hlen hget hmem
  have hpts1 : pts1 = points.map km.relabel := by
    apply List.ext_getElem?
    intro j
    rw [hget j, List.getElem?_map]
    by_cases hj : j < km.total_points.toNat
    · simp [hj]
    · have h1 : points[j]? = none := List.getElem?_eq_none (by omega)
      simp [hj, h1]
  refine ⟨km1, ?_, hsame, ?_⟩
  · unfold KMeans.assignPointsToClusters
    rw [hst, hpts1]
  · rw [hmem, hn, List.take_length]

theorem nearestId_ok (km : KMeans α) (p : Point α) (hK : 1 ≤ km.K) (hs : km.Shaped)
    (hp : (p.values.length : Int) = km.total_values) :
    km.getIDNearestCenter p = Except.ok (km.nearestId p) ∧
      0 ≤ km.nearestId p ∧ km.nearestId p < km.K := by
  obtain ⟨n, hn, hlt, _, _⟩ := nearest_spec km p hK hs hp
  rw [nearestId_of_ok km p _ hn]
  have := hs.1
  exact ⟨hn, by omega, by omega⟩

theorem exampleKMeans_shaped : exampleKMeans.Shaped := by
  simp [KMeans.Shaped, exampleKMeans]

theorem examplePoints_ok : exampleKMeans.PointsOk examplePoints := by
  simp [KMeans.PointsOk, exampleKMeans, examplePoints]

theorem examplePoints_labels : exampleKMeans.LabelsOk examplePoints := by
  simp [KMeans.LabelsOk, exampleKMeans, examplePoints]

/-- C2: on `K ≥ 1` clusters and points labelled `-1` or with a cluster index, the
assignment step does not fault; afterwards every point carries the nearest-centre id
computed against the centres the step started from (its id and coordinates untouched),
the configuration, cluster ids and centres are unchanged, and the member collections
are those obtained by migrating the points in order, where a point already labelled with
its nearest centre touches no collection and any other point leaves its old cluster's
members (no removal for the label `-1`) and is appended to the new cluster's members. -/
theorem C2_assignPointsToClusters_effect (km : KMeans α) (points : List (Point α))
    (hK : 1 ≤ km.K) (hs : km.Shaped) (hpts : km.PointsOk points)
    (hlab : km.LabelsOk points) :
    ∃ km1 points1, km.assignPointsToClusters points = Except.ok (km1, points1) ∧
      points1.length = points.length ∧
      (∀ (i : Nat) (p : Point α), points[i]? = some p →
        ∃ n, km.getIDNearestCenter p = Except.ok n ∧ points1[i]? = some (p.setCluster n)) ∧
      km1.SameCentres km ∧
      km1.clusters.map Cluster.points =
        points.foldl (fun m p => migrateSpec m p (km.nearestId p))
          (km.clusters.map Cluster.points) ∧
      (∀ (m : List (List (Point α))) (p : Point α),
        migrateSpec m p p.id_cluster = m) ∧
      (∀ (m : List (List (Point α))) (p : Point α) (n : Int), p.id_cluster ≠ n →
        migrateSpec m p n =
          updateMembers
            (if p.id_cluster = -1 then m
             else updateMembers m p.id_cluster
               (List.eraseP (fun q => decide (q.id_point = p.id_point))))
            n (fun ms => ms ++ [p.setCluster n])) := by
  obtain ⟨km1, hrun, hsame, hmem⟩ := assign_spec km points hK hs hpts hlab
  refine ⟨km1, points.map km.relabel, hrun, by simp, ?_, hsame, hmem, ?_, ?_⟩
  · intro i p hp
    have hpm : p ∈ points := List.mem_iff_getElem?.mpr ⟨i, hp⟩
    exact ⟨km.nearestId p, (nearestId_ok km p hK hs (hpts.2 p hpm)).1,
      by simp [hp, KMeans.relabel]⟩
  · intro m p
    simp [migrateSpec]
  · intro m p n hne
    simp [migrateSpec, hne]

/-- C2 on the example state. -/
theorem C2_assignPointsToClusters_effect_witness :
    ∃ km1 points1,
      exampleKMeans.assignPointsToClusters examplePoints = Except.ok (km1, points1) ∧
      points1.length = examplePoints.length ∧
      (∀ (i : Nat) (p : Point ℚ), examplePoints[i]? = some p →
        ∃ n, exampleKMeans.getIDNearestCenter p = Except.ok n ∧
          points1[i]? = some (p.setCluster n)) ∧
      km1.SameCentres exampleKMeans ∧
      km1.clusters.map Cluster.points =
        examplePoints.foldl (fun m p => migrateSpec m p (exampleKMeans.nearestId p))
          (exampleKMeans.clusters.map Cluster.points) ∧
      (∀ (m : List (List (Point ℚ))) (p : Point ℚ),
        migrateSpec m p p.id_cluster = m) ∧
      (∀ (m : List (List (Point ℚ))) (p : Point ℚ) (n : Int), p.id_cluster ≠ n →
        migrateSpec m p n =
          updateMembers
            (if p.id_cluster = -1 then m
             else updateMembers m p.id_cluster
               (List.eraseP (fun q => decide (q.id_point = p.id_point))))
            n (fun ms => ms ++ [p.setCluster n])) :=
  C2_assignPointsToClusters_effect exampleKMeans examplePoints (by decide)
    exampleKMeans_shaped examplePoints_ok examplePoints_labels

/-! ## Centre recomputation -/

/-- The innermost loop adds up coordinate `j` over the members. -/
theorem memberSum_eq (c : Cluster α) (j : Nat) (hq : ∀ q ∈ c.points, j < q.values.length) :
    forLoop c.points.length
      (fun p (sum : α) => do
        let pt ← c.getPoint p
        let v ← pt.getValue j
        pure (sum + v)) 0 =
      Except.ok ((c.points.map (fun q => q.values.getD j 0)).sum) := by
  obtain ⟨r, hr, hP⟩ := forLoop_inv
    (fun p (sum : α) => sum = (((c.points.take p).map (fun q => q.values.getD j 0)).sum))
    c.points.length
    (fun p (sum : α) => do
      let pt ← c.getPoint p
      let v ← pt.getValue j
      pure (sum + v)) 0 (by simp)
    (by
      intro p sum hp hsum
      obtain ⟨q, hq0⟩ : ∃ q, c.points[p]? = some q :=
        ⟨c.points.get ⟨p, hp⟩, by simp [List.getElem?_eq_getElem hp]⟩
      have hqm : q ∈ c.points := List.mem_iff_getElem?.mpr ⟨p, hq0⟩
      refine ⟨sum + q.values.getD j 0, ?_, ?_⟩
      · simp only [Cluster.getPoint, Point.getValue, vecAt_nat _ _ _ hq0, ok_bind,
          vecAt_getD q.values j 0 (hq q hqm), pure_eq_ok]
      · show sum + q.values.getD j 0 =
          ((c.points.take (p + 1)).map (fun q => q.values.getD j 0)).sum
        rw [List.take_succ, hq0, hsum]
        simp [List.sum_append])
  rw [hr, hP, List.take_length]

theorem recalcBody_spec (km : KMeans α) (i j : Nat) (c : Cluster α)
    (hc : km.clusters[i]? = some c) (hj : j < c.central_values.length)
    (hq : ∀ q ∈ c.points, j < q.values.length) :
    KMeans.recalcBody i j km =
      Except.ok (KMeans.mk km.K km.total_values km.total_points km.max_iterations
        (km.clusters.set i (stepCentre c j))) := by
  have hi : i < km.clusters.length := (List.getElem?_eq_some.mp hc).1
  unfold KMeans.recalcBody
  simp only [vecAt_nat _ _ _ hc, ok_bind, Cluster.getTotalPoints]
  by_cases hm : c.points.length = 0
  · simp only [hm, stepCentre, if_true, set_of_getElem? _ _ _ hc]
    simp
  · have hpos : ((c.points.length : Int) > 0) := by omega
    simp only [hpos, if_true, Int.toNat_ofNat]
    rw [memberSum_eq c j hq]
    simp only [ok_bind, Cluster.setCentralValue, vecSet_nat _ _ _ hj, vecSet_nat _ _ _ hi,
      pure_eq_ok, stepCentre, hm, if_false, meanCoord, Int.cast_natCast]

theorem recentre_zero (c : Cluster α) : recentre c 0 = c := by
  unfold recentre
  by_cases hm : c.points.length = 0
  · simp [hm]
  · simp only [hm, if_false, Nat.not_lt_zero]
    have : c.central_values.mapIdx (fun _ x => x) = c.central_values := by
      apply List.ext_getElem?
      intro m
      simp
    simp [this]

theorem stepCentre_recentre (c : Cluster α) (j : Nat) :
    stepCentre (recentre c j) j = recentre c (j + 1) := by
  unfold stepCentre recentre
  by_cases hm : c.points.length = 0
  · simp [hm]
  · simp only [hm, if_false]
    congr 1
    apply List.ext_getElem?
    intro m
    rw [List.getElem?_set]
    simp only [List.length_mapIdx, List.getElem?_mapIdx]
    by_cases hjm : j = m
    · subst hjm
      by_cases hl : j < c.central_values.length
      · simp [hl, List.getElem?_eq_getElem hl]
      · simp [hl, List.getElem?_eq_none (not_lt.mp hl)]
    · simp only [hjm, if_false]
      cases c.central_values[m]? with
      | none => rfl
      | some x =>
        by_cases h1 : m < j
        · have : m < j + 1 := by omega
          simp [h1, this]
        · have : ¬ m < j + 1 := by omega
          simp [h1, this]

theorem recentre_points (c : Cluster α) (j : Nat) : (recentre c j).points = c.points := by
  unfold recentre
  split <;> rfl

theorem recentre_id (c : Cluster α) (j : Nat) : (recentre c j).id_cluster = c.id_cluster := by
  unfold recentre
  split <;> rfl

theorem recentre_length (c : Cluster α) (j : Nat) :
    (recentre c j).central_values.length = c.central_values.length := by
  unfold recentre
  split
  · rfl
  · simp

theorem KMeans.mk_eta (km : KMeans α) :
    KMeans.mk km.K km.total_values km.total_points km.max_iterations km.clusters = km := by
  cases km
  rfl

/-- The loop over the coordinates of cluster `i`. -/
theorem recalcCluster_spec (km : KMeans α) (i : Nat) (c : Cluster α) (tv : Nat)
    (hc : km.clusters[i]? = some c) (hcv : c.central_values.length = tv)
    (hq : ∀ q ∈ c.points, q.values.length = tv) :
    forLoop tv (KMeans.recalcBody i) km =
      Except.ok (KMeans.mk km.K km.total_values km.total_points km.max_iterations
        (km.clusters.set i (recentre c tv))) := by
  have hi : i < km.clusters.length := (List.getElem?_eq_some.mp hc).1
  obtain ⟨r, hr, hP⟩ := forLoop_inv
    (fun j (km1 : KMeans α) =>
      km1 = KMeans.mk km.K km.total_values km.total_points km.max_iterations
        (km.clusters.set i (recentre c j)))
    tv (KMeans.recalcBody i) km
    (by
      show km = _
      rw [recentre_zero, set_of_getElem? _ _ _ hc, KMeans.mk_eta])
    (by
      intro j km1 hj hkm1
      subst hkm1
      refine ⟨_, recalcBody_spec _ i j (recentre c j) ?_ ?_ ?_, ?_⟩
      · show (km.clusters.set i (recentre c j))[i]? = some (recentre c j)
        exact List.getElem?_set_self hi
      · rw [recentre_length]
        omega
      · intro q hqm
        rw [recentre_points] at hqm
        have := hq q hqm
        omega
      · show KMeans.mk _ _ _ _ _ = KMeans.mk _ _ _ _ _
        simp only [List.set_set, stepCentre_recentre])
  rw [hr, hP]

/-- The centre recomputation on a well-shaped object does not fault and recentres
every cluster, touching nothing else. -/
theorem recalc_spec (km : KMeans α) (hs : km.Shaped) (hm : km.MembersOk) :
    km.recalcCenters =
      Except.ok (KMeans.mk km.K km.total_values km.total_points km.max_iterations
        (km.clusters.map (fun c => recentre c km.total_values.toNat))) := by
  have hlen : km.K.toNat = km.clusters.length := by
    have := hs.1
    omega
  obtain ⟨r, hr, hP⟩ := forLoop_inv
    (fun i (km1 : KMeans α) =>
      km1 = KMeans.mk km.K km.total_values km.total_points km.max_iterations
        (km.clusters.mapIdx
          (fun k c => if k < i then recentre c km.total_values.toNat else c)))
    km.K.toNat
    (fun i km1 => forLoop km.total_values.toNat (KMeans.recalcBody i) km1) km
    (by
      show km = _
      have : km.clusters.mapIdx (fun _ c => c) = km.clusters := by
        apply List.ext_getElem?
        intro m
        simp
      simp only [Nat.not_lt_zero, if_false, this, KMeans.mk_eta])
    (by
      intro i km1 hi hkm1
      subst hkm1
      have hil0 : i < km.clusters.length := by omega
      obtain ⟨c, hc⟩ : ∃ c, km.clusters[i]? = some c :=
        ⟨km.clusters.get ⟨i, hil0⟩, by simp [List.getElem?_eq_getElem hil0]⟩
      have hcm : c ∈ km.clusters := List.mem_iff_getElem?.mpr ⟨i, hc⟩
      refine ⟨_, recalcCluster_spec _ i c km.total_values.toNat ?_ ?_ ?_, ?_⟩
      · show (km.clusters.mapIdx _)[i]? = some c
        simp [hc]
      · have := hs.2 c hcm
        omega
      · intro q hq
        have := hm c hcm q hq
        omega
      · show KMeans.mk _ _ _ _ _ = KMeans.mk _ _ _ _ _
        congr 1
        apply List.ext_getElem?
        intro m
        rw [List.getElem?_set]
        simp only [List.length_mapIdx, List.getElem?_mapIdx]
        by_cases him : i = m
        · subst him
          have hil : i < km.clusters.length := by omega
          simp [hil, hc]
        · simp only [him, if_false]
          cases km.clusters[m]? with
          | none => rfl
          | some x =>
            by_cases h1 : m < i
            · have : m < i + 1 := by omega
              simp [h1, this]
            · have : ¬ m < i + 1 := by omega
              simp [h1, this])
  unfold KMeans.recalcCenters
  rw [hr, hP]
  congr 2
  apply List.ext_getElem?
  intro m
  simp only [List.getElem?_mapIdx, List.getElem?_map]
  cases hx : km.clusters[m]? with
  | none => rfl
  | some x =>
    have : m < km.K.toNat := by
      rw [hlen]
      exact (List.getElem?_eq_some.mp hx).1
    simp [this]

theorem exampleKMeans_members : exampleKMeans.MembersOk := by
  simp [KMeans.MembersOk, exampleKMeans]

/-! ## Termination check -/

/-- The check loop entered with the flag `done0`: no fault, and the flag comes out true
exactly when it went in true and every label is the nearest-centre id. -/
theorem check_spec (km : KMeans α) (points : List (Point α)) (done0 : Bool)
    (hK : 1 ≤ km.K) (hs : km.Shaped) (hpts : km.PointsOk points) :
    km.checkTermination points done0 =
      Except.ok (done0 && points.all (fun p => decide (p.id_cluster = km.nearestId p))) := by
  have hn : km.total_points.toNat = points.length := by
    have := hpts.1
    omega
  obtain ⟨d, hd, hP⟩ := forLoop_inv
    (fun i (done : Bool) =>
      done = (done0 && (points.take i).all (fun p => decide (p.id_cluster = km.nearestId p))))
    km.total_points.toNat
    (fun i (done : Bool) => do
      let pt ← vecAt points i
      let id_old_cluster := pt.getCluster
      let id_nearest_center ← km.getIDNearestCenter pt
      if id_old_cluster ≠ id_nearest_center then pure false else pure done) done0
    (by simp)
    (by
      intro i done hi hdone
      obtain ⟨q, hq⟩ : ∃ q, points[i]? = some q :=
        ⟨points.get ⟨i, by omega⟩, by simp [List.getElem?_eq_getElem (by omega : i < points.length)]⟩
      have hqm : q ∈ points := List.mem_iff_getElem?.mpr ⟨i, hq⟩
      have hnear := (nearestId_ok km q hK hs (hpts.2 q hqm)).1
      refine ⟨done && decide (q.id_cluster = km.nearestId q), ?_, ?_⟩
      · simp only [vecAt_nat _ _ _ hq, ok_bind, hnear, Point.getCluster, pure_eq_ok]
        by_cases hsame : q.id_cluster = km.nearestId q
        · simp [hsame]
        · simp [hsame]
      · show (done && decide (q.id_cluster = km.nearestId q)) = _
        rw [List.take_succ, hq, hdone]
        simp [List.all_append, Bool.and_assoc])
  unfold KMeans.checkTermination
  rw [hd, hP, hn, List.take_length]

/-- C4: entered with `done = true` as in the driver loop, the termination check does
not fault and leaves `done` true if and only if every point's `cluster_id` equals the
nearest-centre id of that point under the current centres; `done` is false if and only
if some point's nearest-centre id differs from its `cluster_id`. -/
theorem C4_checkTermination_iff (km : KMeans α) (points : List (Point α))
    (hK : 1 ≤ km.K) (hs : km.Shaped) (hpts : km.PointsOk points) :
    ∃ done : Bool, km.checkTermination points true = Except.ok done ∧
      (∀ p ∈ points, km.getIDNearestCenter p = Except.ok (km.nearestId p)) ∧
      (done = true ↔ ∀ p ∈ points, p.id_cluster = km.nearestId p) ∧
      (done = false ↔ ∃ p ∈ points, km.nearestId p ≠ p.id_cluster) := by
  refine ⟨_, check_spec km points true hK hs hpts,
    fun p hp => (nearestId_ok km p hK hs (hpts.2 p hp)).1, ?_, ?_⟩
  · simp [List.all_eq_true]
  · simp only [Bool.true_and, List.all_eq_false, decide_eq_true_eq]
    constructor
    · rintro ⟨p, hp, hne⟩
      exact ⟨p, hp, fun h => hne h.symm⟩
    · rintro ⟨p, hp, hne⟩
      exact ⟨p, hp, fun h => hne h.symm⟩

/-- C4 on the example state. -/
theorem C4_checkTermination_iff_witness :
    ∃ done : Bool, exampleKMeans.checkTermination examplePoints true = Except.ok done ∧
      (∀ p ∈ examplePoints,
        exampleKMeans.getIDNearestCenter p = Except.ok (exampleKMeans.nearestId p)) ∧
      (done = true ↔ ∀ p ∈ examplePoints, p.id_cluster = exampleKMeans.nearestId p) ∧
      (done = false ↔ ∃ p ∈ examplePoints, exampleKMeans.nearestId p ≠ p.id_cluster) :=
  C4_checkTermination_iff exampleKMeans examplePoints (by decide) exampleKMeans_shaped
    examplePoints_ok

theorem checkPhase_spec (s : LoopState α) (hK : 1 ≤ s.km.K) (hs : s.km.Shaped)
    (hpts : s.km.PointsOk s.points) :
    KMeans.checkPhase s =
      Except.ok { s with done :=
        (s.done && s.points.all (fun p => decide (p.id_cluster = s.km.nearestId p))) } := by
  unfold KMeans.checkPhase
  rw [check_spec s.km s.points s.done hK hs hpts]
  rfl

/-- C5: the termination check does not fault and changes nothing but the flag: the
object (centres and member collections) and the points (labels included) come out as
they went in; run a second time in succession, on the state the first run left or with
the flag reset to `true` as the driver does, it yields the same boolean again. -/
theorem C5_check_read_only_idempotent (s : LoopState α) (hK : 1 ≤ s.km.K)
    (hs : s.km.Shaped) (hpts : s.km.PointsOk s.points) (hdone : s.done = true) :
    ∃ s1, KMeans.checkPhase s = Except.ok s1 ∧
      s1.km = s.km ∧ s1.points = s.points ∧ s1.iter = s.iter ∧
      KMeans.checkPhase s1 = Except.ok s1 ∧
      KMeans.checkPhase { s1 with done := true } = Except.ok s1 := by
  refine ⟨_, checkPhase_spec s hK hs hpts, rfl, rfl, rfl, ?_, ?_⟩
  · rw [checkPhase_spec _ (by exact hK) (by exact hs) (by exact hpts)]
    simp [Bool.and_assoc]
  · rw [checkPhase_spec _ (by exact hK) (by exact hs) (by exact hpts)]
    simp [hdone]

/-- C5 on the example state. -/
theorem C5_check_read_only_idempotent_witness :
    ∃ s1 : LoopState ℚ,
      KMeans.checkPhase
        { km := exampleKMeans, points := examplePoints, iter := 1, done := true } =
        Except.ok s1 ∧
      s1.km = exampleKMeans ∧ s1.points = examplePoints ∧ s1.iter = 1 ∧
      KMeans.checkPhase s1 = Except.ok s1 ∧
      KMeans.checkPhase { s1 with done := true } = Except.ok s1 :=
  C5_check_read_only_idempotent
    { km := exampleKMeans, points := examplePoints, iter := 1, done := true }
    (by decide) exampleKMeans_shaped examplePoints_ok rfl

/-! ## Degenerate input -/

/-- C9: when `K > total_points`, `run` on a freshly constructed object returns without
fault, whatever the points, the draws and the step budget: there is still no cluster,
the point vector is returned as it was (labels `-1` stay `-1`), no draw is consumed and
nothing is printed. -/
theorem C9_run_degenerate (K total_points total_values max_iterations : Int)
    (points : List (Point α)) (draws : List Nat) (fuel : Nat) (h : K > total_points) :
    ∃ r, (KMeans.new K total_points total_values max_iterations :
        KMeans α).run fuel points draws = Except.ok r ∧
      r.km.clusters = [] ∧ r.points = points ∧
      ((∀ p ∈ points, p.id_cluster = -1) → ∀ p ∈ r.points, p.id_cluster = -1) ∧
      r.draws = draws ∧ r.output = [] := by
  refine ⟨{ km := KMeans.new K total_points total_values max_iterations, points := points,
            draws := draws, output := [] }, ?_, rfl, rfl, fun hp => hp, rfl, rfl⟩
  unfold KMeans.run
  have hgt : (KMeans.new K total_points total_values max_iterations : KMeans α).K >
      (KMeans.new K total_points total_values max_iterations : KMeans α).total_points := h
  rw [if_pos hgt]
  rfl

/-- C9 at `K = 3`, `total_points = 2`. -/
theorem C9_run_degenerate_witness :
    ∃ r, (KMeans.new 3 2 1 10 : KMeans ℚ).run 0 examplePoints [5, 7] = Except.ok r ∧
      r.km.clusters = [] ∧ r.points = examplePoints ∧
      ((∀ p ∈ examplePoints, p.id_cluster = -1) → ∀ p ∈ r.points, p.id_cluster = -1) ∧
      r.draws = [5, 7] ∧ r.output = [] :=
  C9_run_degenerate 3 2 1 10 examplePoints [5, 7] 0 (by decide)

/-! ## Seeding of the clusters -/

/-- The coordinate-copy loop of the `Cluster` constructor. -/
theorem copyLoop_eq (p : Point α) (n : Nat) (hn : n ≤ p.values.length) :
    forLoop n
      (fun i (cv : List α) => do
        let v ← p.getValue i
        pure (cv ++ [v])) [] = Except.ok (p.values.take n) := by
  obtain ⟨r, hr, hP⟩ := forLoop_inv (fun i (cv : List α) => cv = p.values.take i) n
    (fun i (cv : List α) => do
      let v ← p.getValue i
      pure (cv ++ [v])) [] (by simp)
    (by
      intro i cv hi hcv
      obtain ⟨v, hv⟩ : ∃ v, p.values[i]? = some v :=
        ⟨p.values.get ⟨i, by omega⟩,
          by simp [List.getElem?_eq_getElem (by omega : i < p.values.length)]⟩
      refine ⟨cv ++ [v], ?_, ?_⟩
      · simp only [Point.getValue, vecAt_nat _ _ _ hv, ok_bind, pure_eq_ok]
      · show cv ++ [v] = p.values.take (i + 1)
        rw [List.take_succ, hv, hcv]
        rfl)
  rw [hr, hP]

theorem Cluster.new_eq (id_cluster : Int) (p : Point α)
    (hp : p.total_values = (p.values.length : Int)) :
    Cluster.new id_cluster p = Except.ok (Cluster.mk id_cluster p.values [p]) := by
  unfold Cluster.new
  simp only [Point.getTotalValues, hp, Int.toNat_ofNat]
  rw [copyLoop_eq p p.values.length (le_refl _), List.take_length]
  rfl

theorem candidates_cons (km : KMeans α) (r : Nat) (rest : List Nat) :
    km.candidates (r :: rest) = Int.tmod (r : Int) km.total_points :: km.candidates rest := rfl

/-- The rejection loop for cluster `i`: with a fresh candidate among the remaining
draws it stops at the first one, labels that point and builds the cluster from it. -/
theorem drawCenter_spec (i : Nat) (km : KMeans α) (pts : List (Point α)) (base : List Int)
    (htp : 0 < km.total_points) (hlen : (pts.length : Int) = km.total_points)
    (hbuilt : ∀ p ∈ pts, p.total_values = (p.values.length : Int))
    (rest : List Nat) (hfresh : firstDistinct base (km.candidates rest) ≠ []) :
    ∃ (x : Int) (p : Point α) (used rest1 : List Nat),
      KMeans.drawCenter i km pts base rest =
        Except.ok (KMeans.mk km.K km.total_values km.total_points km.max_iterations
            (km.clusters ++ [Cluster.mk (i : Int) p.values [p.setCluster (i : Int)]]),
          pts.set x.toNat (p.setCluster (i : Int)), base ++ [x], rest1) ∧
      rest = used ++ rest1 ∧ x ∉ base ∧ 0 ≤ x ∧ x < km.total_points ∧
      pts[x.toNat]? = some p ∧
      firstDistinct base (km.candidates rest) =
        x :: firstDistinct (base ++ [x]) (km.candidates rest1) := by
  induction rest with
  | nil => exact absurd rfl hfresh
  | cons r rest1 ih =>
    have hne : km.total_points ≠ 0 := by omega
    by_cases hx : Int.tmod (r : Int) km.total_points ∈ base
    · have hfd : firstDistinct base (km.candidates (r :: rest1)) =
          firstDistinct base (km.candidates rest1) := by
        rw [candidates_cons]
        simp [firstDistinct, hx]
      obtain ⟨x, p, used, rest2, hrun, hsplit, hxb, hx0, hxlt, hpx, hfd2⟩ :=
        ih (by rw [← hfd]; exact hfresh)
      refine ⟨x, p, r :: used, rest2, ?_, by simp [hsplit], hxb, hx0, hxlt, hpx, ?_⟩
      · rw [← hrun]
        simp [KMeans.drawCenter, hne, hx]
      · rw [hfd, hfd2]
    · have hx0 : 0 ≤ Int.tmod (r : Int) km.total_points :=
        Int.tmod_nonneg _ (Int.ofNat_nonneg r)
      have hxlt : Int.tmod (r : Int) km.total_points < km.total_points :=
        Int.tmod_lt_of_pos _ htp
      have hxl : (Int.tmod (r : Int) km.total_points).toNat < pts.length := by omega
      obtain ⟨p, hp⟩ : ∃ p, pts[(Int.tmod (r : Int) km.total_points).toNat]? = some p :=
        ⟨pts.get ⟨_, hxl⟩, by simp [List.getElem?_eq_getElem hxl]⟩
      have hpm : p ∈ pts := List.mem_iff_getElem?.mpr ⟨_, hp⟩
      have hat : vecAt pts (Int.tmod (r : Int) km.total_points) = Except.ok p :=
        (vecAt_ok_iff _ _ _).mpr ⟨hx0, hp⟩
      have hset : vecSet pts (Int.tmod (r : Int) km.total_points) (p.setCluster (i : Int)) =
          Except.ok (pts.set (Int.tmod (r : Int) km.total_points).toNat
            (p.setCluster (i : Int))) :=
        (vecSet_ok_iff _ _ _ _).mpr ⟨hx0, hxl, rfl⟩
      have hnew : Cluster.new (i : Int) (p.setCluster (i : Int)) =
          Except.ok (Cluster.mk (i : Int) p.values [p.setCluster (i : Int)]) :=
        Cluster.new_eq _ _ (hbuilt p hpm)
      refine ⟨Int.tmod (r : Int) km.total_points, p, [r], rest1, ?_, rfl, hx, hx0, hxlt, hp, ?_⟩
      · simp only [KMeans.drawCenter, hne, if_false, hx, not_false_eq_true, if_true, hat,
          ok_bind, hset, hnew, pure_eq_ok]
      · rw [candidates_cons]
        simp [firstDistinct, hx]

theorem candidates_congr (km km0 : KMeans α) (h : km.total_points = km0.total_points)
    (draws : List Nat) : km.candidates draws = km0.candidates draws := by
  unfold KMeans.candidates
  rw [h]

theorem seed_step (km0 : KMeans α) (points0 : List (Point α)) (draws0 : List Nat)
    (htp : 0 < km0.total_points) (hlen : (points0.length : Int) = km0.total_points)
    (henough : km0.K.toNat ≤ (firstDistinct [] (km0.candidates draws0)).length)
    (i : Nat) (st : KMeans α × List (Point α) × List Int × List Nat)
    (hi : i < km0.K.toNat) (hinv : SeedInv km0 points0 draws0 i st) :
    ∃ st1, KMeans.drawCenter i st.1 st.2.1 st.2.2.1 st.2.2.2 = Except.ok st1 ∧
      SeedInv km0 points0 draws0 (i + 1) st1 := by
  obtain ⟨km, pts, base, rest⟩ := st
  have hI := hinv
  obtain ⟨cK, cV, cP, cM, nb, nc, hord, hnd, hrg, hnp, hbuilt, hseed, hoth, ⟨used0, hused0⟩⟩ :=
    hinv
  simp only at cK cV cP cM nb nc hord hnd hrg hnp hbuilt hseed hoth hused0
  have hfresh : firstDistinct base (km.candidates rest) ≠ [] := by
    rw [candidates_congr km km0 cP]
    intro hnil
    rw [hnil, List.append_nil] at hord
    have := congrArg List.length hord
    omega
  obtain ⟨x, p, used, rest1, hrun, hsplit, hxb, hx0, hxlt, hpx, hfd⟩ :=
    drawCenter_spec i km pts base (by rw [cP]; exact htp) (by rw [cP, hnp]; exact hlen)
      hbuilt rest hfresh
  rw [candidates_congr km km0 cP, candidates_congr km km0 cP] at hfd
  have hp0 : points0[x.toNat]? = some p := by
    rw [← hoth x.toNat (by rw [Int.toNat_of_nonneg hx0]; exact hxb)]
    exact hpx
  have hxl : x.toNat < pts.length := (List.getElem?_eq_some.mp hpx).1
  refine ⟨_, hrun, ?_⟩
  refine ⟨cK, cV, cP, cM, by simp [nb], by simp [nc], ?_, ?_, ?_, by simp [hnp], ?_, ?_, ?_, ?_⟩
  · show (base ++ [x]) ++ firstDistinct (base ++ [x]) (km0.candidates rest1) = _
    rw [← hord, hfd]
    simp
  · show (base ++ [x]).Nodup
    rw [List.nodup_append]
    refine ⟨hnd, List.nodup_singleton x, ?_⟩
    intro a ha hb
    rw [List.mem_singleton] at hb
    exact hxb (hb ▸ ha)
  · intro y hy
    show 0 ≤ y ∧ y < km0.total_points
    rcases List.mem_append.mp hy with h | h
    · exact hrg y h
    · rw [List.mem_singleton] at h
      subst h
      exact ⟨hx0, by rw [← cP]; exact hxlt⟩
  · intro q hq
    rcases List.mem_or_eq_of_mem_set hq with h | h
    · exact hbuilt q h
    · rw [h]
      exact hbuilt p (List.mem_iff_getElem?.mpr ⟨_, hpx⟩)
  · intro k y q hk hq
    show (km.clusters ++ [Cluster.mk (i : Int) p.values [p.setCluster (i : Int)]])[k]? = _ ∧
      (pts.set x.toNat (p.setCluster (i : Int)))[y.toNat]? = _
    have hk1 : (base ++ [x])[k]? = some y := hk
    by_cases hki : k < base.length
    · rw [List.getElem?_append_left hki] at hk1
      obtain ⟨hc, hpt⟩ := hseed k y q hk1 hq
      have hyb : y ∈ base := List.mem_iff_getElem?.mpr ⟨k, hk1⟩
      have hne : x.toNat ≠ y.toNat := by
        intro heq
        have hy0 := (hrg y hyb).1
        have : x = y := by omega
        exact hxb (this ▸ hyb)
      refine ⟨?_, ?_⟩
      · rw [List.getElem?_append_left (by omega)]
        exact hc
      · rw [List.getElem?_set_ne hne]
        exact hpt
    · have hkl : k = base.length := by
        have hlt : k < (base ++ [x]).length := (List.getElem?_eq_some.mp hk1).1
        simp at hlt
        omega
      subst hkl
      rw [List.getElem?_concat_length] at hk1
      have hyx : x = y := Option.some.inj hk1
      subst hyx
      have hqp : p = q := Option.some.inj (hp0.symm.trans hq)
      subst hqp
      refine ⟨?_, ?_⟩
      · rw [nb, ← nc, List.getElem?_concat_length]
      · rw [List.getElem?_set_self hxl, nb]
  · intro j hj
    show (pts.set x.toNat (p.setCluster (i : Int)))[j]? = _
    have hj1 : (j : Int) ∉ base ++ [x] := hj
    rw [List.mem_append, List.mem_singleton] at hj1
    have hne : x.toNat ≠ j := by
      intro heq
      apply hj1
      right
      omega
    rw [List.getElem?_set_ne hne]
    exact hoth j (fun h => hj1 (Or.inl h))
  · exact ⟨used0 ++ used, by rw [hused0, hsplit, List.append_assoc]⟩

/-- The seeding loop: with `K` distinct candidates among the draws it does not fault
and ends in a state satisfying the invariant for `K` clusters. -/
theorem seed_spec (km : KMeans α) (points : List (Point α)) (draws : List Nat)
    (hK : 1 ≤ km.K) (hKtp : km.K ≤ km.total_points) (hcl : km.clusters = [])
    (hlen : (points.length : Int) = km.total_points)
    (hbuilt : ∀ p ∈ points, p.total_values = (p.values.length : Int))
    (henough : km.K.toNat ≤ (firstDistinct [] (km.candidates draws)).length) :
    ∃ st, km.chooseCenters points draws = Except.ok st ∧
      SeedInv km points draws km.K.toNat st := by
  unfold KMeans.chooseCenters
  apply forLoop_inv (SeedInv km points draws) km.K.toNat
  · exact
      { cfgK := rfl, cfgV := rfl, cfgP := rfl, cfgM := rfl, nbase := rfl
        nclusters := by simp [hcl]
        order := by simp
        nodup := List.nodup_nil
        range := fun x hx => absurd hx (List.not_mem_nil x)
        npoints := rfl
        built := hbuilt
        seeded := fun k x p hk _ => by simp at hk
        others := fun j _ => rfl
        consumed := ⟨[], rfl⟩ }
  · intro i st hi hinv
    exact seed_step km points draws (by omega) hlen henough i st hi hinv

/-- C10: for `1 ≤ K ≤ total_points`, on a freshly constructed object and points, and
draws that contain `K` distinct candidates `rand() % total_points`, the seeding does not
fault; the selected indices are the first `K` distinct candidates in order of first
occurrence, pairwise distinct and in `[0, total_points)`; exactly `K` clusters exist,
cluster `i` has id `i`, the coordinates of the `i`-th selected point as centre and that
point (labelled `i`) as only member; the `i`-th selected point is labelled `i` and every
other point is untouched, label `-1` included. -/
theorem C10_chooseCenters_postcondition (km : KMeans α) (points : List (Point α))
    (draws : List Nat) (hK : 1 ≤ km.K) (hKtp : km.K ≤ km.total_points)
    (hcl : km.clusters = []) (hlen : (points.length : Int) = km.total_points)
    (hbuilt : ∀ p ∈ points, p.Built)
    (henough : km.K.toNat ≤ (firstDistinct [] (km.candidates draws)).length) :
    ∃ km1 pts1 sel rest, km.chooseCenters points draws = Except.ok (km1, pts1, sel, rest) ∧
      sel = (firstDistinct [] (km.candidates draws)).take km.K.toNat ∧
      (sel.length : Int) = km.K ∧ sel.Nodup ∧
      (∀ x ∈ sel, 0 ≤ x ∧ x < km.total_points) ∧
      (km1.clusters.length : Int) = km.K ∧
      km1.K = km.K ∧ km1.total_values = km.total_values ∧
      km1.total_points = km.total_points ∧ km1.max_iterations = km.max_iterations ∧
      pts1.length = points.length ∧
      (∀ (i : Nat) (x : Int), sel[i]? = some x →
        ∃ p, points[x.toNat]? = some p ∧
          km1.clusters[i]? = some (Cluster.mk (i : Int) p.values [p.setCluster (i : Int)]) ∧
          pts1[x.toNat]? = some (p.setCluster (i : Int))) ∧
      (∀ (j : Nat) (p : Point α), (j : Int) ∉ sel → points[j]? = some p →
        pts1[j]? = some p ∧ p.id_cluster = -1) ∧
      (∃ used, draws = used ++ rest) := by
  obtain ⟨st, hrun, hinv⟩ := seed_spec km points draws hK hKtp hcl hlen
    (fun p hp => (hbuilt p hp).2) henough
  obtain ⟨km1, pts1, sel, rest⟩ := st
  obtain ⟨cK, cV, cP, cM, nb, nc, hord, hnd, hrg, hnp, _, hseed, hoth, hused⟩ := hinv
  simp only at cK cV cP cM nb nc hord hnd hrg hnp hseed hoth hused
  refine ⟨km1, pts1, sel, rest, hrun, ?_, by omega, hnd, hrg, by omega, cK, cV, cP, cM, hnp,
    ?_, ?_, hused⟩
  · rw [← hord]
    exact (List.take_left' nb).symm
  · intro i x hx
    have hxm : x ∈ sel := List.mem_iff_getElem?.mpr ⟨i, hx⟩
    obtain ⟨hx0, hxlt⟩ := hrg x hxm
    have hxl : x.toNat < points.length := by omega
    exact ⟨points.get ⟨x.toNat, hxl⟩, by simp [List.getElem?_eq_getElem hxl],
      hseed i x _ hx (by simp [List.getElem?_eq_getElem hxl])⟩
  · intro j p hj hp
    exact ⟨(hoth j hj).trans hp, (hbuilt p (List.mem_iff_getElem?.mpr ⟨j, hp⟩)).1⟩

/-- C10 on three fresh points, `K = 2` and the draws `0, 3, 4` (candidates `0, 0, 1`). -/
theorem C10_chooseCenters_postcondition_witness :
    ∃ km1 pts1 sel rest,
      freshKMeans.chooseCenters freshPoints [0, 3, 4] = Except.ok (km1, pts1, sel, rest) ∧
      sel = (firstDistinct [] (freshKMeans.candidates [0, 3, 4])).take freshKMeans.K.toNat ∧
      (sel.length : Int) = freshKMeans.K ∧ sel.Nodup ∧
      (∀ x ∈ sel, 0 ≤ x ∧ x < freshKMeans.total_points) ∧
      (km1.clusters.length : Int) = freshKMeans.K ∧
      km1.K = freshKMeans.K ∧ km1.total_values = freshKMeans.total_values ∧
      km1.total_points = freshKMeans.total_points ∧
      km1.max_iterations = freshKMeans.max_iterations ∧
      pts1.length = freshPoints.length ∧
      (∀ (i : Nat) (x : Int), sel[i]? = some x →
        ∃ p, freshPoints[x.toNat]? = some p ∧
          km1.clusters[i]? = some (Cluster.mk (i : Int) p.values [p.setCluster (i : Int)]) ∧
          pts1[x.toNat]? = some (p.setCluster (i : Int))) ∧
      (∀ (j : Nat) (p : Point ℚ), (j : Int) ∉ sel → freshPoints[j]? = some p →
        pts1[j]? = some p ∧ p.id_cluster = -1) ∧
      (∃ used, [0, 3, 4] = used ++ rest) :=
  C10_chooseCenters_postcondition freshKMeans freshPoints [0, 3, 4] (by decide) (by decide)
    rfl (by decide) (by simp [freshPoints, Point.Built, Point.new]) (by decide)

/-! ## The steps keep the driver state well shaped -/

theorem mem_updateMembers (mem : List (List (Point α))) (k : Int)
    (f : List (Point α) → List (Point α)) (ms1 : List (Point α))
    (h : ms1 ∈ updateMembers mem k f) : ms1 ∈ mem ∨ ∃ ms ∈ mem, ms1 = f ms := by
  unfold updateMembers at h
  by_cases hk : k < 0
  · rw [if_pos hk] at h
    exact Or.inl h
  · rw [if_neg hk] at h
    obtain ⟨m, hm⟩ := List.mem_iff_getElem?.mp h
    rw [List.getElem?_modify] at hm
    cases hx : mem[m]? with
    | none => simp [hx] at hm
    | some a =>
      have ham : a ∈ mem := List.mem_iff_getElem?.mpr ⟨m, hx⟩
      simp only [hx, Option.map_eq_map, Option.map_some', Option.some.injEq] at hm
      by_cases hkm : k.toNat = m
      · rw [if_pos hkm] at hm
        exact Or.inr ⟨a, ham, hm.symm⟩
      · rw [if_neg hkm] at hm
        exact Or.inl (hm ▸ ham)

theorem migrateSpec_forall (P : Point α → Prop) (mem : List (List (Point α))) (p : Point α)
    (n : Int) (hmem : ∀ ms ∈ mem, ∀ q ∈ ms, P q) (hp : P (p.setCluster n)) :
    ∀ ms ∈ migrateSpec mem p n, ∀ q ∈ ms, P q := by
  unfold migrateSpec
  by_cases hsame : p.id_cluster = n
  · rw [if_pos hsame]
    exact hmem
  · rw [if_neg hsame]
    have h1 : ∀ ms ∈ (if p.id_cluster = -1 then mem
        else updateMembers mem p.id_cluster
          (List.eraseP (fun q => decide (q.id_point = p.id_point)))), ∀ q ∈ ms, P q := by
      by_cases hold : p.id_cluster = -1
      · rw [if_pos hold]
        exact hmem
      · rw [if_neg hold]
        intro ms hms q hq
        rcases mem_updateMembers _ _ _ _ hms with h | ⟨ms0, hms0, heq⟩
        · exact hmem ms h q hq
        · rw [heq] at hq
          exact hmem ms0 hms0 q (List.mem_of_mem_eraseP hq)
    intro ms hms q hq
    rcases mem_updateMembers _ _ _ _ hms with h | ⟨ms0, hms0, heq⟩
    · exact h1 ms h q hq
    · rw [heq] at hq
      rcases List.mem_append.mp hq with h | h
      · exact h1 ms0 hms0 q h
      · rw [List.mem_singleton] at h
        rw [h]
        exact hp

theorem migrateAll_forall (P : Point α → Prop) (km : KMeans α) (points : List (Point α))
    (hp : ∀ p ∈ points, P (p.setCluster (km.nearestId p))) :
    ∀ mem : List (List (Point α)), (∀ ms ∈ mem, ∀ q ∈ ms, P q) →
      ∀ ms ∈ km.migrateAll points mem, ∀ q ∈ ms, P q := by
  induction points with
  | nil =>
    intro mem hmem
    exact hmem
  | cons p ps ih =>
    intro mem hmem
    show ∀ ms ∈ km.migrateAll ps (migrateSpec mem p (km.nearestId p)), ∀ q ∈ ms, P q
    exact ih (fun q hq => hp q (List.mem_cons_of_mem _ hq)) _
      (migrateSpec_forall P mem p _ hmem (hp p (List.mem_cons_self _ _)))

/-- The assignment step on a well-shaped state: no fault, and a well-shaped state. -/
theorem assign_ready (km : KMeans α) (points : List (Point α)) (hr : km.Ready points) :
    ∃ km1, km.assignPointsToClusters points = Except.ok (km1, points.map km.relabel) ∧
      km1.SameCentres km ∧
      km1.clusters.map Cluster.points =
        km.migrateAll points (km.clusters.map Cluster.points) ∧
      km1.Ready (points.map km.relabel) := by
  obtain ⟨km1, hrun, hsame, hmem⟩ :=
    assign_spec km points hr.kpos hr.shaped hr.pointsOk hr.labelsOk
  refine ⟨km1, hrun, hsame, hmem, ?_⟩
  refine ⟨by rw [hsame.1]; exact hr.kpos, hsame.shaped hr.shaped, ?_, ?_, ?_⟩
  · refine ⟨by rw [List.length_map, hsame.2.2.1]; exact hr.pointsOk.1, ?_⟩
    intro q hq
    obtain ⟨p, hp, hpq⟩ := List.mem_map.mp hq
    rw [← hpq, hsame.2.1]
    exact hr.pointsOk.2 p hp
  · intro q hq
    obtain ⟨p, hp, hpq⟩ := List.mem_map.mp hq
    rw [← hpq, hsame.1]
    right
    exact (nearestId_ok km p hr.kpos hr.shaped (hr.pointsOk.2 p hp)).2
  · intro c hc q hq
    rw [hsame.2.1]
    have hcm : c.points ∈ km1.clusters.map Cluster.points := List.mem_map_of_mem _ hc
    rw [hmem] at hcm
    refine migrateAll_forall (fun q => (q.values.length : Int) = km.total_values) km points
      (fun p hp => hr.pointsOk.2 p hp) _ ?_ _ hcm q hq
    intro ms hms q1 hq1
    obtain ⟨c0, hc0, hcms⟩ := List.mem_map.mp hms
    rw [← hcms] at hq1
    exact hr.membersOk c0 hc0 q1 hq1

theorem recalc_ready (km : KMeans α) (points : List (Point α)) (hr : km.Ready points) :
    km.recalcCenters = Except.ok km.recentred ∧ km.recentred.Ready points := by
  refine ⟨recalc_spec km hr.shaped hr.membersOk, hr.kpos, ?_, hr.pointsOk, hr.labelsOk, ?_⟩
  · refine ⟨?_, ?_⟩
    · show (((km.clusters.map _).length : Nat) : Int) = km.K
      rw [List.length_map]
      exact hr.shaped.1
    · intro c hc
      obtain ⟨c0, hc0, hcc⟩ := List.mem_map.mp hc
      rw [← hcc, recentre_length]
      exact hr.shaped.2 c0 hc0
  · intro c hc q hq
    obtain ⟨c0, hc0, hcc⟩ := List.mem_map.mp hc
    rw [← hcc, recentre_points] at hq
    exact hr.membersOk c0 hc0 q hq

/-- One pass of the driver loop body on a well-shaped state. -/
theorem iteration_spec (km : KMeans α) (points : List (Point α)) (iter : Int)
    (hr : km.Ready points) :
    ∃ km1 s, km.assignPointsToClusters points = Except.ok (km1, points.map km.relabel) ∧
      km.iteration points iter = Except.ok s ∧
      s.km = km1.recentred ∧ s.points = points.map km.relabel ∧ s.iter = iter ∧
      s.done = s.points.all (fun p => decide (p.id_cluster = s.km.nearestId p)) ∧
      s.km.Ready s.points ∧ s.km.max_iterations = km.max_iterations := by
  obtain ⟨km1, hrun, hsame, _, hr1⟩ := assign_ready km points hr
  obtain ⟨hrec, hr2⟩ := recalc_ready km1 _ hr1
  refine ⟨km1, LoopState.mk km1.recentred (points.map km.relabel) iter
    (true && (points.map km.relabel).all
      (fun p => decide (p.id_cluster = km1.recentred.nearestId p))),
    hrun, ?_, rfl, rfl, rfl, ?_, hr2, hsame.2.2.2.1⟩
  · unfold KMeans.iteration
    rw [hrun]
    simp only [ok_bind, hrec]
    exact checkPhase_spec _ hr2.kpos hr2.shaped hr2.pointsOk
  · simp

/-! ## Driver loop -/

/-- The driver loop entered on a well-shaped state with the counter `i0`: it halts at
the first pass whose check reports no disagreement or whose counter has reached
`max_iterations`, within `max_iterations - i0` further passes. -/
theorem mainLoop_spec : ∀ (m : Nat) (km : KMeans α) (points : List (Point α)) (i0 : Int),
    km.Ready points → (km.max_iterations - i0).toNat ≤ m →
    ∃ (n : Nat) (s : LoopState α), n ≤ m ∧
      (∀ fuel, n + 1 ≤ fuel → KMeans.mainLoop fuel km points i0 = Except.ok s) ∧
      KMeans.nthIteration n km points i0 = Except.ok s ∧ s.iter = i0 + n ∧
      s.km.Ready s.points ∧
      (s.done = true ∨ s.iter ≥ km.max_iterations) ∧
      (∀ k, k < n → ∃ s1, KMeans.nthIteration k km points i0 = Except.ok s1 ∧
        s1.done = false ∧ s1.iter < km.max_iterations ∧ s1.iter = i0 + k) := by
  intro m
  induction m with
  | zero =>
    intro km points i0 hr hm
    obtain ⟨_, s1, _, hit, _, _, hiter, _, hr1, hmax⟩ := iteration_spec km points i0 hr
    have hge : i0 ≥ km.max_iterations := by omega
    refine ⟨0, s1, le_refl _, ?_, hit, by simp [hiter], hr1, Or.inr (by rw [hiter]; exact hge),
      fun k hk => absurd hk (Nat.not_lt_zero k)⟩
    intro fuel hfuel
    obtain ⟨f, rfl⟩ : ∃ f, fuel = f + 1 := ⟨fuel - 1, by omega⟩
    simp [KMeans.mainLoop, hit, hmax, hge]
  | succ m ih =>
    intro km points i0 hr hm
    obtain ⟨_, s1, _, hit, _, _, hiter, _, hr1, hmax⟩ := iteration_spec km points i0 hr
    by_cases hexit : s1.done = true ∨ i0 ≥ km.max_iterations
    · refine ⟨0, s1, Nat.zero_le _, ?_, hit, by simp [hiter], hr1,
        hexit.imp id (fun h => by rw [hiter]; exact h),
        fun k hk => absurd hk (Nat.not_lt_zero k)⟩
      intro fuel hfuel
      obtain ⟨f, rfl⟩ : ∃ f, fuel = f + 1 := ⟨fuel - 1, by omega⟩
      rcases hexit with h | h
      · simp [KMeans.mainLoop, hit, h]
      · simp [KMeans.mainLoop, hit, hmax, h]
    · have hdone : s1.done = false := by
        cases hd : s1.done with
        | false => rfl
        | true => exact absurd (Or.inl hd) hexit
      have hlt : i0 < km.max_iterations := by
        by_contra hge
        exact hexit (Or.inr (not_lt.mp hge))
      obtain ⟨n, s, hn, hloop, hnth, hsiter, hrs, hstop, hbefore⟩ :=
        ih s1.km s1.points (i0 + 1) hr1 (by rw [hmax]; omega)
      refine ⟨n + 1, s, by omega, ?_, ?_, by rw [hsiter]; push_cast; ring, hrs,
        by rw [← hmax]; exact hstop, ?_⟩
      · intro fuel hfuel
        obtain ⟨f, rfl⟩ : ∃ f, fuel = f + 1 := ⟨fuel - 1, by omega⟩
        have hnot : ¬ i0 ≥ km.max_iterations := not_le.mpr hlt
        simp only [KMeans.mainLoop, hit, ok_bind, hdone, hmax, hnot, decide_False,
          Bool.or_self, Bool.false_eq_true, if_false]
        exact hloop f (by omega)
      · show (km.iteration points i0 >>= fun s => KMeans.nthIteration n s.km s.points (i0 + 1)) = _
        rw [hit, ok_bind, hnth]
      · intro k hk
        cases k with
        | zero => exact ⟨s1, hit, hdone, by rw [hiter]; exact hlt, by simp [hiter]⟩
        | succ k =>
          obtain ⟨s2, h2, hd2, hlt2, hi2⟩ := hbefore k (by omega)
          refine ⟨s2, ?_, hd2, by rw [← hmax]; exact hlt2, by rw [hi2]; push_cast; ring⟩
          show (km.iteration points i0 >>= fun s =>
            KMeans.nthIteration k s.km s.points (i0 + 1)) = _
          rw [hit, ok_bind, h2]

/-- Every cluster of a seeded state is the one built from its seed point. -/
theorem seeded_cluster (km : KMeans α) (points : List (Point α)) (draws : List Nat)
    (hlen : (points.length : Int) = km.total_points) (n : Nat)
    (st : KMeans α × List (Point α) × List Int × List Nat)
    (hinv : SeedInv km points draws n st) (k : Nat) (c : Cluster α)
    (hc : st.1.clusters[k]? = some c) :
    ∃ (x : Int) (p : Point α), st.2.2.1[k]? = some x ∧ 0 ≤ x ∧ points[x.toNat]? = some p ∧
      c = Cluster.mk (k : Int) p.values [p.setCluster (k : Int)] ∧
      st.2.1[x.toNat]? = some (p.setCluster (k : Int)) := by
  have hk : k < st.1.clusters.length := (List.getElem?_eq_some.mp hc).1
  have hkb : k < st.2.2.1.length := by rw [hinv.nbase, ← hinv.nclusters]; exact hk
  obtain ⟨x, hx⟩ : ∃ x, st.2.2.1[k]? = some x :=
    ⟨st.2.2.1.get ⟨k, hkb⟩, by simp [List.getElem?_eq_getElem hkb]⟩
  obtain ⟨hx0, hxlt⟩ := hinv.range x (List.mem_iff_getElem?.mpr ⟨k, hx⟩)
  have hxl : x.toNat < points.length := by omega
  obtain ⟨p, hp⟩ : ∃ p, points[x.toNat]? = some p :=
    ⟨points.get ⟨_, hxl⟩, by simp [List.getElem?_eq_getElem hxl]⟩
  obtain ⟨h1, h2⟩ := hinv.seeded k x p hx hp
  exact ⟨x, p, hx, hx0, hp, Option.some.inj (hc.symm.trans h1), h2⟩

/-- Every point of a seeded state is a seed point relabelled with its cluster or an
untouched point. -/
theorem seeded_point (km : KMeans α) (points : List (Point α)) (draws : List Nat) (n : Nat)
    (st : KMeans α × List (Point α) × List Int × List Nat)
    (hinv : SeedInv km points draws n st) (j : Nat) (q : Point α)
    (hq : st.2.1[j]? = some q) :
    (∃ (k : Nat) (p : Point α), st.2.2.1[k]? = some (j : Int) ∧ points[j]? = some p ∧
        q = p.setCluster (k : Int)) ∨
      ((j : Int) ∉ st.2.2.1 ∧ points[j]? = some q) := by
  by_cases hj : (j : Int) ∈ st.2.2.1
  · left
    obtain ⟨k, hk⟩ := List.mem_iff_getElem?.mp hj
    have hjl : j < points.length := by
      rw [← hinv.npoints]
      exact (List.getElem?_eq_some.mp hq).1
    obtain ⟨p, hp⟩ : ∃ p, points[j]? = some p :=
      ⟨points.get ⟨_, hjl⟩, by simp [List.getElem?_eq_getElem hjl]⟩
    obtain ⟨_, h2⟩ := hinv.seeded k (j : Int) p hk (by simpa using hp)
    simp only [Int.toNat_ofNat] at h2
    exact ⟨k, p, hk, hp, Option.some.inj (hq.symm.trans h2)⟩
  · right
    exact ⟨hj, (hinv.others j hj).symm.trans hq⟩

/-- The state the seeding leaves is well shaped. -/
theorem seed_ready (km : KMeans α) (points : List (Point α)) (draws : List Nat)
    (hK : 1 ≤ km.K) (hpts : km.PointsOk points) (hbuilt : ∀ p ∈ points, p.Built)
    (st : KMeans α × List (Point α) × List Int × List Nat)
    (hinv : SeedInv km points draws km.K.toNat st) : st.1.Ready st.2.1 := by
  have hKn : ((km.K.toNat : Nat) : Int) = km.K := by omega
  refine ⟨by rw [hinv.cfgK]; exact hK, ⟨?_, ?_⟩, ⟨?_, ?_⟩, ?_, ?_⟩
  · rw [hinv.nclusters, hinv.cfgK]
    exact hKn
  · intro c hc
    obtain ⟨k, hk⟩ := List.mem_iff_getElem?.mp hc
    obtain ⟨x, p, _, _, hp, hceq, _⟩ := seeded_cluster km points draws hpts.1 _ st hinv k c hk
    rw [hceq, hinv.cfgV]
    exact hpts.2 p (List.mem_iff_getElem?.mpr ⟨_, hp⟩)
  · rw [hinv.npoints, hinv.cfgP]
    exact hpts.1
  · intro q hq
    obtain ⟨j, hj⟩ := List.mem_iff_getElem?.mp hq
    rw [hinv.cfgV]
    rcases seeded_point km points draws _ st hinv j q hj with ⟨k, p, _, hp, hqp⟩ | ⟨_, hp⟩
    · rw [hqp]
      exact hpts.2 p (List.mem_iff_getElem?.mpr ⟨_, hp⟩)
    · exact hpts.2 q (List.mem_iff_getElem?.mpr ⟨_, hp⟩)
  · intro q hq
    obtain ⟨j, hj⟩ := List.mem_iff_getElem?.mp hq
    rcases seeded_point km points draws _ st hinv j q hj with ⟨k, p, hk, hp, hqp⟩ | ⟨_, hp⟩
    · right
      have hkl : k < st.2.2.1.length := (List.getElem?_eq_some.mp hk).1
      rw [hinv.nbase] at hkl
      rw [hqp, hinv.cfgK]
      show 0 ≤ (k : Int) ∧ (k : Int) < km.K
      omega
    · left
      exact (hbuilt q (List.mem_iff_getElem?.mpr ⟨_, hp⟩)).1
  · intro c hc q hq
    obtain ⟨k, hk⟩ := List.mem_iff_getElem?.mp hc
    obtain ⟨x, p, _, _, hp, hceq, _⟩ := seeded_cluster km points draws hpts.1 _ st hinv k c hk
    rw [hceq] at hq
    rw [List.mem_singleton.mp hq, hinv.cfgV]
    exact hpts.2 p (List.mem_iff_getElem?.mpr ⟨_, hp⟩)

theorem freshPoints_ok : freshKMeans.PointsOk freshPoints := by
  simp [KMeans.PointsOk, freshKMeans, freshPoints, KMeans.new, Point.new]

theorem freshPoints_built : ∀ p ∈ freshPoints, p.Built := by
  simp [freshPoints, Point.Built, Point.new]

/-- C8: for a run that passes the seeding (fresh object and points of the configured
shape, `1 ≤ K ≤ total_points`, enough distinct candidates among the draws) and any integer
`max_iterations`, the driver loop halts: there is a pass number `t ≥ 1` such that with
any step budget of at least `t` the loop returns the state reached by `t` passes of
the body run back to back, each pass being the assignment step, then the centre
recomputation, then the termination check; the counter reported is `t`; at pass `t`
the check reported no disagreement or `t ≥ max_iterations`, at every earlier pass
neither held; `t ≤ max 1 max_iterations`, so `t = 1` when `max_iterations = 1`. -/
theorem C8_mainLoop_halts_at_least_pass (km : KMeans α) (points : List (Point α))
    (draws : List Nat) (hK : 1 ≤ km.K) (hKtp : km.K ≤ km.total_points)
    (hcl : km.clusters = []) (hpts : km.PointsOk points) (hbuilt : ∀ p ∈ points, p.Built)
    (henough : km.K.toNat ≤ (firstDistinct [] (km.candidates draws)).length) :
    ∃ st, km.chooseCenters points draws = Except.ok st ∧
      ∃ (t : Nat) (s : LoopState α), 1 ≤ t ∧
        (∀ fuel, t ≤ fuel → KMeans.mainLoop fuel st.1 st.2.1 1 = Except.ok s) ∧
        KMeans.nthIteration (t - 1) st.1 st.2.1 1 = Except.ok s ∧
        (∀ (km1 : KMeans α) (pts1 : List (Point α)) (iter : Int),
          km1.iteration pts1 iter =
            (km1.assignPointsToClusters pts1 >>= fun r =>
              r.1.recalcCenters >>= fun km2 =>
                KMeans.checkPhase (LoopState.mk km2 r.2 iter true))) ∧
        s.iter = (t : Int) ∧
        (s.done = true ∨ (t : Int) ≥ km.max_iterations) ∧
        (∀ t1 : Nat, 1 ≤ t1 → t1 < t →
          ∃ s1, KMeans.nthIteration (t1 - 1) st.1 st.2.1 1 = Except.ok s1 ∧
            s1.iter = (t1 : Int) ∧ s1.done = false ∧ (t1 : Int) < km.max_iterations) ∧
        (t : Int) ≤ max 1 km.max_iterations ∧
        (km.max_iterations = 1 → t = 1) := by
  obtain ⟨st, hrun, hinv⟩ := seed_spec km points draws hK hKtp hcl hpts.1
    (fun p hp => (hbuilt p hp).2) henough
  have hr : st.1.Ready st.2.1 := seed_ready km points draws hK hpts hbuilt st hinv
  obtain ⟨n, s, hn, hloop, hnth, hiter, _, hstop, hbefore⟩ :=
    mainLoop_spec (st.1.max_iterations - 1).toNat st.1 st.2.1 1 hr (le_refl _)
  have hmax : st.1.max_iterations = km.max_iterations := hinv.cfgM
  rw [hmax] at hn hstop hbefore
  refine ⟨st, hrun, n + 1, s, by omega, hloop, hnth, fun _ _ _ => rfl,
    by rw [hiter]; push_cast; ring, ?_, ?_, ?_, ?_⟩
  · rw [hiter] at hstop
    rcases hstop with h | h
    · exact Or.inl h
    · right
      push_cast
      omega
  · intro t1 h1 hlt
    obtain ⟨s1, hs1, hd1, hlt1, hi1⟩ := hbefore (t1 - 1) (by omega)
    have hcast : ((t1 - 1 : Nat) : Int) = (t1 : Int) - 1 := by omega
    refine ⟨s1, hs1, by rw [hi1, hcast]; ring, hd1, ?_⟩
    rw [hi1, hcast] at hlt1
    omega
  · push_cast
    rcases le_total 1 km.max_iterations with h | h
    · rw [max_eq_right h]
      omega
    · rw [max_eq_left h]
      omega
  · intro h1
    rw [h1] at hn
    simp at hn
    omega

/-- C8 on three fresh points, `K = 2` and the draws `0, 3, 4`. -/
theorem C8_mainLoop_halts_at_least_pass_witness :
    ∃ st, freshKMeans.chooseCenters freshPoints [0, 3, 4] = Except.ok st ∧
      ∃ (t : Nat) (s : LoopState ℚ), 1 ≤ t ∧
        (∀ fuel, t ≤ fuel → KMeans.mainLoop fuel st.1 st.2.1 1 = Except.ok s) ∧
        KMeans.nthIteration (t - 1) st.1 st.2.1 1 = Except.ok s ∧
        (∀ (km1 : KMeans ℚ) (pts1 : List (Point ℚ)) (iter : Int),
          km1.iteration pts1 iter =
            (km1.assignPointsToClusters pts1 >>= fun r =>
              r.1.recalcCenters >>= fun km2 =>
                KMeans.checkPhase (LoopState.mk km2 r.2 iter true))) ∧
        s.iter = (t : Int) ∧
        (s.done = true ∨ (t : Int) ≥ freshKMeans.max_iterations) ∧
        (∀ t1 : Nat, 1 ≤ t1 → t1 < t →
          ∃ s1, KMeans.nthIteration (t1 - 1) st.1 st.2.1 1 = Except.ok s1 ∧
            s1.iter = (t1 : Int) ∧ s1.done = false ∧
            (t1 : Int) < freshKMeans.max_iterations) ∧
        (t : Int) ≤ max 1 freshKMeans.max_iterations ∧
        (freshKMeans.max_iterations = 1 → t = 1) :=
  C8_mainLoop_halts_at_least_pass freshKMeans freshPoints [0, 3, 4] (by decide) (by decide)
    rfl freshPoints_ok freshPoints_built (by decide)

/-! ## Label/membership invariant -/

theorem getElem?_updateMembers (mem : List (List (Point α))) (k : Int)
    (f : List (Point α) → List (Point α)) (m : Nat) :
    (updateMembers mem k f)[m]? =
      (mem[m]?).map (fun ms => if 0 ≤ k ∧ k.toNat = m then f ms else ms) := by
  unfold updateMembers
  by_cases hk : k < 0
  · have : ¬ (0 ≤ k ∧ k.toNat = m) := fun h => absurd h.1 (not_le.mpr hk)
    simp only [hk, if_true, this, if_false]
    cases mem[m]? <;> rfl
  · have h0 : 0 ≤ k := not_lt.mp hk
    rw [if_neg hk, List.getElem?_modify]
    cases mem[m]? with
    | none => rfl
    | some ms => simp [h0]

theorem getElem?_migrateSpec (mem : List (List (Point α))) (p : Point α) (n : Int)
    (m : Nat) : (migrateSpec mem p n)[m]? = (mem[m]?).map (migrateAt p n m) := by
  unfold migrateSpec
  by_cases hsame : p.id_cluster = n
  · have : migrateAt p n m = fun ms => ms := by
      funext ms
      simp [migrateAt, hsame]
    rw [if_pos hsame, this]
    cases mem[m]? <;> rfl
  · rw [if_neg hsame, getElem?_updateMembers]
    by_cases hold : p.id_cluster = -1
    · have hn1 : ¬ (-1 : Int) = n := by
        rw [← hold]
        exact hsame
      rw [if_pos hold]
      cases mem[m]? with
      | none => rfl
      | some ms => simp [migrateAt, hold, hn1]
    · rw [if_neg hold, getElem?_updateMembers]
      cases mem[m]? with
      | none => rfl
      | some ms => simp [migrateAt, hsame, hold]

theorem memberCount_eraseP_ne (ms : List (Point α)) (x y : Int) (h : x ≠ y) :
    memberCount (ms.eraseP (fun q => decide (q.id_point = y))) x = memberCount ms x := by
  induction ms with
  | nil => rfl
  | cons q qs ih =>
    by_cases hq : q.id_point = y
    · have hqx : ¬ q.id_point = x := fun hx => h (hx.symm.trans hq)
      rw [List.eraseP_cons_of_pos (by simpa using hq)]
      unfold memberCount
      rw [List.countP_cons_of_neg]
      simpa using hqx
    · rw [List.eraseP_cons_of_neg (by simpa using hq)]
      unfold memberCount at ih ⊢
      rw [List.countP_cons, List.countP_cons, ih]

theorem memberCount_eraseP_self (ms : List (Point α)) (x : Int) :
    memberCount (ms.eraseP (fun q => decide (q.id_point = x))) x = memberCount ms x - 1 := by
  induction ms with
  | nil => rfl
  | cons q qs ih =>
    by_cases hq : q.id_point = x
    · simp [memberCount, hq]
    · rw [List.eraseP_cons_of_neg (by simpa using hq)]
      unfold memberCount at ih ⊢
      rw [List.countP_cons, List.countP_cons, ih]
      simp [hq]

/-- A migration does not change how often another id occurs in any collection. -/
theorem memberCount_migrateAt_ne (p : Point α) (n : Int) (m : Nat) (ms : List (Point α))
    (x : Int) (h : x ≠ p.id_point) :
    memberCount (migrateAt p n m ms) x = memberCount ms x := by
  have hp : ¬ p.id_point = x := fun e => h e.symm
  unfold migrateAt
  by_cases hsame : p.id_cluster = n
  · rw [if_pos hsame]
  · rw [if_neg hsame]
    have h1 : memberCount
        (if p.id_cluster ≠ -1 ∧ 0 ≤ p.id_cluster ∧ p.id_cluster.toNat = m then
          ms.eraseP (fun q => decide (q.id_point = p.id_point))
        else ms) x = memberCount ms x := by
      split
      · exact memberCount_eraseP_ne ms x _ h
      · rfl
    show memberCount (if 0 ≤ n ∧ n.toNat = m then _ ++ [p.setCluster n] else _) x = _
    split
    · rw [← h1]
      simp [memberCount, Point.setCluster, hp]
    · exact h1

/-- A migration of `p` to `n` leaves one entry with the id of `p` at index `n` and none
elsewhere, when before it there was one at the index of the old label and none
elsewhere. -/
theorem memberCount_migrateAt_self (p : Point α) (n : Int) (m : Nat) (ms : List (Point α))
    (hn : 0 ≤ n)
    (hcnt : memberCount ms p.id_point = if p.id_cluster = (m : Int) then 1 else 0) :
    memberCount (migrateAt p n m ms) p.id_point = if n = (m : Int) then 1 else 0 := by
  unfold migrateAt
  by_cases hsame : p.id_cluster = n
  · rw [if_pos hsame, hcnt, hsame]
  · rw [if_neg hsame]
    have h1 : memberCount
        (if p.id_cluster ≠ -1 ∧ 0 ≤ p.id_cluster ∧ p.id_cluster.toNat = m then
          ms.eraseP (fun q => decide (q.id_point = p.id_point))
        else ms) p.id_point = 0 := by
      by_cases hom : p.id_cluster = (m : Int)
      · have hc : p.id_cluster ≠ -1 ∧ 0 ≤ p.id_cluster ∧ p.id_cluster.toNat = m :=
          ⟨by omega, by omega, by omega⟩
        rw [if_pos hc, memberCount_eraseP_self, hcnt, if_pos hom]
      · have hc : ¬ (p.id_cluster ≠ -1 ∧ 0 ≤ p.id_cluster ∧ p.id_cluster.toNat = m) := by
          rintro ⟨_, h0, ht⟩
          exact hom (by omega)
        rw [if_neg hc, hcnt, if_neg hom]
    show memberCount (if 0 ≤ n ∧ n.toNat = m then _ ++ [p.setCluster n] else _) p.id_point = _
    by_cases hnm : n = (m : Int)
    · have hc : 0 ≤ n ∧ n.toNat = m := ⟨hn, by omega⟩
      rw [if_pos hc, if_pos hnm]
      unfold memberCount at h1 ⊢
      rw [List.countP_append, h1]
      simp [Point.setCluster]
    · have hc : ¬ (0 ≤ n ∧ n.toNat = m) := by
        rintro ⟨h0, ht⟩
        exact hnm (by omega)
      rw [if_neg hc, if_neg hnm]
      exact h1

theorem migrateAll_cons (km : KMeans α) (p : Point α) (rest : List (Point α))
    (mem : List (List (Point α))) :
    km.migrateAll (p :: rest) mem = km.migrateAll rest (migrateSpec mem p (km.nearestId p)) :=
  rfl

/-- Counting through the migrations of a list of points with pairwise distinct ids:
ids outside the list keep their counts, and a point of the list that had one entry at
the index of its label and none elsewhere ends with one entry at the index of its
nearest centre and none elsewhere. -/
theorem migrateAll_counts (km : KMeans α) :
    ∀ (pts : List (Point α)) (mem : List (List (Point α))),
      (pts.map Point.id_point).Nodup → (∀ q ∈ pts, 0 ≤ km.nearestId q) →
      (∀ x, x ∉ pts.map Point.id_point → ∀ (m : Nat) (ms1 : List (Point α)),
        (km.migrateAll pts mem)[m]? = some ms1 →
        ∃ ms, mem[m]? = some ms ∧ memberCount ms1 x = memberCount ms x) ∧
      (∀ q ∈ pts,
        (∀ (m : Nat) (ms : List (Point α)), mem[m]? = some ms →
          memberCount ms q.id_point = if q.id_cluster = (m : Int) then 1 else 0) →
        ∀ (m : Nat) (ms1 : List (Point α)), (km.migrateAll pts mem)[m]? = some ms1 →
          memberCount ms1 q.id_point = if km.nearestId q = (m : Int) then 1 else 0) := by
  intro pts
  induction pts with
  | nil =>
    intro mem _ _
    exact ⟨fun x _ m ms1 h => ⟨ms1, h, rfl⟩, fun q hq => absurd hq (List.not_mem_nil q)⟩
  | cons p rest ih =>
    intro mem hnd hnear
    rw [List.map_cons, List.nodup_cons] at hnd
    obtain ⟨hpr, hndr⟩ := hnd
    obtain ⟨ih1, ih2⟩ := ih (migrateSpec mem p (km.nearestId p)) hndr
      (fun q hq => hnear q (List.mem_cons_of_mem _ hq))
    have hstep : ∀ (m : Nat) (ms1 : List (Point α)),
        (migrateSpec mem p (km.nearestId p))[m]? = some ms1 →
        ∃ ms, mem[m]? = some ms ∧ ms1 = migrateAt p (km.nearestId p) m ms := by
      intro m ms1 h
      rw [getElem?_migrateSpec] at h
      cases hx : mem[m]? with
      | none => simp [hx] at h
      | some ms =>
        rw [hx] at h
        exact ⟨ms, rfl, (Option.some.inj h).symm⟩
    refine ⟨?_, ?_⟩
    · intro x hx m ms1 h
      rw [List.map_cons, List.mem_cons, not_or] at hx
      rw [migrateAll_cons] at h
      obtain ⟨ms2, h2, hc2⟩ := ih1 x hx.2 m ms1 h
      obtain ⟨ms, h3, heq⟩ := hstep m ms2 h2
      exact ⟨ms, h3, by rw [hc2, heq, memberCount_migrateAt_ne _ _ _ _ _ hx.1]⟩
    · intro q hq hcnt m ms1 h
      rw [migrateAll_cons] at h
      rcases List.mem_cons.mp hq with hqp | hqr
      · subst hqp
        obtain ⟨ms2, h2, hc2⟩ := ih1 q.id_point hpr m ms1 h
        obtain ⟨ms, h3, heq⟩ := hstep m ms2 h2
        rw [hc2, heq]
        exact memberCount_migrateAt_self q _ m ms (hnear q (List.mem_cons_self _ _))
          (hcnt m ms h3)
      · have hne : q.id_point ≠ p.id_point := by
          intro heq
          exact hpr (heq ▸ List.mem_map_of_mem Point.id_point hqr)
        refine ih2 q hqr ?_ m ms1 h
        intro m1 ms2 h2
        obtain ⟨ms, h3, heq⟩ := hstep m1 ms2 h2
        rw [heq, memberCount_migrateAt_ne _ _ _ _ _ hne]
        exact hcnt m1 ms h3

theorem relabel_ids (km : KMeans α) (points : List (Point α)) :
    (points.map km.relabel).map Point.id_point = points.map Point.id_point := by
  rw [List.map_map]
  rfl

/-- The assignment step keeps the invariant. -/
theorem assign_tidy (km : KMeans α) (points : List (Point α)) (ht : km.Tidy points) :
    ∃ km1, km.assignPointsToClusters points = Except.ok (km1, points.map km.relabel) ∧
      km1.Tidy (points.map km.relabel) := by
  obtain ⟨km1, hrun, hsame, hmem, hr1⟩ := assign_ready km points ht.ready
  refine ⟨km1, hrun, hr1, by rw [relabel_ids]; exact ht.distinct, ?_, ?_⟩
  · intro k c hc
    have h1 : (km1.clusters.map Cluster.id_cluster)[k]? = some c.id_cluster := by
      rw [List.getElem?_map, hc]
      rfl
    rw [hsame.2.2.2.2.1, List.getElem?_map] at h1
    cases hx : km.clusters[k]? with
    | none => simp [hx] at h1
    | some c0 =>
      rw [hx] at h1
      rw [← Option.some.inj h1]
      exact ht.ids k c0 hx
  · intro q hq k ms hms
    obtain ⟨p, hp, hpq⟩ := List.mem_map.mp hq
    rw [hmem] at hms
    have hnear : ∀ q ∈ points, 0 ≤ km.nearestId q := fun q hq =>
      (nearestId_ok km q ht.ready.kpos ht.ready.shaped (ht.ready.pointsOk.2 q hq)).2.1
    have := (migrateAll_counts km points (km.clusters.map Cluster.points) ht.distinct
      hnear).2 p hp (ht.counts p hp) k ms hms
    rw [← hpq]
    exact this

/-- The centre recomputation keeps the invariant. -/
theorem recalc_tidy (km : KMeans α) (points : List (Point α)) (ht : km.Tidy points) :
    km.recalcCenters = Except.ok km.recentred ∧ km.recentred.Tidy points := by
  obtain ⟨hrun, hr1⟩ := recalc_ready km points ht.ready
  have hpts : km.recentred.clusters.map Cluster.points = km.clusters.map Cluster.points := by
    show (km.clusters.map _).map Cluster.points = _
    rw [List.map_map]
    apply List.map_congr_left
    intro c _
    exact recentre_points c _
  refine ⟨hrun, hr1, ht.distinct, ?_, ?_⟩
  · intro k c hc
    have h1 : (km.clusters.map (fun c => recentre c km.total_values.toNat))[k]? = some c := hc
    rw [List.getElem?_map] at h1
    cases hx : km.clusters[k]? with
    | none => simp [hx] at h1
    | some c0 =>
      rw [hx] at h1
      rw [← Option.some.inj h1, recentre_id]
      exact ht.ids k c0 hx
  · intro p hp k ms hms
    rw [hpts] at hms
    exact ht.counts p hp k ms hms

/-- The termination check returns the driver state with at most the flag changed. -/
theorem checkPhase_frame (s s1 : LoopState α) (h : KMeans.checkPhase s = Except.ok s1) :
    s1.km = s.km ∧ s1.points = s.points ∧ s1.iter = s.iter := by
  unfold KMeans.checkPhase at h
  cases hc : s.km.checkTermination s.points s.done with
  | error e => simp [hc] at h
  | ok d =>
    rw [hc] at h
    have h2 : s1 = { s with done := d } := (Except.ok.inj h).symm
    rw [h2]
    exact ⟨rfl, rfl, rfl⟩

/-- The invariant gives the label/membership property in the words of the data model. -/
theorem tidy_labelMember (km : KMeans α) (points : List (Point α)) (ht : km.Tidy points) :
    km.LabelMember points := by
  intro p hp c hc
  obtain ⟨k, hk⟩ := List.mem_iff_getElem?.mp hc
  have hid : c.id_cluster = (k : Int) := ht.ids k c hk
  have hcnt := ht.counts p hp k c.points (by rw [List.getElem?_map, hk]; rfl)
  rw [hid]
  refine ⟨⟨?_, ?_⟩, ?_⟩
  · intro hlab
    rw [if_pos hlab] at hcnt
    have hpos : 0 < List.countP (fun q => decide (q.id_point = p.id_point)) c.points := by
      unfold memberCount at hcnt
      omega
    obtain ⟨q, hq, hqp⟩ := List.countP_pos_iff.mp hpos
    exact ⟨q, hq, by simpa using hqp⟩
  · rintro ⟨q, hq, hqp⟩
    by_contra hlab
    rw [if_neg hlab] at hcnt
    have hpos : 0 < List.countP (fun q => decide (q.id_point = p.id_point)) c.points :=
      List.countP_pos_iff.mpr ⟨q, hq, by simpa using hqp⟩
    unfold memberCount at hcnt
    omega
  · intro hlab
    rw [if_pos hlab] at hcnt
    exact hcnt

theorem index_of_id (points : List (Point α)) (hd : (points.map Point.id_point).Nodup)
    (a b : Nat) (u v : Point α) (ha : points[a]? = some u) (hb : points[b]? = some v)
    (hid : u.id_point = v.id_point) : a = b := by
  have hal : a < (points.map Point.id_point).length := by
    rw [List.length_map]
    exact (List.getElem?_eq_some.mp ha).1
  apply List.getElem?_inj hal hd
  rw [List.getElem?_map, List.getElem?_map, ha, hb]
  simp [hid]

theorem index_of_nodup (sel : List Int) (hd : sel.Nodup) (a b : Nat) (x : Int)
    (ha : sel[a]? = some x) (hb : sel[b]? = some x) : a = b :=
  List.getElem?_inj (List.getElem?_eq_some.mp ha).1 hd (ha.trans hb.symm)

theorem seeded_ids (km : KMeans α) (points : List (Point α)) (draws : List Nat) (n : Nat)
    (st : KMeans α × List (Point α) × List Int × List Nat)
    (hinv : SeedInv km points draws n st) :
    st.2.1.map Point.id_point = points.map Point.id_point := by
  apply List.ext_getElem?
  intro j
  rw [List.getElem?_map, List.getElem?_map]
  cases hq : st.2.1[j]? with
  | none =>
    have : points[j]? = none := by
      rw [List.getElem?_eq_none_iff] at hq ⊢
      rw [← hinv.npoints]
      exact hq
    rw [this]
  | some q =>
    rcases seeded_point km points draws n st hinv j q hq with ⟨k, p, _, hp, hqp⟩ | ⟨_, hp⟩
    · rw [hp, hqp]
      rfl
    · rw [hp]

/-- The state the seeding leaves satisfies the invariant. -/
theorem seed_tidy (km : KMeans α) (points : List (Point α)) (draws : List Nat)
    (hK : 1 ≤ km.K) (hpts : km.PointsOk points) (hbuilt : ∀ p ∈ points, p.Built)
    (hdist : (points.map Point.id_point).Nodup)
    (st : KMeans α × List (Point α) × List Int × List Nat)
    (hinv : SeedInv km points draws km.K.toNat st) : st.1.Tidy st.2.1 := by
  refine ⟨seed_ready km points draws hK hpts hbuilt st hinv,
    by rw [seeded_ids km points draws _ st hinv]; exact hdist, ?_, ?_⟩
  · intro k c hc
    obtain ⟨x, p, _, _, _, hceq, _⟩ := seeded_cluster km points draws hpts.1 _ st hinv k c hc
    rw [hceq]
  · intro q hq k ms hms
    obtain ⟨j, hj⟩ := List.mem_iff_getElem?.mp hq
    rw [List.getElem?_map] at hms
    cases hc : st.1.clusters[k]? with
    | none => simp [hc] at hms
    | some c =>
      rw [hc] at hms
      have hms1 : c.points = ms := Option.some.inj hms
      obtain ⟨x, p, hx, hx0, hp, hceq, _⟩ :=
        seeded_cluster km points draws hpts.1 _ st hinv k c hc
      have hmsp : ms = [p.setCluster (k : Int)] := by rw [← hms1, hceq]
      have hcount : memberCount ms q.id_point = if p.id_point = q.id_point then 1 else 0 := by
        rw [hmsp]
        simp [memberCount, List.countP_singleton, Point.setCluster]
      rw [hcount]
      rcases seeded_point km points draws _ st hinv j q hj with ⟨k0, p0, hk0, hp0, hqp⟩ | ⟨hjn, hp0⟩
      · have hqid : q.id_point = p0.id_point := by rw [hqp]; rfl
        have hqlab : q.id_cluster = (k0 : Int) := by rw [hqp]; rfl
        rw [hqid, hqlab]
        by_cases hkk : k0 = k
        · subst hkk
          have hxj : x = (j : Int) := Option.some.inj (hx.symm.trans hk0)
          have : p = p0 := by
            rw [hxj] at hp
            simp only [Int.toNat_ofNat] at hp
            exact Option.some.inj (hp.symm.trans hp0)
          simp [this]
        · have hne : ¬ p.id_point = p0.id_point := by
            intro hid
            have hidx := index_of_id points hdist _ _ p p0 hp hp0 hid
            have hxj : x = (j : Int) := by omega
            rw [hxj] at hx
            exact hkk (index_of_nodup _ hinv.nodup _ _ _ hk0 hx)
          have hne2 : ¬ ((k0 : Int) = (k : Int)) := by omega
          rw [if_neg hne, if_neg hne2]
      · have hlab : q.id_cluster = -1 :=
          (hbuilt q (List.mem_iff_getElem?.mpr ⟨_, hp0⟩)).1
        have hne : ¬ p.id_point = q.id_point := by
          intro hid
          have hidx := index_of_id points hdist _ _ p q hp hp0 hid
          have hxj : x = (j : Int) := by omega
          exact hjn (hxj ▸ List.mem_iff_getElem?.mpr ⟨k, hx⟩)
        have hne2 : ¬ (q.id_cluster = (k : Int)) := by omega
        rw [if_neg hne, if_neg hne2]

/-- Every state of a run at a step boundary satisfies the invariant. -/
theorem reachable_tidy (km : KMeans α) (points : List (Point α)) (draws : List Nat)
    (hK : 1 ≤ km.K) (hKtp : km.K ≤ km.total_points) (hcl : km.clusters = [])
    (hpts : km.PointsOk points) (hbuilt : ∀ p ∈ points, p.Built)
    (hdist : (points.map Point.id_point).Nodup)
    (henough : km.K.toNat ≤ (firstDistinct [] (km.candidates draws)).length) :
    ∀ (km1 : KMeans α) (pts1 : List (Point α)),
      Reachable km points draws km1 pts1 → km1.Tidy pts1 := by
  intro km1 pts1 h
  induction h with
  | seeded km2 pts2 sel rest heq =>
    obtain ⟨st, hrun, hinv⟩ := seed_spec km points draws hK hKtp hcl hpts.1
      (fun p hp => (hbuilt p hp).2) henough
    have hst : st = (km2, pts2, sel, rest) := Except.ok.inj (hrun.symm.trans heq)
    have := seed_tidy km points draws hK hpts hbuilt hdist st hinv
    rw [hst] at this
    exact this
  | assigned km2 pts2 km3 pts3 _ heq ih =>
    obtain ⟨km4, hrun, ht⟩ := assign_tidy km2 pts2 ih
    have hpair : (km4, pts2.map km2.relabel) = (km3, pts3) :=
      Except.ok.inj (hrun.symm.trans heq)
    rw [Prod.mk.injEq] at hpair
    rw [← hpair.1, ← hpair.2]
    exact ht
  | recentred km2 pts2 km3 _ heq ih =>
    obtain ⟨hrun, ht⟩ := recalc_tidy km2 pts2 ih
    have : km2.recentred = km3 := Except.ok.inj (hrun.symm.trans heq)
    rw [← this]
    exact ht
  | checked km2 pts2 iter done s _ heq ih =>
    obtain ⟨h1, h2, _⟩ := checkPhase_frame _ s heq
    rw [h1, h2]
    exact ih

/-- A pass of the driver loop body leads from a step boundary to a step boundary. -/
theorem reachable_iteration (km : KMeans α) (points : List (Point α)) (draws : List Nat)
    (km1 : KMeans α) (pts1 : List (Point α)) (iter : Int) (s : LoopState α)
    (hr : Reachable km points draws km1 pts1)
    (hit : km1.iteration pts1 iter = Except.ok s) :
    Iterating km points draws s.km s.points := by
  unfold KMeans.iteration at hit
  cases ha : km1.assignPointsToClusters pts1 with
  | error e => simp [ha] at hit
  | ok r =>
    rw [ha, ok_bind] at hit
    cases hc : r.1.recalcCenters with
    | error e => simp [hc] at hit
    | ok km2 =>
      rw [hc, ok_bind] at hit
      have h1 : Iterating km points draws r.1 r.2 := Iterating.assigned km1 pts1 r.1 r.2 hr ha
      have h2 : Iterating km points draws km2 r.2 := Iterating.recentred r.1 r.2 km2 h1 hc
      exact Iterating.checked km2 r.2 iter true s h2 hit

theorem iterating_reachable (km : KMeans α) (points : List (Point α)) (draws : List Nat)
    (km1 : KMeans α) (pts1 : List (Point α)) (h : Iterating km points draws km1 pts1) :
    Reachable km points draws km1 pts1 := by
  induction h with
  | assigned km2 pts2 km3 pts3 hr heq => exact Reachable.assigned km2 pts2 km3 pts3 hr heq
  | recentred km2 pts2 km3 _ heq ih => exact Reachable.recentred km2 pts2 km3 ih heq
  | checked km2 pts2 iter done s _ heq ih => exact Reachable.checked km2 pts2 iter done s ih heq

/-- Every pass of the driver loop ends at a step boundary of the run. -/
theorem iterating_nthIteration (km : KMeans α) (points : List (Point α)) (draws : List Nat) :
    ∀ (n : Nat) (km1 : KMeans α) (pts1 : List (Point α)) (iter : Int) (s : LoopState α),
      Reachable km points draws km1 pts1 →
      KMeans.nthIteration n km1 pts1 iter = Except.ok s →
      Iterating km points draws s.km s.points := by
  intro n
  induction n with
  | zero =>
    intro km1 pts1 iter s hr h
    exact reachable_iteration km points draws km1 pts1 iter s hr h
  | succ n ih =>
    intro km1 pts1 iter s hr h
    have h1 : (km1.iteration pts1 iter >>= fun s1 =>
        KMeans.nthIteration n s1.km s1.points (iter + 1)) = Except.ok s := h
    cases hit : km1.iteration pts1 iter with
    | error e => simp [hit] at h1
    | ok s1 =>
      rw [hit, ok_bind] at h1
      exact ih s1.km s1.points (iter + 1) s
        (iterating_reachable km points draws _ _
          (reachable_iteration km points draws km1 pts1 iter s1 hr hit)) h1

/-- The state the driver loop returns is a step boundary of the run. -/
theorem iterating_mainLoop (km : KMeans α) (points : List (Point α)) (draws : List Nat) :
    ∀ (fuel : Nat) (km1 : KMeans α) (pts1 : List (Point α)) (iter : Int) (s : LoopState α),
      Reachable km points draws km1 pts1 →
      KMeans.mainLoop fuel km1 pts1 iter = Except.ok s →
      Iterating km points draws s.km s.points := by
  intro fuel
  induction fuel with
  | zero =>
    intro km1 pts1 iter s _ h
    simp [KMeans.mainLoop] at h
  | succ fuel ih =>
    intro km1 pts1 iter s hr h
    unfold KMeans.mainLoop at h
    cases hit : km1.iteration pts1 iter with
    | error e => simp [hit] at h
    | ok s1 =>
      rw [hit, ok_bind] at h
      have hs1 := reachable_iteration km points draws km1 pts1 iter s1 hr hit
      by_cases hexit : (s1.done || decide (iter ≥ s1.km.max_iterations)) = true
      · rw [if_pos hexit] at h
        have : s1 = s := Except.ok.inj h
        rw [← this]
        exact hs1
      · rw [if_neg hexit] at h
        exact ih s1.km s1.points (iter + 1) s (iterating_reachable km points draws _ _ hs1) h

theorem freshPoints_distinct : (freshPoints.map Point.id_point).Nodup := by
  simp [freshPoints, Point.new]

/-- C6: for a run with `1 ≤ K ≤ total_points` over freshly constructed points with
pairwise distinct ids (and draws with `K` distinct candidates, so that the seeding
finishes), the seeding does not fault, and in the state it leaves and in every state
left by an assignment step, a centre recomputation or a termination check from then on:
for every point `p` and cluster `c`, `p.id_cluster = c.id_cluster` if and only if the
members of `c` hold an entry with the id of `p`, and then exactly one. From each such
state each of the three steps runs without fault, and the state the driver loop returns
is such a state. -/
theorem C6_label_membership_invariant (km : KMeans α) (points : List (Point α))
    (draws : List Nat) (hK : 1 ≤ km.K) (hKtp : km.K ≤ km.total_points)
    (hcl : km.clusters = []) (hpts : km.PointsOk points) (hbuilt : ∀ p ∈ points, p.Built)
    (hdist : (points.map Point.id_point).Nodup)
    (henough : km.K.toNat ≤ (firstDistinct [] (km.candidates draws)).length) :
    ∃ st, km.chooseCenters points draws = Except.ok st ∧
      Reachable km points draws st.1 st.2.1 ∧
      (∀ (km1 : KMeans α) (pts1 : List (Point α)), Reachable km points draws km1 pts1 →
        km1.LabelMember pts1 ∧
        (∃ km2 pts2, km1.assignPointsToClusters pts1 = Except.ok (km2, pts2)) ∧
        (∃ km2, km1.recalcCenters = Except.ok km2) ∧
        (∀ iter : Int, ∃ s,
          KMeans.checkPhase (LoopState.mk km1 pts1 iter true) = Except.ok s)) ∧
      (∀ (fuel : Nat) (s : LoopState α),
        KMeans.mainLoop fuel st.1 st.2.1 1 = Except.ok s → s.km.LabelMember s.points) := by
  obtain ⟨st, hrun, _⟩ := seed_spec km points draws hK hKtp hcl hpts.1
    (fun p hp => (hbuilt p hp).2) henough
  have hreach : Reachable km points draws st.1 st.2.1 :=
    Reachable.seeded st.1 st.2.1 st.2.2.1 st.2.2.2 hrun
  have htidy := reachable_tidy km points draws hK hKtp hcl hpts hbuilt hdist henough
  refine ⟨st, hrun, hreach, ?_, ?_⟩
  · intro km1 pts1 hr
    have ht := htidy km1 pts1 hr
    refine ⟨tidy_labelMember km1 pts1 ht, ?_, ?_, ?_⟩
    · obtain ⟨km2, h2, _⟩ := assign_tidy km1 pts1 ht
      exact ⟨km2, _, h2⟩
    · exact ⟨_, (recalc_tidy km1 pts1 ht).1⟩
    · intro iter
      exact ⟨_, checkPhase_spec (LoopState.mk km1 pts1 iter true) ht.ready.kpos
        ht.ready.shaped ht.ready.pointsOk⟩
  · intro fuel s hs
    have hit := iterating_mainLoop km points draws fuel st.1 st.2.1 1 s hreach hs
    exact tidy_labelMember _ _ (htidy _ _ (iterating_reachable km points draws _ _ hit))

/-- C6 on three fresh points, `K = 2` and the draws `0, 3, 4`. -/
theorem C6_label_membership_invariant_witness :
    ∃ st, freshKMeans.chooseCenters freshPoints [0, 3, 4] = Except.ok st ∧
      Reachable freshKMeans freshPoints [0, 3, 4] st.1 st.2.1 ∧
      (∀ (km1 : KMeans ℚ) (pts1 : List (Point ℚ)),
        Reachable freshKMeans freshPoints [0, 3, 4] km1 pts1 →
        km1.LabelMember pts1 ∧
        (∃ km2 pts2, km1.assignPointsToClusters pts1 = Except.ok (km2, pts2)) ∧
        (∃ km2, km1.recalcCenters = Except.ok km2) ∧
        (∀ iter : Int, ∃ s,
          KMeans.checkPhase (LoopState.mk km1 pts1 iter true) = Except.ok s)) ∧
      (∀ (fuel : Nat) (s : LoopState ℚ),
        KMeans.mainLoop fuel st.1 st.2.1 1 = Except.ok s → s.km.LabelMember s.points) :=
  C6_label_membership_invariant freshKMeans freshPoints [0, 3, 4] (by decide) (by decide)
    rfl freshPoints_ok freshPoints_built freshPoints_distinct (by decide)

/-! ## Partition of the points among the clusters -/

theorem tidy_partitioned (km : KMeans α) (points : List (Point α)) (ht : km.Tidy points)
    (hlab : ∀ p ∈ points, 0 ≤ p.id_cluster ∧ p.id_cluster < km.K) :
    km.Partitioned points := by
  intro p hp
  obtain ⟨h0, hlt⟩ := hlab p hp
  have hlen := ht.ready.shaped.1
  have hk : p.id_cluster.toNat < km.clusters.length := by omega
  have hkk : ((p.id_cluster.toNat : Nat) : Int) = p.id_cluster := by omega
  refine ⟨p.id_cluster.toNat, km.clusters.get ⟨_, hk⟩,
    by simp [List.getElem?_eq_getElem hk], ?_, ?_⟩
  · have := ht.counts p hp p.id_cluster.toNat (km.clusters.get ⟨_, hk⟩).points
      (by simp [List.getElem?_eq_getElem hk])
    rw [this, if_pos hkk.symm]
  · intro k1 c1 hc1 hne
    have := ht.counts p hp k1 c1.points (by rw [List.getElem?_map, hc1]; rfl)
    rw [this, if_neg (by omega)]

/-- From the first assignment step on, the invariant holds and every point carries the
index of a cluster. -/
theorem iterating_labelled (km : KMeans α) (points : List (Point α)) (draws : List Nat)
    (hK : 1 ≤ km.K) (hKtp : km.K ≤ km.total_points) (hcl : km.clusters = [])
    (hpts : km.PointsOk points) (hbuilt : ∀ p ∈ points, p.Built)
    (hdist : (points.map Point.id_point).Nodup)
    (henough : km.K.toNat ≤ (firstDistinct [] (km.candidates draws)).length) :
    ∀ (km1 : KMeans α) (pts1 : List (Point α)), Iterating km points draws km1 pts1 →
      ∀ p ∈ pts1, 0 ≤ p.id_cluster ∧ p.id_cluster < km1.K := by
  have htidy := reachable_tidy km points draws hK hKtp hcl hpts hbuilt hdist henough
  intro km1 pts1 h
  induction h with
  | assigned km2 pts2 km3 pts3 hr heq =>
    have ht := htidy km2 pts2 hr
    obtain ⟨km4, hrun, hsame, _, _⟩ := assign_ready km2 pts2 ht.ready
    have hpair : (km4, pts2.map km2.relabel) = (km3, pts3) :=
      Except.ok.inj (hrun.symm.trans heq)
    rw [Prod.mk.injEq] at hpair
    rw [← hpair.1, ← hpair.2]
    intro q hq
    obtain ⟨p, hp, hpq⟩ := List.mem_map.mp hq
    rw [← hpq, hsame.1]
    exact (nearestId_ok km2 p ht.ready.kpos ht.ready.shaped (ht.ready.pointsOk.2 p hp)).2
  | recentred km2 pts2 km3 hit heq ih =>
    have ht := htidy km2 pts2 (iterating_reachable km points draws _ _ hit)
    have : km2.recentred = km3 := Except.ok.inj ((recalc_tidy km2 pts2 ht).1.symm.trans heq)
    rw [← this]
    exact ih
  | checked km2 pts2 iter done s _ heq ih =>
    obtain ⟨h1, h2, _⟩ := checkPhase_frame _ s heq
    rw [h1, h2]
    exact ih

/-- C7 fails right after the seeding: with `K = 1` and two points, the point that was
not drawn as seed is in no cluster's members. -/
theorem C7_counterexample_unseeded_point :
    ∃ st, (KMeans.new 1 2 1 10 : KMeans ℚ).chooseCenters
        [Point.new 0 [0], Point.new 1 [1]] [0] = Except.ok st ∧
      ¬ st.1.Partitioned st.2.1 ∧
      ∃ p ∈ st.2.1, ∀ c ∈ st.1.clusters, memberCount c.points p.id_point = 0 := by
  refine ⟨(KMeans.mk 1 1 2 10
      [Cluster.mk 0 [0] [Point.mk 0 0 [0] 1]],
    [Point.mk 0 0 [0] 1, Point.mk 1 (-1) [1] 1], [0], []), ?_, ?_, ?_⟩
  · simp [KMeans.chooseCenters, KMeans.new, forLoop, KMeans.drawCenter, vecAt, vecSet,
      Cluster.new, Point.new, Point.setCluster, Point.getTotalValues, Point.getValue]
  · intro h
    obtain ⟨k, c, hk, hcnt, _⟩ := h (Point.mk 1 (-1) [1] 1) (by simp)
    cases k with
    | zero =>
      simp only [List.getElem?_cons_zero, Option.some.injEq] at hk
      rw [← hk] at hcnt
      simp [memberCount] at hcnt
    | succ k => simp at hk
  · exact ⟨Point.mk 1 (-1) [1] 1, by simp, by simp [memberCount]⟩

/-- C7 (amended): for a run with `1 ≤ K ≤ total_points` over freshly constructed points
with pairwise distinct ids whose seeding finishes, every state left by an assignment
step, and by every centre recomputation and termination check after the first
assignment step, has every point in the members of exactly one cluster, once; so has
the state at the end of every pass of the driver loop and the state the loop returns.
Right after the seeding a point is, once, in the members of the cluster it is labelled
with and of no other, and a point still labelled `-1` is in none. -/
theorem C7_partition_after_first_assignment (km : KMeans α) (points : List (Point α))
    (draws : List Nat) (hK : 1 ≤ km.K) (hKtp : km.K ≤ km.total_points)
    (hcl : km.clusters = []) (hpts : km.PointsOk points) (hbuilt : ∀ p ∈ points, p.Built)
    (hdist : (points.map Point.id_point).Nodup)
    (henough : km.K.toNat ≤ (firstDistinct [] (km.candidates draws)).length) :
    ∃ st, km.chooseCenters points draws = Except.ok st ∧
      (∀ p ∈ st.2.1, ∀ (k : Nat) (c : Cluster α), st.1.clusters[k]? = some c →
        memberCount c.points p.id_point = if p.id_cluster = (k : Int) then 1 else 0) ∧
      (∀ (km1 : KMeans α) (pts1 : List (Point α)),
        Iterating km points draws km1 pts1 → km1.Partitioned pts1) ∧
      (∀ (n : Nat) (s : LoopState α),
        KMeans.nthIteration n st.1 st.2.1 1 = Except.ok s → s.km.Partitioned s.points) ∧
      (∀ (fuel : Nat) (s : LoopState α),
        KMeans.mainLoop fuel st.1 st.2.1 1 = Except.ok s → s.km.Partitioned s.points) := by
  obtain ⟨st, hrun, _⟩ := seed_spec km points draws hK hKtp hcl hpts.1
    (fun p hp => (hbuilt p hp).2) henough
  have hreach : Reachable km points draws st.1 st.2.1 :=
    Reachable.seeded st.1 st.2.1 st.2.2.1 st.2.2.2 hrun
  have htidy := reachable_tidy km points draws hK hKtp hcl hpts hbuilt hdist henough
  have hlab := iterating_labelled km points draws hK hKtp hcl hpts hbuilt hdist henough
  have hpart : ∀ (km1 : KMeans α) (pts1 : List (Point α)),
      Iterating km points draws km1 pts1 → km1.Partitioned pts1 := fun km1 pts1 hit =>
    tidy_partitioned km1 pts1 (htidy _ _ (iterating_reachable km points draws _ _ hit))
      (hlab km1 pts1 hit)
  refine ⟨st, hrun, ?_, hpart, ?_, ?_⟩
  · intro p hp k c hc
    exact (htidy _ _ hreach).counts p hp k c.points (by rw [List.getElem?_map, hc]; rfl)
  · intro n s hs
    exact hpart _ _ (iterating_nthIteration km points draws n st.1 st.2.1 1 s hreach hs)
  · intro fuel s hs
    exact hpart _ _ (iterating_mainLoop km points draws fuel st.1 st.2.1 1 s hreach hs)

/-- C7 (amended) on three fresh points, `K = 2` and the draws `0, 3, 4`. -/
theorem C7_partition_after_first_assignment_witness :
    ∃ st, freshKMeans.chooseCenters freshPoints [0, 3, 4] = Except.ok st ∧
      (∀ p ∈ st.2.1, ∀ (k : Nat) (c : Cluster ℚ), st.1.clusters[k]? = some c →
        memberCount c.points p.id_point = if p.id_cluster = (k : Int) then 1 else 0) ∧
      (∀ (km1 : KMeans ℚ) (pts1 : List (Point ℚ)),
        Iterating freshKMeans freshPoints [0, 3, 4] km1 pts1 → km1.Partitioned pts1) ∧
      (∀ (n : Nat) (s : LoopState ℚ),
        KMeans.nthIteration n st.1 st.2.1 1 = Except.ok s → s.km.Partitioned s.points) ∧
      (∀ (fuel : Nat) (s : LoopState ℚ),
        KMeans.mainLoop fuel st.1 st.2.1 1 = Except.ok s → s.km.Partitioned s.points) :=
  C7_partition_after_first_assignment freshKMeans freshPoints [0, 3, 4] (by decide)
    (by decide) rfl freshPoints_ok freshPoints_built freshPoints_distinct (by decide)

/-! ## Removal of a member -/

/-- The scan of `removePoint`: with a member of the id it reports `true` and drops the
first such member only; with none it reports `false` and returns the vector as it is. -/
theorem removeScan_spec (id_point : Int) (ps : List (Point α)) :
    ((∃ q ∈ ps, q.id_point = id_point) →
      (removeScan id_point ps).1 = true ∧
      ∃ (l1 : List (Point α)) (q : Point α) (l2 : List (Point α)),
        ps = l1 ++ q :: l2 ∧ q.id_point = id_point ∧
        (∀ x ∈ l1, x.id_point ≠ id_point) ∧ (removeScan id_point ps).2 = l1 ++ l2) ∧
    ((∀ q ∈ ps, q.id_point ≠ id_point) →
      (removeScan id_point ps).1 = false ∧ (removeScan id_point ps).2 = ps) := by
  induction ps with
  | nil =>
    refine ⟨?_, fun _ => ⟨rfl, rfl⟩⟩
    rintro ⟨q, hq, _⟩
    exact absurd hq (List.not_mem_nil q)
  | cons p ps ih =>
    by_cases hp : p.id_point = id_point
    · have h1 : removeScan id_point (p :: ps) = (true, ps) := by
        simp [removeScan, Point.getID, hp]
      refine ⟨fun _ => ⟨by rw [h1], [], p, ps, rfl, hp,
        fun x hx => absurd hx (List.not_mem_nil x), by rw [h1]; rfl⟩, ?_⟩
      intro hall
      exact absurd hp (hall p (List.mem_cons_self _ _))
    · have h1 : removeScan id_point (p :: ps) =
          ((removeScan id_point ps).1, p :: (removeScan id_point ps).2) := by
        simp [removeScan, Point.getID, hp]
      refine ⟨?_, ?_⟩
      · rintro ⟨q, hq, hqid⟩
        have hqps : q ∈ ps := by
          rcases List.mem_cons.mp hq with h | h
          · rw [h] at hqid
            exact absurd hqid hp
          · exact h
        obtain ⟨hb, l1, q1, l2, hsplit, hq1, hl1, hres⟩ := ih.1 ⟨q, hqps, hqid⟩
        refine ⟨by rw [h1]; exact hb, p :: l1, q1, l2, by rw [hsplit]; rfl, hq1, ?_,
          by rw [h1, hres]; rfl⟩
        intro x hx
        rcases List.mem_cons.mp hx with h | h
        · rw [h]
          exact hp
        · exact hl1 x h
      · intro hall
        obtain ⟨hb, hres⟩ := ih.2 (fun q hq => hall q (List.mem_cons_of_mem _ hq))
        exact ⟨by rw [h1]; exact hb, by rw [h1, hres]⟩

/-- C15: `removePoint` on any member collection and any id: when some member has the
id it returns `true` and the collection becomes the original with the first member of
that id deleted, every other member kept in its place and order; when no member has the
id it returns `false` and the collection is unchanged; the centre and the cluster id are
unchanged in both cases. -/
theorem C15_removePoint_first_match (c : Cluster α) (id_point : Int) :
    ((∃ q ∈ c.points, q.id_point = id_point) →
      (c.removePoint id_point).1 = true ∧
      ∃ (l1 : List (Point α)) (q : Point α) (l2 : List (Point α)),
        c.points = l1 ++ q :: l2 ∧ q.id_point = id_point ∧
        (∀ x ∈ l1, x.id_point ≠ id_point) ∧
        (c.removePoint id_point).2.points = l1 ++ l2) ∧
    ((∀ q ∈ c.points, q.id_point ≠ id_point) →
      (c.removePoint id_point).1 = false ∧ (c.removePoint id_point).2.points = c.points) ∧
    (c.removePoint id_point).2.central_values = c.central_values ∧
    (c.removePoint id_point).2.id_cluster = c.id_cluster :=
  ⟨(removeScan_spec id_point c.points).1, (removeScan_spec id_point c.points).2, rfl, rfl⟩

/-- C15 on a collection holding the id `0` twice around the id `1`. -/
theorem C15_removePoint_first_match_witness :
    ((∃ q ∈ (Cluster.mk 0 [5] [Point.new 1 [(1 : ℚ)], Point.new 0 [2], Point.new 0 [3]]).points,
        q.id_point = 0) →
      ((Cluster.mk 0 [5] [Point.new 1 [(1 : ℚ)], Point.new 0 [2], Point.new 0 [3]]).removePoint
        0).1 = true ∧
      ∃ (l1 : List (Point ℚ)) (q : Point ℚ) (l2 : List (Point ℚ)),
        (Cluster.mk 0 [5] [Point.new 1 [(1 : ℚ)], Point.new 0 [2], Point.new 0 [3]]).points =
          l1 ++ q :: l2 ∧ q.id_point = 0 ∧
        (∀ x ∈ l1, x.id_point ≠ 0) ∧
        ((Cluster.mk 0 [5] [Point.new 1 [(1 : ℚ)], Point.new 0 [2],
          Point.new 0 [3]]).removePoint 0).2.points = l1 ++ l2) ∧
    ((∀ q ∈ (Cluster.mk 0 [5] [Point.new 1 [(1 : ℚ)], Point.new 0 [2], Point.new 0 [3]]).points,
        q.id_point ≠ 0) →
      ((Cluster.mk 0 [5] [Point.new 1 [(1 : ℚ)], Point.new 0 [2], Point.new 0 [3]]).removePoint
        0).1 = false ∧
      ((Cluster.mk 0 [5] [Point.new 1 [(1 : ℚ)], Point.new 0 [2], Point.new 0 [3]]).removePoint
        0).2.points =
        (Cluster.mk 0 [5] [Point.new 1 [(1 : ℚ)], Point.new 0 [2], Point.new 0 [3]]).points) ∧
    ((Cluster.mk 0 [5] [Point.new 1 [(1 : ℚ)], Point.new 0 [2], Point.new 0 [3]]).removePoint
      0).2.central_values = [5] ∧
    ((Cluster.mk 0 [5] [Point.new 1 [(1 : ℚ)], Point.new 0 [2], Point.new 0 [3]]).removePoint
      0).2.id_cluster = 0 :=
  C15_removePoint_first_match _ 0

/-! ## No lower bound on `K` -/

/-- A loop whose first iteration faults on the entry state faults the same way. -/
theorem forLoop_error_first {σ : Type} (n : Nat) (body : Nat → σ → Except Fault σ)
    (init : σ) (e : Fault) (h : body 0 init = Except.error e) :
    forLoop (n + 1) body init = Except.error e := by
  induction n with
  | zero => rw [forLoop_succ, forLoop_zero, ok_bind, h]
  | succ k ih => rw [forLoop_succ, ih, error_bind]

/-- C19: with `K = 0` and `total_points ≥ 1`, on a non-empty point vector whose first
point is unlabelled: the guard `K > total_points` does not hold, the seeding creates no
cluster and consumes no draw, the nearest-centre query returns `0` for every point, the
assignment of the first point faults on the subscript `clusters[0]` of the empty cluster
vector, and so do the assignment step and `run`. -/
theorem C19_zero_clusters_out_of_range (total_points total_values max_iterations : Int)
    (p : Point α) (rest : List (Point α)) (draws : List Nat) (fuel : Nat)
    (htp : 1 ≤ total_points) (hp : p.id_cluster = -1) :
    ¬ ((KMeans.new 0 total_points total_values max_iterations : KMeans α).K >
        (KMeans.new 0 total_points total_values max_iterations : KMeans α).total_points) ∧
    (KMeans.new 0 total_points total_values max_iterations : KMeans α).chooseCenters
        (p :: rest) draws =
      Except.ok (KMeans.new 0 total_points total_values max_iterations, p :: rest, [], draws) ∧
    (∀ q : Point α,
      (KMeans.new 0 total_points total_values max_iterations : KMeans α).getIDNearestCenter q =
        Except.ok 0) ∧
    KMeans.assignBody 0
        ((KMeans.new 0 total_points total_values max_iterations : KMeans α), p :: rest) =
      Except.error Fault.outOfRange ∧
    (KMeans.new 0 total_points total_values max_iterations : KMeans α).assignPointsToClusters
        (p :: rest) = Except.error Fault.outOfRange ∧
    (KMeans.new 0 total_points total_values max_iterations : KMeans α).run (fuel + 1)
        (p :: rest) draws = Except.error Fault.outOfRange := by
  have hguard : ¬ ((KMeans.new 0 total_points total_values max_iterations : KMeans α).K >
      (KMeans.new 0 total_points total_values max_iterations : KMeans α).total_points) := by
    show ¬ ((0 : Int) > total_points)
    omega
  have hseed : (KMeans.new 0 total_points total_values max_iterations :
      KMeans α).chooseCenters (p :: rest) draws =
      Except.ok (KMeans.new 0 total_points total_values max_iterations, p :: rest, [], draws) :=
    rfl
  have hnear : ∀ q : Point α,
      (KMeans.new 0 total_points total_values max_iterations : KMeans α).getIDNearestCenter q =
        Except.ok 0 := fun _ => rfl
  have hbody : KMeans.assignBody 0
      ((KMeans.new 0 total_points total_values max_iterations : KMeans α), p :: rest) =
      Except.error Fault.outOfRange := by
    unfold KMeans.assignBody
    simp only [hnear, ok_bind]
    simp [vecAt, vecSet, Point.getCluster, hp, KMeans.new]
  have hassign : (KMeans.new 0 total_points total_values max_iterations :
      KMeans α).assignPointsToClusters (p :: rest) = Except.error Fault.outOfRange := by
    unfold KMeans.assignPointsToClusters
    obtain ⟨n, hn⟩ : ∃ n, (KMeans.new 0 total_points total_values max_iterations :
        KMeans α).total_points.toNat = n + 1 := ⟨total_points.toNat - 1, by
      show total_points.toNat = total_points.toNat - 1 + 1
      omega⟩
    rw [hn]
    exact forLoop_error_first n _ _ _ hbody
  refine ⟨hguard, hseed, hnear, hbody, hassign, ?_⟩
  unfold KMeans.run
  rw [if_neg hguard, hseed]
  simp only [ok_bind, KMeans.mainLoop, KMeans.iteration, hassign, error_bind]

/-- C19 on one fresh point and `total_points = 1`. -/
theorem C19_zero_clusters_out_of_range_witness :
    ¬ ((KMeans.new 0 1 1 10 : KMeans ℚ).K > (KMeans.new 0 1 1 10 : KMeans ℚ).total_points) ∧
    (KMeans.new 0 1 1 10 : KMeans ℚ).chooseCenters (Point.new 0 [5] :: []) [3] =
      Except.ok (KMeans.new 0 1 1 10, Point.new 0 [5] :: [], [], [3]) ∧
    (∀ q : Point ℚ, (KMeans.new 0 1 1 10 : KMeans ℚ).getIDNearestCenter q = Except.ok 0) ∧
    KMeans.assignBody 0 ((KMeans.new 0 1 1 10 : KMeans ℚ), Point.new 0 [5] :: []) =
      Except.error Fault.outOfRange ∧
    (KMeans.new 0 1 1 10 : KMeans ℚ).assignPointsToClusters (Point.new 0 [5] :: []) =
      Except.error Fault.outOfRange ∧
    (KMeans.new 0 1 1 10 : KMeans ℚ).run (0 + 1) (Point.new 0 [5] :: []) [3] =
      Except.error Fault.outOfRange :=
  C19_zero_clusters_out_of_range 1 1 10 (Point.new 0 [5]) [] [3] 0 (by decide) rfl

/-! ## Converged states -/

/-- A point already labelled with its nearest centre is passed over by the assignment
loop. -/
theorem assignBody_same (km : KMeans α) (pts : List (Point α)) (i : Nat) (p : Point α)
    (hp : pts[i]? = some p) (hnear : km.getIDNearestCenter p = Except.ok p.id_cluster) :
    KMeans.assignBody i (km, pts) = Except.ok (km, pts) := by
  unfold KMeans.assignBody
  simp only [vecAt_nat _ _ _ hp, ok_bind, hnear, Point.getCluster]
  simp

/-- The assignment step changes nothing when every label is the nearest-centre id. -/
theorem assign_fixed (km : KMeans α) (pts : List (Point α)) (hK : 1 ≤ km.K)
    (hs : km.Shaped) (hpts : km.PointsOk pts)
    (hall : ∀ p ∈ pts, p.id_cluster = km.nearestId p) :
    km.assignPointsToClusters pts = Except.ok (km, pts) := by
  have hn : km.total_points.toNat = pts.length := by
    have := hpts.1
    omega
  obtain ⟨st, hst, hP⟩ := forLoop_inv
    (fun _ (st : KMeans α × List (Point α)) => st = (km, pts))
    km.total_points.toNat KMeans.assignBody (km, pts) rfl
    (by
      intro i st hi hst
      subst hst
      obtain ⟨q, hq⟩ : ∃ q, pts[i]? = some q :=
        ⟨pts.get ⟨i, by omega⟩, by simp [List.getElem?_eq_getElem (by omega : i < pts.length)]⟩
      have hqm : q ∈ pts := List.mem_iff_getElem?.mpr ⟨i, hq⟩
      refine ⟨(km, pts), assignBody_same km pts i q hq ?_, rfl⟩
      rw [hall q hqm]
      exact (nearestId_ok km q hK hs (hpts.2 q hqm)).1)
  unfold KMeans.assignPointsToClusters
  rw [hst, hP]

theorem recentre_of_members (c : Cluster α) (n : Nat) (hm : ¬ c.points.length = 0) :
    recentre c n =
      Cluster.mk c.id_cluster
        (c.central_values.mapIdx (fun l x => if l < n then meanCoord c.points l else x))
        c.points := by
  unfold recentre
  rw [if_neg hm]

theorem recentre_idem (c : Cluster α) (n : Nat) : recentre (recentre c n) n = recentre c n := by
  by_cases hm : c.points.length = 0
  · have h1 : recentre c n = c := by simp [recentre, hm]
    rw [h1, h1]
  · have hpts : (recentre c n).points = c.points := recentre_points c n
    have hm1 : ¬ (recentre c n).points.length = 0 := by rw [hpts]; exact hm
    have e2 := recentre_of_members c n hm
    rw [recentre_of_members (recentre c n) n hm1, hpts, recentre_id, e2]
    congr 1
    apply List.ext_getElem?
    intro m
    simp only [List.getElem?_mapIdx]
    cases c.central_values[m]? with
    | none => rfl
    | some x =>
      by_cases hmn : m < n
      · simp [hmn]
      · simp [hmn]

theorem recentred_idem (km : KMeans α) : km.recentred.recentred = km.recentred := by
  show KMeans.mk _ _ _ _ ((km.clusters.map _).map _) = KMeans.mk _ _ _ _ _
  congr 1
  rw [List.map_map]
  apply List.map_congr_left
  intro c _
  exact recentre_idem c _

/-- C17: when the termination check at the end of a pass of the driver loop reports
no disagreement, a further pass changes nothing: the assignment step migrates no point
and returns the object and the points as they are (labels, member collections with their
order), the centre recomputation returns the same centres, and the following check again
reports no disagreement. -/
theorem C17_converged_fixed_point (km : KMeans α) (pts : List (Point α)) (iter : Int)
    (s : LoopState α) (hr : km.Ready pts) (hit : km.iteration pts iter = Except.ok s)
    (hdone : s.done = true) :
    s.km.assignPointsToClusters s.points = Except.ok (s.km, s.points) ∧
    s.km.recalcCenters = Except.ok s.km ∧
    KMeans.checkPhase (LoopState.mk s.km s.points (iter + 1) true) =
      Except.ok (LoopState.mk s.km s.points (iter + 1) true) ∧
    s.km.iteration s.points (iter + 1) =
      Except.ok (LoopState.mk s.km s.points (iter + 1) true) := by
  obtain ⟨km1, s1, _, hit1, hkm, _, _, hd, hr1, _⟩ := iteration_spec km pts iter hr
  have hs : s1 = s := Except.ok.inj (hit1.symm.trans hit)
  subst hs
  rw [hdone] at hd
  have hall : ∀ p ∈ s1.points, p.id_cluster = s1.km.nearestId p := by
    intro p hp
    have := (List.all_eq_true.mp hd.symm) p hp
    simpa using this
  have hassign := assign_fixed s1.km s1.points hr1.kpos hr1.shaped hr1.pointsOk hall
  have hrec : s1.km.recalcCenters = Except.ok s1.km := by
    have h := recalc_spec s1.km hr1.shaped hr1.membersOk
    have hfix : s1.km.recentred = s1.km := by
      rw [hkm]
      exact recentred_idem km1
    rw [h]
    exact congrArg Except.ok hfix
  have hcheck : KMeans.checkPhase (LoopState.mk s1.km s1.points (iter + 1) true) =
      Except.ok (LoopState.mk s1.km s1.points (iter + 1) true) := by
    rw [checkPhase_spec _ (by exact hr1.kpos) (by exact hr1.shaped) (by exact hr1.pointsOk)]
    simp only [Bool.true_and]
    rw [← hd]
  refine ⟨hassign, hrec, hcheck, ?_⟩
  unfold KMeans.iteration
  rw [hassign]
  simp only [ok_bind, hrec]
  exact hcheck

theorem exampleKMeans_ready : exampleKMeans.Ready examplePoints :=
  ⟨by decide, exampleKMeans_shaped, examplePoints_ok, examplePoints_labels,
    exampleKMeans_members⟩

theorem example_iteration :
    exampleKMeans.iteration examplePoints 1 = Except.ok exampleConverged := by
  with_unfolding_all rfl

/-- C17 on the example state, which one pass brings to convergence. -/
theorem C17_converged_fixed_point_witness :
    exampleConverged.km.assignPointsToClusters exampleConverged.points =
      Except.ok (exampleConverged.km, exampleConverged.points) ∧
    exampleConverged.km.recalcCenters = Except.ok exampleConverged.km ∧
    KMeans.checkPhase (LoopState.mk exampleConverged.km exampleConverged.points (1 + 1) true) =
      Except.ok (LoopState.mk exampleConverged.km exampleConverged.points (1 + 1) true) ∧
    exampleConverged.km.iteration exampleConverged.points (1 + 1) =
      Except.ok (LoopState.mk exampleConverged.km exampleConverged.points (1 + 1) true) :=
  C17_converged_fixed_point exampleKMeans examplePoints 1 exampleConverged
    exampleKMeans_ready example_iteration rfl

/-! ## Index safety -/

/-- The division of the mean is never reached with a zero divisor. -/
theorem recalcBodyChecked_eq (i j : Nat) (km : KMeans α) :
    KMeans.recalcBodyChecked i j km = KMeans.recalcBody i j km := by
  unfold KMeans.recalcBodyChecked KMeans.recalcBody
  cases hc : vecAt km.clusters (i : Int) with
  | error e => rfl
  | ok c =>
    simp only [ok_bind]
    by_cases hpos : c.getTotalPoints > 0
    · have hne : ¬ c.getTotalPoints = 0 := by omega
      simp only [hpos, if_true, hne, if_false]
    · simp only [hpos, if_false]

/-- Copying the first `n` entries of a vector one subscript at a time. -/
theorem copyList_eq (xs : List α) (n : Nat) (hn : n ≤ xs.length) :
    forLoop n
      (fun i (cv : List α) => do
        let v ← vecAt xs i
        pure (cv ++ [v])) [] = Except.ok (xs.take n) :=
  copyLoop_eq (Point.mk 0 0 xs 0) n hn

/-- The display loop on a well-shaped state makes no subscript out of range. -/
theorem showClusters_ok (km : KMeans α) (points : List (Point α)) (hr : km.Ready points) :
    ∃ out, km.showClusters = Except.ok out := by
  have hlen : km.K.toNat = km.clusters.length := by
    have := hr.shaped.1
    omega
  obtain ⟨out, hout, _⟩ := forLoop_inv (fun _ (_ : List (Out α)) => True) km.K.toNat
    (fun i (out : List (Out α)) => do
      let c ← vecAt km.clusters i
      let total_points_cluster := c.getTotalPoints
      let out1 := out ++ [Out.clusterHeader (c.getID + 1)]
      let out2 ← forLoop total_points_cluster.toNat
        (fun j (o : List (Out α)) => do
          let pt ← c.getPoint j
          let vals ← forLoop km.total_values.toNat
            (fun p (vs : List α) => do
              let v ← pt.getValue p
              pure (vs ++ [v])) []
          pure (o ++ [Out.pointLine (pt.getID + 1) vals])) out1
      let cvs ← forLoop km.total_values.toNat
        (fun j (vs : List α) => do
          let v ← c.getCentralValue j
          pure (vs ++ [v])) []
      pure (out2 ++ [Out.clusterValues cvs])) [] trivial
    (by
      intro i out hi _
      have hil : i < km.clusters.length := by omega
      obtain ⟨c, hc⟩ : ∃ c, km.clusters[i]? = some c :=
        ⟨km.clusters.get ⟨i, hil⟩, by simp [List.getElem?_eq_getElem hil]⟩
      have hcm : c ∈ km.clusters := List.mem_iff_getElem?.mpr ⟨i, hc⟩
      have hcv : km.total_values.toNat ≤ c.central_values.length := by
        have := hr.shaped.2 c hcm
        omega
      obtain ⟨out2, hout2, _⟩ := forLoop_inv (fun _ (_ : List (Out α)) => True)
        c.points.length
        (fun j (o : List (Out α)) => do
          let pt ← c.getPoint j
          let vals ← forLoop km.total_values.toNat
            (fun p (vs : List α) => do
              let v ← pt.getValue p
              pure (vs ++ [v])) []
          pure (o ++ [Out.pointLine (pt.getID + 1) vals]))
        (out ++ [Out.clusterHeader (c.getID + 1)]) trivial
        (by
          intro j o hj _
          obtain ⟨q, hq⟩ : ∃ q, c.points[j]? = some q :=
            ⟨c.points.get ⟨j, hj⟩, by simp [List.getElem?_eq_getElem hj]⟩
          have hqv : km.total_values.toNat ≤ q.values.length := by
            have := hr.membersOk c hcm q (List.mem_iff_getElem?.mpr ⟨j, hq⟩)
            omega
          refine ⟨o ++ [Out.pointLine (q.getID + 1) (q.values.take km.total_values.toNat)],
            ?_, trivial⟩
          simp only [Cluster.getPoint, vecAt_nat _ _ _ hq, ok_bind]
          rw [copyLoop_eq q _ hqv]
          rfl)
      refine ⟨out2 ++ [Out.clusterValues (c.central_values.take km.total_values.toNat)],
        ?_, trivial⟩
      simp only [vecAt_nat _ _ _ hc, ok_bind, Cluster.getTotalPoints, Int.toNat_ofNat]
      rw [hout2]
      simp only [ok_bind, Cluster.getCentralValue]
      rw [copyList_eq c.central_values _ hcv]
      rfl)
  exact ⟨out, hout⟩

/-- Every state of a run at a step boundary is well shaped. -/
theorem reachable_ready (km : KMeans α) (points : List (Point α)) (draws : List Nat)
    (hK : 1 ≤ km.K) (hKtp : km.K ≤ km.total_points) (hcl : km.clusters = [])
    (hpts : km.PointsOk points) (hbuilt : ∀ p ∈ points, p.Built)
    (henough : km.K.toNat ≤ (firstDistinct [] (km.candidates draws)).length) :
    ∀ (km1 : KMeans α) (pts1 : List (Point α)),
      Reachable km points draws km1 pts1 → km1.Ready pts1 := by
  intro km1 pts1 h
  induction h with
  | seeded km2 pts2 sel rest heq =>
    obtain ⟨st, hrun, hinv⟩ := seed_spec km points draws hK hKtp hcl hpts.1
      (fun p hp => (hbuilt p hp).2) henough
    have hst : st = (km2, pts2, sel, rest) := Except.ok.inj (hrun.symm.trans heq)
    have := seed_ready km points draws hK hpts hbuilt st hinv
    rw [hst] at this
    exact this
  | assigned km2 pts2 km3 pts3 _ heq ih =>
    obtain ⟨km4, hrun, _, _, hr4⟩ := assign_ready km2 pts2 ih
    have hpair : (km4, pts2.map km2.relabel) = (km3, pts3) :=
      Except.ok.inj (hrun.symm.trans heq)
    rw [Prod.mk.injEq] at hpair
    rw [← hpair.1, ← hpair.2]
    exact hr4
  | recentred km2 pts2 km3 _ heq ih =>
    obtain ⟨hrun, hr3⟩ := recalc_ready km2 pts2 ih
    have : km2.recentred = km3 := Except.ok.inj (hrun.symm.trans heq)
    rw [← this]
    exact hr3
  | checked km2 pts2 iter done s _ heq ih =>
    obtain ⟨h1, h2, _⟩ := checkPhase_frame _ s heq
    rw [h1, h2]
    exact ih

/-- C18: for `1 ≤ K ≤ total_points`, a point vector of exactly `total_points` freshly
constructed points of exactly `total_values` coordinates, and draws on which the seeding
finishes, `run` returns without any fault: no subscript of the points, the clusters, a
member collection, a coordinate vector or a centre is out of range and the modulus is
never taken by zero. Every state at a step boundary has `K` clusters and labels that are
`-1` or in `[0, K)`, and the mean is never divided by a zero member count. -/
theorem C18_run_index_safe (km : KMeans α) (points : List (Point α)) (draws : List Nat)
    (fuel : Nat) (hK : 1 ≤ km.K) (hKtp : km.K ≤ km.total_points) (hcl : km.clusters = [])
    (hpts : km.PointsOk points) (hbuilt : ∀ p ∈ points, p.Built)
    (henough : km.K.toNat ≤ (firstDistinct [] (km.candidates draws)).length)
    (hfuel : max 1 km.max_iterations.toNat ≤ fuel) :
    (∃ r, km.run fuel points draws = Except.ok r) ∧
    (∀ (km1 : KMeans α) (pts1 : List (Point α)), Reachable km points draws km1 pts1 →
      (km1.clusters.length : Int) = km1.K ∧ km1.K = km.K ∧
      (pts1.length : Int) = km1.total_points ∧
      (∀ c ∈ km1.clusters, (c.central_values.length : Int) = km1.total_values) ∧
      (∀ p ∈ pts1, (p.values.length : Int) = km1.total_values) ∧
      (∀ c ∈ km1.clusters, ∀ q ∈ c.points, (q.values.length : Int) = km1.total_values) ∧
      (∀ p ∈ pts1, p.id_cluster = -1 ∨ (0 ≤ p.id_cluster ∧ p.id_cluster < km1.K))) ∧
    (∀ (i j : Nat) (km1 : KMeans α),
      KMeans.recalcBodyChecked i j km1 = KMeans.recalcBody i j km1) := by
  obtain ⟨st, hrun, hinv⟩ := seed_spec km points draws hK hKtp hcl hpts.1
    (fun p hp => (hbuilt p hp).2) henough
  have hr : st.1.Ready st.2.1 := seed_ready km points draws hK hpts hbuilt st hinv
  obtain ⟨n, s, hn, hloop, _, _, hrs, _, _⟩ :=
    mainLoop_spec (st.1.max_iterations - 1).toNat st.1 st.2.1 1 hr (le_refl _)
  have hmax : st.1.max_iterations = km.max_iterations := hinv.cfgM
  have hfuel1 : n + 1 ≤ fuel := by
    rw [hmax] at hn
    have h1 : 1 ≤ fuel := le_trans (le_max_left _ _) hfuel
    have h2 : km.max_iterations.toNat ≤ fuel := le_trans (le_max_right _ _) hfuel
    omega
  obtain ⟨out, hout⟩ := showClusters_ok s.km s.points hrs
  have hKall : ∀ (km1 : KMeans α) (pts1 : List (Point α)),
      Reachable km points draws km1 pts1 → km1.K = km.K := by
    intro km1 pts1 h
    induction h with
    | seeded km2 pts2 sel rest heq =>
      have hst : st = (km2, pts2, sel, rest) := Except.ok.inj (hrun.symm.trans heq)
      have := hinv.cfgK
      rw [hst] at this
      exact this
    | assigned km2 pts2 km3 pts3 hr2 heq ih =>
      have hr0 := reachable_ready km points draws hK hKtp hcl hpts hbuilt henough km2 pts2 hr2
      obtain ⟨km4, hrun4, hsame, _, _⟩ := assign_ready km2 pts2 hr0
      have hpair : (km4, pts2.map km2.relabel) = (km3, pts3) :=
        Except.ok.inj (hrun4.symm.trans heq)
      rw [Prod.mk.injEq] at hpair
      rw [← hpair.1, hsame.1]
      exact ih
    | recentred km2 pts2 km3 hr2 heq ih =>
      have hr0 := reachable_ready km points draws hK hKtp hcl hpts hbuilt henough km2 pts2 hr2
      have : km2.recentred = km3 :=
        Except.ok.inj ((recalc_ready km2 pts2 hr0).1.symm.trans heq)
      rw [← this]
      exact ih
    | checked km2 pts2 iter done s2 _ heq ih =>
      obtain ⟨h1, _, _⟩ := checkPhase_frame _ s2 heq
      rw [h1]
      exact ih
  refine ⟨?_, ?_, recalcBodyChecked_eq⟩
  · refine ⟨RunResult.mk s.km s.points st.2.2.2 (Out.breakIn s.iter :: out), ?_⟩
    unfold KMeans.run
    rw [if_neg (by omega), hrun]
    simp only [ok_bind, hloop fuel hfuel1, hout, pure_eq_ok]
  · intro km1 pts1 hreach
    have hr1 := reachable_ready km points draws hK hKtp hcl hpts hbuilt henough km1 pts1 hreach
    exact ⟨hr1.shaped.1, hKall km1 pts1 hreach, hr1.pointsOk.1, hr1.shaped.2, hr1.pointsOk.2,
      hr1.membersOk, hr1.labelsOk⟩

/-- C18 on three fresh points, `K = 2` and the draws `0, 3, 4`. -/
theorem C18_run_index_safe_witness :
    (∃ r, freshKMeans.run 10 freshPoints [0, 3, 4] = Except.ok r) ∧
    (∀ (km1 : KMeans ℚ) (pts1 : List (Point ℚ)),
      Reachable freshKMeans freshPoints [0, 3, 4] km1 pts1 →
      (km1.clusters.length : Int) = km1.K ∧ km1.K = freshKMeans.K ∧
      (pts1.length : Int) = km1.total_points ∧
      (∀ c ∈ km1.clusters, (c.central_values.length : Int) = km1.total_values) ∧
      (∀ p ∈ pts1, (p.values.length : Int) = km1.total_values) ∧
      (∀ c ∈ km1.clusters, ∀ q ∈ c.points, (q.values.length : Int) = km1.total_values) ∧
      (∀ p ∈ pts1, p.id_cluster = -1 ∨ (0 ≤ p.id_cluster ∧ p.id_cluster < km1.K))) ∧
    (∀ (i j : Nat) (km1 : KMeans ℚ),
      KMeans.recalcBodyChecked i j km1 = KMeans.recalcBody i j km1) :=
  C18_run_index_safe freshKMeans freshPoints [0, 3, 4] 10 (by decide) (by decide) rfl
    freshPoints_ok freshPoints_built (by decide) (by decide)

/-! ## Member copies -/

theorem mem_migrateAt (p : Point α) (n : Int) (m : Nat) (ms : List (Point α)) (q : Point α)
    (h : q ∈ migrateAt p n m ms) : q ∈ ms ∨ (q = p.setCluster n ∧ n = (m : Int)) := by
  unfold migrateAt at h
  by_cases hsame : p.id_cluster = n
  · rw [if_pos hsame] at h
    exact Or.inl h
  · rw [if_neg hsame] at h
    have h1 : ∀ x, x ∈ (if p.id_cluster ≠ -1 ∧ 0 ≤ p.id_cluster ∧ p.id_cluster.toNat = m then
          ms.eraseP (fun q => decide (q.id_point = p.id_point))
        else ms) → x ∈ ms := by
      intro x hx
      split at hx
      · exact List.mem_of_mem_eraseP hx
      · exact hx
    by_cases hc : 0 ≤ n ∧ n.toNat = m
    · have h2 : q ∈ (if p.id_cluster ≠ -1 ∧ 0 ≤ p.id_cluster ∧ p.id_cluster.toNat = m then
            ms.eraseP (fun q => decide (q.id_point = p.id_point))
          else ms) ++ [p.setCluster n] := by
        simpa [hc] using h
      rcases List.mem_append.mp h2 with h3 | h3
      · exact Or.inl (h1 q h3)
      · exact Or.inr ⟨List.mem_singleton.mp h3, by omega⟩
    · have h2 : q ∈ (if p.id_cluster ≠ -1 ∧ 0 ≤ p.id_cluster ∧ p.id_cluster.toNat = m then
            ms.eraseP (fun q => decide (q.id_point = p.id_point))
          else ms) := by
        simpa [hc] using h
      exact Or.inl (h1 q h2)

/-- An entry of a member collection after the migrations of a list of points was there
before or is one of the points, relabelled with its nearest centre, in the collection of
that centre. -/
theorem mem_migrateAll (km : KMeans α) :
    ∀ (pts : List (Point α)) (mem : List (List (Point α))) (m : Nat)
      (ms1 : List (Point α)), (km.migrateAll pts mem)[m]? = some ms1 → ∀ q ∈ ms1,
      (∃ ms, mem[m]? = some ms ∧ q ∈ ms) ∨
        ∃ p ∈ pts, q = p.setCluster (km.nearestId p) ∧ km.nearestId p = (m : Int) := by
  intro pts
  induction pts with
  | nil =>
    intro mem m ms1 h q hq
    exact Or.inl ⟨ms1, h, hq⟩
  | cons p rest ih =>
    intro mem m ms1 h q hq
    rw [migrateAll_cons] at h
    rcases ih _ m ms1 h q hq with ⟨ms2, h2, hq2⟩ | ⟨p1, hp1, hqp, hn⟩
    · rw [getElem?_migrateSpec] at h2
      cases hx : mem[m]? with
      | none => simp [hx] at h2
      | some ms =>
        rw [hx] at h2
        have heq : migrateAt p (km.nearestId p) m ms = ms2 := Option.some.inj h2
        rw [← heq] at hq2
        rcases mem_migrateAt _ _ _ _ _ hq2 with h3 | ⟨h3, h4⟩
        · exact Or.inl ⟨ms, rfl, h3⟩
        · exact Or.inr ⟨p, List.mem_cons_self _ _, h3, h4⟩
    · exact Or.inr ⟨p1, List.mem_cons_of_mem _ hp1, hqp, hn⟩

/-- The assignment step keeps the member copies in agreement with the points. -/
theorem assign_faithful (km : KMeans α) (points : List (Point α)) (ht : km.Tidy points)
    (hf : km.Faithful points) (km1 : KMeans α)
    (hmem : km1.clusters.map Cluster.points =
      km.migrateAll points (km.clusters.map Cluster.points)) :
    km1.Faithful (points.map km.relabel) := by
  intro k ms1 hms1 q hq
  rw [hmem] at hms1
  have hnear : ∀ q ∈ points, 0 ≤ km.nearestId q := fun q hq =>
    (nearestId_ok km q ht.ready.kpos ht.ready.shaped (ht.ready.pointsOk.2 q hq)).2.1
  rcases mem_migrateAll km points _ k ms1 hms1 q hq with ⟨ms, hms, hqms⟩ | ⟨p, hp, hqp, hn⟩
  · obtain ⟨hqp, hlab⟩ := hf k ms hms q hqms
    have hcnt := (migrateAll_counts km points (km.clusters.map Cluster.points) ht.distinct
      hnear).2 q hqp (ht.counts q hqp) k ms1 hms1
    have hpos : 0 < memberCount ms1 q.id_point := by
      unfold memberCount
      exact List.countP_pos_iff.mpr ⟨q, hq, by simp⟩
    have hnk : km.nearestId q = (k : Int) := by
      by_contra hne
      rw [if_neg hne] at hcnt
      omega
    refine ⟨List.mem_map.mpr ⟨q, hqp, ?_⟩, hlab⟩
    show q.setCluster (km.nearestId q) = q
    rw [hnk, ← hlab]
    exact setCluster_self q
  · exact ⟨List.mem_map.mpr ⟨p, hp, hqp.symm⟩, by rw [hqp]; exact hn⟩

/-- The state the seeding leaves has its member copies in agreement with the points. -/
theorem seed_faithful (km : KMeans α) (points : List (Point α)) (draws : List Nat)
    (hpts : km.PointsOk points) (n : Nat)
    (st : KMeans α × List (Point α) × List Int × List Nat)
    (hinv : SeedInv km points draws n st) : st.1.Faithful st.2.1 := by
  intro k ms hms q hq
  rw [List.getElem?_map] at hms
  cases hc : st.1.clusters[k]? with
  | none => simp [hc] at hms
  | some c =>
    rw [hc] at hms
    have hms1 : c.points = ms := Option.some.inj hms
    obtain ⟨x, p, _, _, _, hceq, hpt⟩ := seeded_cluster km points draws hpts.1 n st hinv k c hc
    rw [← hms1, hceq] at hq
    rw [List.mem_singleton.mp hq]
    exact ⟨List.mem_iff_getElem?.mpr ⟨_, hpt⟩, rfl⟩

/-- Every state of a run at a step boundary has its member copies in agreement with the
points. -/
theorem reachable_faithful (km : KMeans α) (points : List (Point α)) (draws : List Nat)
    (hK : 1 ≤ km.K) (hKtp : km.K ≤ km.total_points) (hcl : km.clusters = [])
    (hpts : km.PointsOk points) (hbuilt : ∀ p ∈ points, p.Built)
    (hdist : (points.map Point.id_point).Nodup)
    (henough : km.K.toNat ≤ (firstDistinct [] (km.candidates draws)).length) :
    ∀ (km1 : KMeans α) (pts1 : List (Point α)),
      Reachable km points draws km1 pts1 → km1.Faithful pts1 := by
  have htidy := reachable_tidy km points draws hK hKtp hcl hpts hbuilt hdist henough
  intro km1 pts1 h
  induction h with
  | seeded km2 pts2 sel rest heq =>
    obtain ⟨st, hrun, hinv⟩ := seed_spec km points draws hK hKtp hcl hpts.1
      (fun p hp => (hbuilt p hp).2) henough
    have hst : st = (km2, pts2, sel, rest) := Except.ok.inj (hrun.symm.trans heq)
    have := seed_faithful km points draws hpts _ st hinv
    rw [hst] at this
    exact this
  | assigned km2 pts2 km3 pts3 hr2 heq ih =>
    have ht := htidy km2 pts2 hr2
    obtain ⟨km4, hrun, _, hmem, _⟩ := assign_ready km2 pts2 ht.ready
    have hpair : (km4, pts2.map km2.relabel) = (km3, pts3) :=
      Except.ok.inj (hrun.symm.trans heq)
    rw [Prod.mk.injEq] at hpair
    rw [← hpair.1, ← hpair.2]
    exact assign_faithful km2 pts2 ht ih km4 hmem
  | recentred km2 pts2 km3 hr2 heq ih =>
    have ht := htidy km2 pts2 hr2
    have h3 : km2.recentred = km3 := Except.ok.inj ((recalc_tidy km2 pts2 ht).1.symm.trans heq)
    have hpts3 : km3.clusters.map Cluster.points = km2.clusters.map Cluster.points := by
      rw [← h3]
      show (km2.clusters.map _).map Cluster.points = _
      rw [List.map_map]
      apply List.map_congr_left
      intro c _
      exact recentre_points c _
    intro k ms hms
    rw [hpts3] at hms
    exact ih k ms hms
  | checked km2 pts2 iter done s _ heq ih =>
    obtain ⟨h1, h2, _⟩ := checkPhase_frame _ s heq
    rw [h1, h2]
    exact ih

/-- C20: for a run with `1 ≤ K ≤ total_points` over freshly constructed points with
pairwise distinct ids whose seeding finishes, in the state the seeding leaves and in
every state left by a step from then on (every assignment step in particular): each entry
of a cluster's member collection has the id of a top-level point, and for the top-level
point of that id the entry carries the same coordinates, its stored label is the id of the
cluster holding it, and that label is the current label of the top-level point. -/
theorem C20_member_copies_agree (km : KMeans α) (points : List (Point α))
    (draws : List Nat) (hK : 1 ≤ km.K) (hKtp : km.K ≤ km.total_points)
    (hcl : km.clusters = []) (hpts : km.PointsOk points) (hbuilt : ∀ p ∈ points, p.Built)
    (hdist : (points.map Point.id_point).Nodup)
    (henough : km.K.toNat ≤ (firstDistinct [] (km.candidates draws)).length) :
    ∃ st, km.chooseCenters points draws = Except.ok st ∧
      Reachable km points draws st.1 st.2.1 ∧
      ∀ (km1 : KMeans α) (pts1 : List (Point α)), Reachable km points draws km1 pts1 →
        ∀ c ∈ km1.clusters, ∀ q ∈ c.points,
          (∃ p ∈ pts1, p.id_point = q.id_point) ∧
          ∀ p ∈ pts1, p.id_point = q.id_point →
            q.values = p.values ∧ q.id_cluster = c.id_cluster ∧
            q.id_cluster = p.id_cluster := by
  obtain ⟨st, hrun, _⟩ := seed_spec km points draws hK hKtp hcl hpts.1
    (fun p hp => (hbuilt p hp).2) henough
  refine ⟨st, hrun, Reachable.seeded st.1 st.2.1 st.2.2.1 st.2.2.2 hrun, ?_⟩
  intro km1 pts1 hreach c hc q hq
  have ht := reachable_tidy km points draws hK hKtp hcl hpts hbuilt hdist henough km1 pts1
    hreach
  have hf := reachable_faithful km points draws hK hKtp hcl hpts hbuilt hdist henough km1
    pts1 hreach
  obtain ⟨k, hk⟩ := List.mem_iff_getElem?.mp hc
  obtain ⟨hqp, hlab⟩ := hf k c.points (by rw [List.getElem?_map, hk]; rfl) q hq
  have hid : c.id_cluster = (k : Int) := ht.ids k c hk
  refine ⟨⟨q, hqp, rfl⟩, ?_⟩
  intro p hp hpid
  obtain ⟨a, ha⟩ := List.mem_iff_getElem?.mp hp
  obtain ⟨b, hb⟩ := List.mem_iff_getElem?.mp hqp
  have hab : a = b := index_of_id pts1 ht.distinct a b p q ha hb hpid
  have hpq : p = q := by
    rw [hab] at ha
    exact Option.some.inj (ha.symm.trans hb)
  rw [hpq, hid]
  exact ⟨rfl, hlab, rfl⟩

/-- C20 on three fresh points, `K = 2` and the draws `0, 3, 4`. -/
theorem C20_member_copies_agree_witness :
    ∃ st, freshKMeans.chooseCenters freshPoints [0, 3, 4] = Except.ok st ∧
      Reachable freshKMeans freshPoints [0, 3, 4] st.1 st.2.1 ∧
      ∀ (km1 : KMeans ℚ) (pts1 : List (Point ℚ)),
        Reachable freshKMeans freshPoints [0, 3, 4] km1 pts1 →
        ∀ c ∈ km1.clusters, ∀ q ∈ c.points,
          (∃ p ∈ pts1, p.id_point = q.id_point) ∧
          ∀ p ∈ pts1, p.id_point = q.id_point →
            q.values = p.values ∧ q.id_cluster = c.id_cluster ∧
            q.id_cluster = p.id_cluster :=
  C20_member_copies_agree freshKMeans freshPoints [0, 3, 4] (by decide) (by decide) rfl
    freshPoints_ok freshPoints_built freshPoints_distinct (by decide)

/-! ## One thread of the parallel program against the serial program -/

@[simp] theorem map_ok {β γ : Type} (f : β → γ) (a : β) :
    Except.map f (Except.ok a : Except Fault β) = Except.ok (f a) := rfl

@[simp] theorem map_error {β γ : Type} (f : β → γ) (e : Fault) :
    Except.map f (Except.error e : Except Fault β) = Except.error e := rfl

/-- A loop on lifted states whose body is the lifted body is the lifted loop. -/
theorem forLoop_lift {σ τ : Type} (g : τ → σ) (n : Nat)
    (bodyP : Nat → σ → Except Fault σ) (bodyS : Nat → τ → Except Fault τ)
    (h : ∀ i t, i < n → bodyP i (g t) = Except.map g (bodyS i t)) (t0 : τ) :
    forLoop n bodyP (g t0) = Except.map g (forLoop n bodyS t0) := by
  induction n with
  | zero => rfl
  | succ k ih =>
    rw [forLoop_succ, forLoop_succ, ih (fun i t hi => h i t (Nat.lt_succ_of_lt hi))]
    cases forLoop k bodyS t0 with
    | error e => rfl
    | ok t => exact h k t (Nat.lt_succ_self k)

theorem par_getIDNearestCenter (km : KMeans α) (lock : Bool) (point : Point α) :
    (km.withLock lock).getIDNearestCenter point = km.getIDNearestCenter point := rfl

theorem par_checkTermination (km : KMeans α) (lock : Bool) (points : List (Point α))
    (done : Bool) :
    (km.withLock lock).checkTermination points done = km.checkTermination points done := rfl

theorem par_showClusters (km : KMeans α) (lock : Bool) :
    (km.withLock lock).showClusters = km.showClusters := rfl

theorem toSerial_withLock (km : KMeans α) (lock : Bool) : (km.withLock lock).toSerial = km := by
  cases km
  rfl

theorem withLock_toSerial (km : ParKMeans α) : km.toSerial.withLock km.lock = km := by
  cases km
  rfl

theorem par_recalcBody (i j : Nat) (km : KMeans α) (lock : Bool) :
    ParKMeans.recalcBody i j (km.withLock lock) =
      Except.map (fun k => k.withLock lock) (KMeans.recalcBody i j km) := by
  unfold ParKMeans.recalcBody KMeans.recalcBody
  simp only [KMeans.withLock]
  cases vecAt km.clusters (i : Int) with
  | error e => rfl
  | ok c =>
    simp only [ok_bind]
    by_cases hpos : c.getTotalPoints > 0
    · simp only [hpos, if_true]
      cases forLoop c.getTotalPoints.toNat
          (fun p (sum : α) => do
            let pt ← c.getPoint p
            let v ← pt.getValue j
            pure (sum + v)) 0 with
      | error e => rfl
      | ok sum =>
        simp only [ok_bind]
        cases c.setCentralValue (j : Int) (sum / (c.getTotalPoints : α)) with
        | error e => rfl
        | ok c1 =>
          simp only [ok_bind]
          cases vecSet km.clusters (i : Int) c1 with
          | error e => rfl
          | ok cs => rfl
    · simp only [hpos, if_false]
      rfl

theorem par_recalcCenters (km : KMeans α) (lock : Bool) :
    (km.withLock lock).recalcCenters =
      Except.map (fun k => k.withLock lock) km.recalcCenters := by
  unfold ParKMeans.recalcCenters KMeans.recalcCenters
  apply forLoop_lift (fun k : KMeans α => k.withLock lock)
  intro i t _
  exact forLoop_lift (fun k : KMeans α => k.withLock lock) _ _ _
    (fun j t1 _ => par_recalcBody i j t1 lock) t

/-- One iteration of the parallel assignment loop entered with the lock unset: the
lock is set and unset around the migration, and the rest is the serial iteration. -/
theorem par_assignBody (i : Nat) (km : KMeans α) (pts : List (Point α)) :
    ParKMeans.assignBody i (km.withLock false, pts) =
      Except.map (fun st : KMeans α × List (Point α) => (st.1.withLock false, st.2))
        (KMeans.assignBody i (km, pts)) := by
  unfold ParKMeans.assignBody KMeans.assignBody
  simp only [par_getIDNearestCenter]
  cases vecAt pts (i : Int) with
  | error e => rfl
  | ok pt =>
    simp only [ok_bind]
    cases km.getIDNearestCenter pt with
    | error e => rfl
    | ok n =>
      simp only [ok_bind]
      by_cases hsame : pt.getCluster ≠ n
      · simp only [hsame, if_true, ParKMeans.setLock, KMeans.withLock, Bool.false_eq_true,
          if_false, ok_bind, ne_eq, not_false_eq_true]
        by_cases hold : pt.getCluster ≠ -1
        · simp only [hold, ne_eq, not_false_eq_true, if_true]
          cases vecAt km.clusters pt.getCluster with
          | error e => rfl
          | ok c =>
            simp only [ok_bind]
            cases vecSet km.clusters pt.getCluster (c.removePoint pt.getID).2 with
            | error e => rfl
            | ok cs1 =>
              simp only [ok_bind]
              cases vecSet pts (i : Int) (pt.setCluster n) with
              | error e => rfl
              | ok pts1 =>
                simp only [ok_bind]
                cases vecAt cs1 n with
                | error e => rfl
                | ok c2 =>
                  simp only [ok_bind]
                  cases vecSet cs1 n (c2.addPoint (pt.setCluster n)) with
                  | error e => rfl
                  | ok cs2 => rfl
        · simp only [hold, if_false, pure_eq_ok, ok_bind]
          cases vecSet pts (i : Int) (pt.setCluster n) with
          | error e => rfl
          | ok pts1 =>
            simp only [ok_bind]
            cases vecAt km.clusters n with
            | error e => rfl
            | ok c2 =>
              simp only [ok_bind]
              cases vecSet km.clusters n (c2.addPoint (pt.setCluster n)) with
              | error e => rfl
              | ok cs2 => rfl
      · simp only [hsame, if_false]
        rfl

theorem par_assignPointsToClusters (km : KMeans α) (pts : List (Point α))
    (num_threads : Int) :
    (km.withLock false).assignPointsToClusters pts num_threads =
      Except.map (fun st : KMeans α × List (Point α) => (st.1.withLock false, st.2))
        (km.assignPointsToClusters pts) := by
  unfold ParKMeans.assignPointsToClusters KMeans.assignPointsToClusters
  exact forLoop_lift
    (fun st : KMeans α × List (Point α) => (st.1.withLock false, st.2)) _ _ _
    (fun i st _ => par_assignBody i st.1 st.2) (km, pts)

theorem par_drawCenter (i : Nat) (km : KMeans α) (lock : Bool) (pts : List (Point α))
    (base : List Int) (draws : List Nat) :
    ParKMeans.drawCenter i (km.withLock lock) pts base draws =
      Except.map
        (fun st : KMeans α × List (Point α) × List Int × List Nat =>
          (st.1.withLock lock, st.2))
        (KMeans.drawCenter i km pts base draws) := by
  induction draws with
  | nil => rfl
  | cons r rest ih =>
    unfold ParKMeans.drawCenter KMeans.drawCenter
    simp only [KMeans.withLock] at ih ⊢
    by_cases htp : km.total_points = 0
    · simp only [htp, if_true]
      rfl
    · simp only [htp, if_false]
      by_cases hin : Int.tmod (r : Int) km.total_points ∉ base
      · simp only [hin, not_false_eq_true, if_true]
        cases vecAt pts (Int.tmod (r : Int) km.total_points) with
        | error e => rfl
        | ok pt =>
          simp only [ok_bind]
          cases vecSet pts (Int.tmod (r : Int) km.total_points) (pt.setCluster (i : Int)) with
          | error e => rfl
          | ok pts1 =>
            simp only [ok_bind]
            cases Cluster.new (i : Int) (pt.setCluster (i : Int)) with
            | error e => rfl
            | ok c => rfl
      · simp only [hin, if_false]
        exact ih

theorem par_chooseCenters (km : KMeans α) (lock : Bool) (pts : List (Point α))
    (draws : List Nat) :
    (km.withLock lock).chooseCenters pts draws =
      Except.map
        (fun st : KMeans α × List (Point α) × List Int × List Nat =>
          (st.1.withLock lock, st.2))
        (km.chooseCenters pts draws) := by
  unfold ParKMeans.chooseCenters KMeans.chooseCenters
  exact forLoop_lift
    (fun st : KMeans α × List (Point α) × List Int × List Nat =>
      (st.1.withLock lock, st.2)) _ _ _
    (fun i st _ => par_drawCenter i st.1 lock st.2.1 st.2.2.1 st.2.2.2) (km, pts, [], draws)

theorem par_iteration (km : KMeans α) (pts : List (Point α)) (num_threads iter : Int) :
    (km.withLock false).iteration pts num_threads iter =
      Except.map LoopState.toPar (km.iteration pts iter) := by
  unfold ParKMeans.iteration KMeans.iteration KMeans.checkPhase
  rw [par_assignPointsToClusters]
  cases km.assignPointsToClusters pts with
  | error e => rfl
  | ok st =>
    simp only [map_ok, ok_bind]
    rw [par_recalcCenters]
    cases st.1.recalcCenters with
    | error e => rfl
    | ok km2 =>
      simp only [map_ok, ok_bind, par_checkTermination]
      cases km2.checkTermination st.2 true with
      | error e => rfl
      | ok d => rfl

theorem par_mainLoop (num_threads : Int) :
    ∀ (fuel : Nat) (km : KMeans α) (pts : List (Point α)) (iter : Int),
      ParKMeans.mainLoop num_threads fuel (km.withLock false) pts iter =
        Except.map LoopState.toPar (KMeans.mainLoop fuel km pts iter) := by
  intro fuel
  induction fuel with
  | zero =>
    intro km pts iter
    rfl
  | succ fuel ih =>
    intro km pts iter
    unfold ParKMeans.mainLoop KMeans.mainLoop
    rw [par_iteration]
    cases km.iteration pts iter with
    | error e => rfl
    | ok s =>
      simp only [map_ok, ok_bind]
      by_cases hexit : (s.done || decide (iter ≥ s.km.max_iterations)) = true
      · have hexit1 : (s.toPar.done || decide (iter ≥ s.toPar.km.max_iterations)) = true :=
          hexit
        rw [if_pos hexit, if_pos hexit1]
        rfl
      · have hexit1 : ¬ (s.toPar.done || decide (iter ≥ s.toPar.km.max_iterations)) = true :=
          hexit
        rw [if_neg hexit, if_neg hexit1]
        exact ih s.km s.points (iter + 1)

/-- The parallel `run` by one thread on an object with the lock unset is the serial
`run` on the same fields. -/
theorem par_run (fuel : Nat) (km : KMeans α) (pts : List (Point α)) (num_threads : Int)
    (draws : List Nat) :
    (km.withLock false).run fuel pts num_threads draws =
      Except.map RunResult.toPar (km.run fuel pts draws) := by
  unfold ParKMeans.run KMeans.run
  by_cases hK : km.K > km.total_points
  · have hK1 : (km.withLock false).K > (km.withLock false).total_points := hK
    rw [if_pos hK, if_pos hK1]
    rfl
  · have hK1 : ¬ (km.withLock false).K > (km.withLock false).total_points := hK
    rw [if_neg hK, if_neg hK1, par_chooseCenters]
    cases km.chooseCenters pts draws with
    | error e => rfl
    | ok st =>
      simp only [map_ok, ok_bind]
      rw [par_mainLoop]
      cases KMeans.mainLoop fuel st.1 st.2.1 1 with
      | error e => rfl
      | ok s =>
        simp only [map_ok, ok_bind]
        have hshow : s.toPar.km.showClusters = s.km.showClusters := rfl
        rw [hshow]
        cases s.km.showClusters with
        | error e => rfl
        | ok out => rfl

/-- C13: for every configuration, point vector, list of draws and step budget, `run`
of `parallel.cpp` with `num_threads = 1` (every `parallel for` run in ascending index
order, the lock unset on entry) does exactly what `run` of `serial.cpp` does on the same
fields: it faults when and as the serial run faults, and otherwise returns the same
labels of the points, the same clusters (member collections and centres), the same
output, hence the same reported iteration, and the same remaining draws, with the lock
unset again. -/
theorem C13_parallel_one_thread_serial (km : ParKMeans α) (points : List (Point α))
    (draws : List Nat) (fuel : Nat) (hlock : km.lock = false) :
    km.run fuel points 1 draws =
      Except.map RunResult.toPar (km.toSerial.run fuel points draws) ∧
    (∀ r, km.run fuel points 1 draws = Except.ok r →
      ∃ rs, km.toSerial.run fuel points draws = Except.ok rs ∧
        r.points = rs.points ∧ r.km.clusters = rs.km.clusters ∧
        r.output = rs.output ∧ r.draws = rs.draws ∧ r.km.lock = false) ∧
    (∀ rs, km.toSerial.run fuel points draws = Except.ok rs →
      ∃ r, km.run fuel points 1 draws = Except.ok r ∧ r.toSerial = rs) ∧
    (∀ e, km.run fuel points 1 draws = Except.error e ↔
      km.toSerial.run fuel points draws = Except.error e) := by
  have hkm : km = km.toSerial.withLock false := by
    rw [← hlock]
    exact (withLock_toSerial km).symm
  have hrun : km.run fuel points 1 draws =
      Except.map RunResult.toPar (km.toSerial.run fuel points draws) := by
    conv_lhs => rw [hkm]
    exact par_run fuel km.toSerial points 1 draws
  refine ⟨hrun, ?_, ?_, ?_⟩
  · intro r hr
    rw [hrun] at hr
    cases hs : km.toSerial.run fuel points draws with
    | error e => simp [hs] at hr
    | ok rs =>
      rw [hs, map_ok] at hr
      have : rs.toPar = r := Except.ok.inj hr
      rw [← this]
      exact ⟨rs, rfl, rfl, rfl, rfl, rfl, rfl⟩
  · intro rs hs
    refine ⟨rs.toPar, by rw [hrun, hs, map_ok], ?_⟩
    show RunResult.mk (rs.km.withLock false).toSerial rs.points rs.draws rs.output = rs
    rw [toSerial_withLock]
  · intro e
    rw [hrun]
    cases km.toSerial.run fuel points draws with
    | error e1 => simp
    | ok rs => simp

/-- C13 on three fresh points, `K = 2` and the draws `0, 3, 4`. -/
theorem C13_parallel_one_thread_serial_witness :
    (ParKMeans.new 2 3 1 10 : ParKMeans ℚ).run 10 freshPoints 1 [0, 3, 4] =
      Except.map RunResult.toPar
        ((ParKMeans.new 2 3 1 10 : ParKMeans ℚ).toSerial.run 10 freshPoints [0, 3, 4]) ∧
    (∀ r, (ParKMeans.new 2 3 1 10 : ParKMeans ℚ).run 10 freshPoints 1 [0, 3, 4] =
        Except.ok r →
      ∃ rs, (ParKMeans.new 2 3 1 10 : ParKMeans ℚ).toSerial.run 10 freshPoints [0, 3, 4] =
          Except.ok rs ∧
        r.points = rs.points ∧ r.km.clusters = rs.km.clusters ∧
        r.output = rs.output ∧ r.draws = rs.draws ∧ r.km.lock = false) ∧
    (∀ rs, (ParKMeans.new 2 3 1 10 : ParKMeans ℚ).toSerial.run 10 freshPoints [0, 3, 4] =
        Except.ok rs →
      ∃ r, (ParKMeans.new 2 3 1 10 : ParKMeans ℚ).run 10 freshPoints 1 [0, 3, 4] =
        Except.ok r ∧ r.toSerial = rs) ∧
    (∀ e, (ParKMeans.new 2 3 1 10 : ParKMeans ℚ).run 10 freshPoints 1 [0, 3, 4] =
        Except.error e ↔
      (ParKMeans.new 2 3 1 10 : ParKMeans ℚ).toSerial.run 10 freshPoints [0, 3, 4] =
        Except.error e) :=
  C13_parallel_one_thread_serial (ParKMeans.new 2 3 1 10) freshPoints [0, 3, 4] 10 rfl

/-! ## The steps do not read `max_iterations` -/

theorem setMax_getIDNearestCenter (km : KMeans α) (mi : Int) (point : Point α) :
    (km.setMax mi).getIDNearestCenter point = km.getIDNearestCenter point := rfl

theorem setMax_checkTermination (km : KMeans α) (mi : Int) (points : List (Point α))
    (done : Bool) :
    (km.setMax mi).checkTermination points done = km.checkTermination points done := rfl

theorem setMax_showClusters (km : KMeans α) (mi : Int) :
    (km.setMax mi).showClusters = km.showClusters := rfl

theorem setMax_assignBody (mi : Int) (i : Nat) (km : KMeans α) (pts : List (Point α)) :
    KMeans.assignBody i (km.setMax mi, pts) =
      Except.map (fun st : KMeans α × List (Point α) => (st.1.setMax mi, st.2))
        (KMeans.assignBody i (km, pts)) := by
  unfold KMeans.assignBody
  simp only [setMax_getIDNearestCenter]
  cases vecAt pts (i : Int) with
  | error e => rfl
  | ok pt =>
    simp only [ok_bind]
    cases km.getIDNearestCenter pt with
    | error e => rfl
    | ok n =>
      simp only [ok_bind]
      by_cases hsame : pt.getCluster ≠ n
      · simp only [hsame, if_true, KMeans.setMax, ne_eq, not_false_eq_true]
        by_cases hold : pt.getCluster ≠ -1
        · simp only [hold, ne_eq, not_false_eq_true, if_true]
          cases vecAt km.clusters pt.getCluster with
          | error e => rfl
          | ok c =>
            simp only [ok_bind]
            cases vecSet km.clusters pt.getCluster (c.removePoint pt.getID).2 with
            | error e => rfl
            | ok cs1 =>
              simp only [ok_bind]
              cases vecSet pts (i : Int) (pt.setCluster n) with
              | error e => rfl
              | ok pts1 =>
                simp only [ok_bind]
                cases vecAt cs1 n with
                | error e => rfl
                | ok c2 =>
                  simp only [ok_bind]
                  cases vecSet cs1 n (c2.addPoint (pt.setCluster n)) with
                  | error e => rfl
                  | ok cs2 => rfl
        · simp only [hold, if_false, pure_eq_ok, ok_bind]
          cases vecSet pts (i : Int) (pt.setCluster n) with
          | error e => rfl
          | ok pts1 =>
            simp only [ok_bind]
            cases vecAt km.clusters n with
            | error e => rfl
            | ok c2 =>
              simp only [ok_bind]
              cases vecSet km.clusters n (c2.addPoint (pt.setCluster n)) with
              | error e => rfl
              | ok cs2 => rfl
      · simp only [hsame, if_false]
        rfl

theorem setMax_assignPointsToClusters (mi : Int) (km : KMeans α) (pts : List (Point α)) :
    (km.setMax mi).assignPointsToClusters pts =
      Except.map (fun st : KMeans α × List (Point α) => (st.1.setMax mi, st.2))
        (km.assignPointsToClusters pts) := by
  unfold KMeans.assignPointsToClusters
  exact forLoop_lift
    (fun st : KMeans α × List (Point α) => (st.1.setMax mi, st.2)) _ _ _
    (fun i st _ => setMax_assignBody mi i st.1 st.2) (km, pts)

theorem setMax_recalcBody (mi : Int) (i j : Nat) (km : KMeans α) :
    KMeans.recalcBody i j (km.setMax mi) =
      Except.map (fun k => k.setMax mi) (KMeans.recalcBody i j km) := by
  unfold KMeans.recalcBody
  simp only [KMeans.setMax]
  cases vecAt km.clusters (i : Int) with
  | error e => rfl
  | ok c =>
    simp only [ok_bind]
    by_cases hpos : c.getTotalPoints > 0
    · simp only [hpos, if_true]
      cases forLoop c.getTotalPoints.toNat
          (fun p (sum : α) => do
            let pt ← c.getPoint p
            let v ← pt.getValue j
            pure (sum + v)) 0 with
      | error e => rfl
      | ok sum =>
        simp only [ok_bind]
        cases c.setCentralValue (j : Int) (sum / (c.getTotalPoints : α)) with
        | error e => rfl
        | ok c1 =>
          simp only [ok_bind]
          cases vecSet km.clusters (i : Int) c1 with
          | error e => rfl
          | ok cs => rfl
    · simp only [hpos, if_false]
      rfl

theorem setMax_recalcCenters (mi : Int) (km : KMeans α) :
    (km.setMax mi).recalcCenters = Except.map (fun k => k.setMax mi) km.recalcCenters := by
  unfold KMeans.recalcCenters
  apply forLoop_lift (fun k : KMeans α => k.setMax mi)
  intro i t _
  exact forLoop_lift (fun k : KMeans α => k.setMax mi) _ _ _
    (fun j t1 _ => setMax_recalcBody mi i j t1) t

/-- A pass of the driver loop body does the same whatever `max_iterations` is. -/
theorem setMax_iteration (mi : Int) (km : KMeans α) (pts : List (Point α)) (iter : Int) :
    (km.setMax mi).iteration pts iter =
      Except.map (fun s => s.setMax mi) (km.iteration pts iter) := by
  unfold KMeans.iteration KMeans.checkPhase
  rw [setMax_assignPointsToClusters]
  cases km.assignPointsToClusters pts with
  | error e => rfl
  | ok st =>
    simp only [map_ok, ok_bind]
    rw [setMax_recalcCenters]
    cases st.1.recalcCenters with
    | error e => rfl
    | ok km2 =>
      simp only [map_ok, ok_bind, setMax_checkTermination]
      cases km2.checkTermination st.2 true with
      | error e => rfl
      | ok d => rfl

/-! ## The scenario of five identical points -/

theorem five_seed (mi : Int) (r : Nat) (rest : List Nat) :
    (KMeans.new 1 5 2 mi : KMeans ℚ).chooseCenters fivePoints (r :: rest) =
      Except.ok ((fiveSeeded (r % 5)).1.setMax mi, (fiveSeeded (r % 5)).2,
        [((r % 5 : Nat) : Int)], rest) := by
  have hx : Int.tmod (r : Int) 5 = ((r % 5 : Nat) : Int) := by
    rw [Int.tmod_eq_emod (Int.ofNat_nonneg r) (by norm_num)]
    omega
  have ha : r % 5 < 5 := Nat.mod_lt _ (by norm_num)
  generalize r % 5 = a at hx ha
  interval_cases a <;>
    simp [KMeans.chooseCenters, KMeans.new, forLoop, KMeans.drawCenter, hx, vecAt, vecSet,
      Cluster.new, Point.new, Point.setCluster, Point.getTotalValues, Point.getValue,
      fivePoints, fiveSeeded, KMeans.setMax]

theorem five_iteration (a : Nat) (ha : a < 5) :
    (fiveSeeded a).1.iteration (fiveSeeded a).2 1 = Except.ok (fiveFinal a) := by
  interval_cases a <;> with_unfolding_all rfl

theorem five_shown (a : Nat) (ha : a < 5) :
    ∃ out, (fiveFinal a).km.showClusters = Except.ok out := by
  interval_cases a <;> exact ⟨_, by with_unfolding_all rfl⟩

theorem five_members (a : Nat) (ha : a < 5) :
    (fiveMembers a).length = 5 ∧
      ∀ p ∈ fivePoints, memberCount (fiveMembers a) p.id_point = 1 := by
  interval_cases a <;> with_unfolding_all decide

/-- C12: for the five identical points `[3, 3]` with `K = 1`, whatever `max_iterations`,
the draws of the seeding and the fuel left for the driver loop beyond one pass, the
seeding takes the point of index `r % 5`, the driver loop returns at the end of its
first pass with counter `1` and the termination check satisfied, `run` prints
"Break in iteration 1" first, every point is labelled `0`, and the single cluster has
id `0`, centre `[3, 3]` and five members among which every point is exactly once. -/
theorem C12_five_identical_points (max_iterations : Int) (r : Nat) (rest : List Nat)
    (fuel : Nat) :
    ∃ st s res members,
      (KMeans.new 1 5 2 max_iterations : KMeans ℚ).chooseCenters fivePoints (r :: rest) =
        Except.ok st ∧
      st.2.2.1 = [((r % 5 : Nat) : Int)] ∧
      KMeans.mainLoop (fuel + 1) st.1 st.2.1 1 = Except.ok s ∧
      s.iter = 1 ∧ s.done = true ∧
      KMeans.run (fuel + 1) (KMeans.new 1 5 2 max_iterations : KMeans ℚ) fivePoints
        (r :: rest) = Except.ok res ∧
      res.output.head? = some (Out.breakIn 1) ∧
      res.km = s.km ∧ res.points = s.points ∧
      s.points = fivePoints.map (fun p => p.setCluster 0) ∧
      s.km.K = 1 ∧
      s.km.clusters = [Cluster.mk 0 [3, 3] members] ∧
      members.length = 5 ∧
      ∀ p ∈ fivePoints, memberCount members p.id_point = 1 := by
  have ha : r % 5 < 5 := Nat.mod_lt _ (by norm_num)
  obtain ⟨out, hout⟩ := five_shown (r % 5) ha
  obtain ⟨hlen, hcount⟩ := five_members (r % 5) ha
  have hloop : KMeans.mainLoop (fuel + 1) ((fiveSeeded (r % 5)).1.setMax max_iterations)
      (fiveSeeded (r % 5)).2 1 = Except.ok ((fiveFinal (r % 5)).setMax max_iterations) := by
    rw [KMeans.mainLoop, setMax_iteration, five_iteration _ ha, map_ok, ok_bind]
    rfl
  refine ⟨_, _, ⟨((fiveFinal (r % 5)).setMax max_iterations).km, fiveLabelled, rest,
    Out.breakIn 1 :: out⟩, fiveMembers (r % 5), five_seed max_iterations r rest, rfl, hloop,
    rfl, rfl, ?_, rfl, rfl, rfl, rfl, rfl, rfl, hlen, hcount⟩
  have hguard : ¬ (KMeans.new 1 5 2 max_iterations : KMeans ℚ).K >
      (KMeans.new 1 5 2 max_iterations : KMeans ℚ).total_points := by
    simp [KMeans.new]
  unfold KMeans.run
  rw [if_neg hguard, five_seed, ok_bind]
  simp only [hloop, ok_bind]
  rw [show ((fiveFinal (r % 5)).setMax max_iterations).km.showClusters =
    Except.ok out from hout]
  rfl

/-! ## The scenario of four points on a line -/

theorem mainLoop_fuel_mono : ∀ (fuel : Nat) (km : KMeans α) (points : List (Point α))
    (iter : Int) (s : LoopState α), KMeans.mainLoop fuel km points iter = Except.ok s →
    ∀ k, KMeans.mainLoop (fuel + k) km points iter = Except.ok s := by
  intro fuel
  induction fuel with
  | zero =>
    intro km points iter s h
    simp [KMeans.mainLoop] at h
  | succ fuel ih =>
    intro km points iter s h k
    have hk : fuel + 1 + k = (fuel + k) + 1 := by omega
    rw [hk]
    unfold KMeans.mainLoop at h ⊢
    cases hit : km.iteration points iter with
    | error e =>
      rw [hit] at h
      simp [error_bind] at h
    | ok s1 =>
      rw [hit, ok_bind] at h
      rw [ok_bind]
      by_cases hex : (s1.done || decide (iter ≥ s1.km.max_iterations)) = true
      · rw [if_pos hex] at h ⊢
        exact h
      · rw [if_neg hex] at h ⊢
        exact ih _ _ _ _ h k

theorem four_run (a b : Nat) (ha : a < 4) (hb : b < 4) (hab : a ≠ b) :
    ∃ (s : LoopState ℚ) (c0 c1 : Cluster ℚ) (out : List (Out ℚ)),
      KMeans.mainLoop 2 (fourSeeded a b).1 (fourSeeded a b).2 1 = Except.ok s ∧
      s.km.clusters = [c0, c1] ∧
      s.km.showClusters = Except.ok out ∧
      (s.done = true ∧ 1 ≤ s.iter ∧ s.iter ≤ 2 ∧ c0.id_cluster = 0 ∧ c1.id_cluster = 1 ∧
        ((c0.HoldsPair (1 / 2) 0 1 ∧ c1.HoldsPair (19 / 2) 2 3) ∨
          (c1.HoldsPair (1 / 2) 0 1 ∧ c0.HoldsPair (19 / 2) 2 3))) := by
  interval_cases a <;> interval_cases b <;>
    first
    | exact absurd rfl hab
    | exact ⟨_, _, _, _, by with_unfolding_all rfl, by with_unfolding_all rfl,
        by with_unfolding_all rfl, by with_unfolding_all decide⟩

theorem four_seed (a b : Nat) (draws : List Nat)
    (hsel : (firstDistinct [] (fourKMeans.candidates draws)).take 2 = [(a : Int), (b : Int)]) :
    a < 4 ∧ b < 4 ∧ a ≠ b ∧
      ∃ rest, fourKMeans.chooseCenters fourPoints draws =
        Except.ok ((fourSeeded a b).1, (fourSeeded a b).2, [(a : Int), (b : Int)], rest) := by
  have hfresh : firstDistinct [] (fourKMeans.candidates draws) ≠ [] := by
    intro h
    rw [h] at hsel
    simp at hsel
  obtain ⟨x, p, used, rest1, hrun1, _, _, hx0, hxlt, hp, hfd1⟩ :=
    drawCenter_spec 0 fourKMeans fourPoints [] (by decide) rfl
      (by intro p hp; simp [fourPoints, Point.new] at hp; rcases hp with h | h | h | h <;>
        subst h <;> rfl) draws hfresh
  rw [hfd1] at hsel
  simp only [List.nil_append, List.take_succ_cons, List.cons.injEq] at hsel
  obtain ⟨hxa, hsel2⟩ := hsel
  subst hxa
  have hfresh2 : firstDistinct [(a : Int)] (fourKMeans.candidates rest1) ≠ [] := by
    intro h
    rw [h] at hsel2
    simp at hsel2
  have hxl : a < 4 := by
    have : ((a : Int)) < 4 := hxlt
    omega
  have hbuilt1 : ∀ q ∈ fourPoints.set (a : Int).toNat (p.setCluster ((0 : Nat) : Int)),
      q.total_values = (q.values.length : Int) := by
    intro q hq
    simp only [Int.toNat_ofNat] at hq hp
    interval_cases a <;> simp [fourPoints, Point.new, Point.setCluster] at hp hq <;>
      subst hp <;> rcases hq with h | h | h | h <;> subst h <;> rfl
  obtain ⟨y, q, used2, rest2, hrun2, _, hyx, hy0, hylt, hq, hfd2⟩ :=
    drawCenter_spec 1
      (KMeans.mk fourKMeans.K fourKMeans.total_values fourKMeans.total_points
        fourKMeans.max_iterations
        (fourKMeans.clusters ++ [Cluster.mk ((0 : Nat) : Int) p.values
          [p.setCluster ((0 : Nat) : Int)]]))
      (fourPoints.set (a : Int).toNat (p.setCluster ((0 : Nat) : Int))) ([] ++ [(a : Int)])
      (show (0 : Int) < 4 by decide) (by simp [fourPoints, fourKMeans, KMeans.new])
      hbuilt1 rest1 hfresh2
  have hfd2a : firstDistinct [(a : Int)] (fourKMeans.candidates rest1) =
      y :: firstDistinct ([(a : Int)] ++ [y]) (fourKMeans.candidates rest2) := hfd2
  rw [hfd2a] at hsel2
  simp only [List.take_succ_cons, List.cons.injEq, List.take_zero, and_true] at hsel2
  subst hsel2
  have hyl : b < 4 := by
    have : ((b : Int)) < 4 := hylt
    omega
  have hab : a ≠ b := by
    intro h
    apply hyx
    simp [h]
  refine ⟨hxl, hyl, hab, rest2, ?_⟩
  have hK : fourKMeans.K.toNat = 2 := rfl
  unfold KMeans.chooseCenters
  rw [hK]
  simp only [forLoop, pure_eq_ok, ok_bind]
  rw [hrun1, ok_bind]
  simp only []
  rw [hrun2]
  simp only [Int.toNat_ofNat] at hp hq ⊢
  have hpe : fourPoints.getD a (Point.new 0 []) = p := by
    rw [List.getD_eq_getElem?_getD, hp]
    rfl
  have hqe : (fourPoints.set a (p.setCluster 0)).getD b (Point.new 0 []) = q := by
    rw [List.getD_eq_getElem?_getD]
    have := hq
    simp only [Nat.cast_zero] at this
    rw [this]
    rfl
  simp only [fourSeeded, hpe, hqe]
  rfl

/-- C11: for the four points `[0], [1], [9], [10]` with `K = 2` and
`max_iterations = 10`, whatever the draws, if the seeding takes the points of indices
`a` and `b` (the first two distinct candidates `rand() % 4` of the draws) for clusters
`0` and `1`, then with fuel for two passes the driver loop returns in the converged
state (`done = true`) at the end of pass one or two, `run` prints that pass number
first, and one of the two clusters has centre `[1/2]` and members exactly the points
`0` and `1`, the other centre `[19/2]` and members exactly the points `2` and `3`. -/
theorem C11_four_points_any_seeds (a b : Nat) (draws : List Nat) (fuel : Nat)
    (hsel : (firstDistinct [] (fourKMeans.candidates draws)).take 2 = [(a : Int), (b : Int)])
    (hfuel : 2 ≤ fuel) :
    a < 4 ∧ b < 4 ∧ a ≠ b ∧
    ∃ st s res c0 c1,
      fourKMeans.chooseCenters fourPoints draws = Except.ok st ∧
      st.2.2.1 = [(a : Int), (b : Int)] ∧
      KMeans.mainLoop fuel st.1 st.2.1 1 = Except.ok s ∧
      s.done = true ∧ 1 ≤ s.iter ∧ s.iter ≤ 2 ∧ s.iter < fourKMeans.max_iterations ∧
      KMeans.run fuel fourKMeans fourPoints draws = Except.ok res ∧
      res.output.head? = some (Out.breakIn s.iter) ∧
      res.km = s.km ∧ res.points = s.points ∧
      s.km.clusters = [c0, c1] ∧ c0.id_cluster = 0 ∧ c1.id_cluster = 1 ∧
      ((c0.HoldsPair (1 / 2) 0 1 ∧ c1.HoldsPair (19 / 2) 2 3) ∨
        (c1.HoldsPair (1 / 2) 0 1 ∧ c0.HoldsPair (19 / 2) 2 3)) := by
  obtain ⟨ha, hb, hab, rest, hseed⟩ := four_seed a b draws hsel
  obtain ⟨s, c0, c1, out, hloop, hcl, hshow, hdone, h1, h2, hid0, hid1, hpairs⟩ :=
    four_run a b ha hb hab
  have hloop2 : KMeans.mainLoop fuel (fourSeeded a b).1 (fourSeeded a b).2 1 = Except.ok s := by
    have := mainLoop_fuel_mono 2 _ _ _ _ hloop (fuel - 2)
    rwa [show 2 + (fuel - 2) = fuel by omega] at this
  have hcap : s.iter < fourKMeans.max_iterations := by
    have : fourKMeans.max_iterations = 10 := rfl
    omega
  refine ⟨ha, hb, hab, _, s, ⟨s.km, s.points, rest, Out.breakIn s.iter :: out⟩, c0, c1,
    hseed, rfl, hloop2, hdone, h1, h2, hcap, ?_, rfl, rfl, rfl, hcl, hid0, hid1, hpairs⟩
  have hguard : ¬ fourKMeans.K > fourKMeans.total_points := by decide
  unfold KMeans.run
  rw [if_neg hguard, hseed, ok_bind]
  simp only [hloop2, ok_bind, hshow]
  rfl

theorem C11_four_points_any_seeds_witness :
    (firstDistinct [] (fourKMeans.candidates [2, 6, 7])).take 2 =
      [((2 : Nat) : Int), ((3 : Nat) : Int)] ∧
    2 ≤ 2 ∧ 2 < 4 ∧ 3 < 4 ∧ 2 ≠ 3 ∧
    ∃ st s res c0 c1,
      fourKMeans.chooseCenters fourPoints [2, 6, 7] = Except.ok st ∧
      st.2.2.1 = [((2 : Nat) : Int), ((3 : Nat) : Int)] ∧
      KMeans.mainLoop 2 st.1 st.2.1 1 = Except.ok s ∧
      s.done = true ∧ 1 ≤ s.iter ∧ s.iter ≤ 2 ∧ s.iter < fourKMeans.max_iterations ∧
      KMeans.run 2 fourKMeans fourPoints [2, 6, 7] = Except.ok res ∧
      res.output.head? = some (Out.breakIn s.iter) ∧
      res.km = s.km ∧ res.points = s.points ∧
      s.km.clusters = [c0, c1] ∧ c0.id_cluster = 0 ∧ c1.id_cluster = 1 ∧
      ((c0.HoldsPair (1 / 2) 0 1 ∧ c1.HoldsPair (19 / 2) 2 3) ∨
        (c1.HoldsPair (1 / 2) 0 1 ∧ c0.HoldsPair (19 / 2) 2 3)) :=
  ⟨by decide, by decide, C11_four_points_any_seeds 2 3 [2, 6, 7] 2 (by decide) (by decide)⟩

/-! ## The objective does not increase -/

theorem sum_sq_shift (xs : List α) (m c : α) :
    (xs.map (fun x => (c - x) ^ 2)).sum =
      (xs.map (fun x => (m - x) ^ 2)).sum + (xs.length : α) * (m - c) ^ 2 +
        2 * (m - c) * (xs.sum - (xs.length : α) * m) := by
  induction xs with
  | nil => simp
  | cons x xs ih =>
    simp only [List.map_cons, List.sum_cons, List.length_cons, Nat.cast_succ]
    rw [ih]
    ring

/-- The mean of a non-empty list minimises the sum of squared deviations. -/
theorem mean_minimises (xs : List α) (hne : xs.length ≠ 0) (c : α) :
    (xs.map (fun x => (xs.sum / (xs.length : α) - x) ^ 2)).sum ≤
      (xs.map (fun x => (c - x) ^ 2)).sum := by
  have hlen : (xs.length : α) ≠ 0 := by exact_mod_cast hne
  rw [sum_sq_shift xs (xs.sum / (xs.length : α)) c]
  have h0 : xs.sum - (xs.length : α) * (xs.sum / (xs.length : α)) = 0 := by
    field_simp
  rw [h0, mul_zero, add_zero]
  have : 0 ≤ (xs.length : α) * (xs.sum / (xs.length : α) - c) ^ 2 :=
    mul_nonneg (Nat.cast_nonneg _) (sq_nonneg _)
  linarith

theorem sum_map_finset_sum {β : Type} (l : List β) (n : Nat) (f : β → Nat → α) :
    (l.map (fun x => ∑ j in Finset.range n, f x j)).sum =
      ∑ j in Finset.range n, (l.map (fun x => f x j)).sum := by
  induction l with
  | nil => simp
  | cons x l ih => simp only [List.map_cons, List.sum_cons, ih, Finset.sum_add_distrib]

theorem sum_fiberwise {β : Type} (l : List β) (key : β → Nat) (N : Nat)
    (h : ∀ x ∈ l, key x < N) (f : β → α) :
    (l.map f).sum =
      ∑ k in Finset.range N, ((l.filter (fun x => decide (key x = k))).map f).sum := by
  induction l with
  | nil => simp
  | cons x l ih =>
    have hx := h x (List.mem_cons_self _ _)
    rw [List.map_cons, List.sum_cons, ih (fun y hy => h y (List.mem_cons_of_mem _ hy))]
    have hstep : ∀ k, ((List.filter (fun x => decide (key x = k)) (x :: l)).map f).sum =
        (if key x = k then f x else 0) +
          ((l.filter (fun x => decide (key x = k))).map f).sum := by
      intro k
      by_cases hk : key x = k <;> simp [List.filter_cons, hk]
    simp only [hstep, Finset.sum_add_distrib]
    rw [Finset.sum_ite_eq, if_pos (Finset.mem_range.mpr hx)]

/-- Recentring a cluster does not increase the sum of the squared distances from its
members to its centre. -/
theorem recentre_cost (c : Cluster α) (n : Nat) (hlen : c.central_values.length = n) :
    (c.points.map (fun q => sqDist n (recentre c n).central_values q.values)).sum ≤
      (c.points.map (fun q => sqDist n c.central_values q.values)).sum := by
  by_cases hm : c.points.length = 0
  · have h1 : recentre c n = c := by simp [recentre, hm]
    rw [h1]
  · rw [recentre_of_members c n hm]
    simp only [sqDist]
    rw [sum_map_finset_sum, sum_map_finset_sum]
    apply Finset.sum_le_sum
    intro j hj
    have hj1 : j < n := Finset.mem_range.mp hj
    have hget : (c.central_values.mapIdx
        (fun l x => if l < n then meanCoord c.points l else x)).getD j 0 =
        meanCoord c.points j := by
      have hjl : j < c.central_values.length := by omega
      rw [List.getD_eq_getElem?_getD, List.getElem?_mapIdx, List.getElem?_eq_getElem hjl]
      simp [hj1]
    rw [hget]
    have hmean := mean_minimises (c.points.map (fun q => q.values.getD j 0))
      (by rw [List.length_map]; exact hm) (c.central_values.getD j 0)
    simp only [List.map_map, List.length_map] at hmean
    exact hmean

theorem count_map_id (ms : List (Point α)) (a : Int) :
    List.count a (ms.map Point.id_point) = memberCount ms a := by
  induction ms with
  | nil => rfl
  | cons q ms ih =>
    unfold memberCount at ih ⊢
    rw [List.map_cons, List.count_cons, ih, List.countP_cons]
    by_cases h : q.id_point = a <;> simp [h]

/-- With the label/membership invariant, pairwise distinct ids and member copies that
carry the coordinates of the points, a sum over the points of a quantity depending on
the label and the coordinates is the sum over the clusters of the sums over their
members. -/
theorem regroup (points : List (Point α)) (mem : List (List (Point α)))
    (hdist : (points.map Point.id_point).Nodup)
    (hlab : ∀ p ∈ points, 0 ≤ p.id_cluster ∧ p.id_cluster.toNat < mem.length)
    (hcounts : ∀ p ∈ points, ∀ (k : Nat) (ms : List (Point α)), mem[k]? = some ms →
      memberCount ms p.id_point = if p.id_cluster = (k : Int) then 1 else 0)
    (hcopy : ∀ ms ∈ mem, ∀ q ∈ ms,
      ∃ p ∈ points, p.id_point = q.id_point ∧ q.values = p.values)
    (g : Nat → List α → α) :
    (points.map (fun p => g p.id_cluster.toNat p.values)).sum =
      ∑ k in Finset.range mem.length, ((mem.getD k []).map (fun q => g k q.values)).sum := by
  rw [sum_fiberwise points (fun p => p.id_cluster.toNat) mem.length
    (fun p hp => (hlab p hp).2)]
  apply Finset.sum_congr rfl
  intro k hk
  have hk1 : k < mem.length := Finset.mem_range.mp hk
  obtain ⟨ms, hms⟩ : ∃ ms, mem[k]? = some ms := ⟨mem[k], List.getElem?_eq_getElem hk1⟩
  have hmsmem : ms ∈ mem := List.mem_iff_getElem?.mpr ⟨k, hms⟩
  have hgetD : mem.getD k [] = ms := by
    rw [List.getD_eq_getElem?_getD, hms]
    rfl
  rw [hgetD]
  have hleft : (points.filter (fun p => decide (p.id_cluster.toNat = k))).map
      (fun p => g p.id_cluster.toNat p.values) =
      ((points.filter (fun p => decide (p.id_cluster.toNat = k))).map
        (fun p => (p.id_point, p.values))).map (fun x => g k x.2) := by
    rw [List.map_map]
    apply List.map_congr_left
    intro p hp
    have hkey : p.id_cluster.toNat = k := by simpa using (List.mem_filter.mp hp).2
    simp [hkey]
  have hright : ms.map (fun q => g k q.values) =
      (ms.map (fun q => (q.id_point, q.values))).map (fun x => g k x.2) := by
    rw [List.map_map]
    rfl
  rw [hleft, hright]
  apply List.Perm.sum_eq
  apply List.Perm.map
  have hnd1 : ((points.filter (fun p => decide (p.id_cluster.toNat = k))).map
      (fun p => (p.id_point, p.values))).Nodup := by
    apply List.Nodup.of_map Prod.fst
    rw [List.map_map]
    exact List.Nodup.sublist (List.Sublist.map _ (List.filter_sublist _)) hdist
  have hpos : ∀ q ∈ ms, ∃ p ∈ points, p.id_point = q.id_point ∧ q.values = p.values ∧
      p.id_cluster = (k : Int) := by
    intro q hq
    obtain ⟨p, hp, hid, hval⟩ := hcopy ms hmsmem q hq
    refine ⟨p, hp, hid, hval, ?_⟩
    have hcnt := hcounts p hp k ms hms
    have hge : 0 < memberCount ms p.id_point := by
      unfold memberCount
      exact List.countP_pos_iff.mpr ⟨q, hq, by simp [hid]⟩
    by_contra hne
    rw [if_neg hne] at hcnt
    omega
  have hnd2 : (ms.map (fun q => (q.id_point, q.values))).Nodup := by
    apply List.Nodup.of_map Prod.fst
    rw [List.map_map]
    show (ms.map Point.id_point).Nodup
    rw [List.nodup_iff_count_le_one]
    intro a
    by_cases ha : a ∈ ms.map Point.id_point
    · obtain ⟨q, hq, hqa⟩ := List.mem_map.mp ha
      obtain ⟨p, hp, hid, _, hpk⟩ := hpos q hq
      have hcnt := hcounts p hp k ms hms
      rw [if_pos hpk, hid, hqa] at hcnt
      rw [count_map_id, hcnt]
    · rw [List.count_eq_zero_of_not_mem ha]
      omega
  apply (List.perm_ext_iff_of_nodup hnd1 hnd2).mpr
  intro x
  constructor
  · intro hx
    obtain ⟨p, hpf, hpx⟩ := List.mem_map.mp hx
    obtain ⟨hp, hkey⟩ := List.mem_filter.mp hpf
    have hkey1 : p.id_cluster.toNat = k := by simpa using hkey
    have hpk : p.id_cluster = (k : Int) := by
      have := (hlab p hp).1
      omega
    have hcnt := hcounts p hp k ms hms
    rw [if_pos hpk] at hcnt
    have hge : 0 < memberCount ms p.id_point := by omega
    unfold memberCount at hge
    obtain ⟨q, hq, hqid⟩ := List.countP_pos_iff.mp hge
    have hqid1 : q.id_point = p.id_point := by simpa using hqid
    obtain ⟨p1, hp1, hid1, hval1, _⟩ := hpos q hq
    have hpp : p1 = p := List.inj_on_of_nodup_map hdist hp1 hp (hid1.trans hqid1)
    rw [hpp] at hval1
    rw [← hpx]
    exact List.mem_map.mpr ⟨q, hq, by rw [hqid1, hval1]⟩
  · intro hx
    obtain ⟨q, hq, hqx⟩ := List.mem_map.mp hx
    obtain ⟨p, hp, hid, hval, hpk⟩ := hpos q hq
    rw [← hqx]
    refine List.mem_map.mpr ⟨p, List.mem_filter.mpr ⟨hp, ?_⟩, by rw [hid, hval]⟩
    simp [hpk]

theorem cost_eq (km : KMeans α) (points : List (Point α)) :
    km.cost points = (points.map (fun p => km.sqDistTo p p.id_cluster.toNat)).sum := by
  unfold KMeans.cost KMeans.sqDistTo sqDist
  congr 1
  apply List.map_congr_left
  intro p _
  apply Finset.sum_congr rfl
  intro j _
  ring

theorem sameCentres_sqDistTo {km1 km2 : KMeans α} (h : km1.SameCentres km2) (p : Point α)
    (k : Nat) : km1.sqDistTo p k = km2.sqDistTo p k := by
  obtain ⟨_, htv, _, _, _, hcv⟩ := h
  have hk : km1.clusters[k]?.map Cluster.central_values =
      km2.clusters[k]?.map Cluster.central_values := by
    rw [← List.getElem?_map, ← List.getElem?_map, hcv]
  unfold KMeans.sqDistTo
  rw [htv, hk]

/-- The assignment step does not increase the objective: every point moves to a centre
that is at least as near as the centre of its label. -/
theorem assign_cost (km : KMeans α) (points : List (Point α)) (hr : km.Ready points)
    (hlab : ∀ p ∈ points, 0 ≤ p.id_cluster ∧ p.id_cluster < km.K) (km1 : KMeans α)
    (hsame : km1.SameCentres km) :
    km1.cost (points.map km.relabel) ≤ km.cost points := by
  rw [cost_eq, cost_eq, List.map_map]
  apply List.sum_le_sum
  intro p hp
  show km1.sqDistTo (km.relabel p) (km.relabel p).id_cluster.toNat ≤ _
  have h1 : km1.sqDistTo (km.relabel p) (km.relabel p).id_cluster.toNat =
      km.sqDistTo p (km.nearestId p).toNat := by
    rw [sameCentres_sqDistTo hsame]
    rfl
  rw [h1]
  obtain ⟨i, hi, _, hmin, _⟩ := nearest_spec km p hr.kpos hr.shaped (hr.pointsOk.2 p hp)
  rw [nearestId_of_ok km p _ hi, Int.toNat_ofNat]
  apply hmin
  have := hr.shaped.1
  have := hlab p hp
  omega

/-- The centre recomputation does not increase the objective of a state in which the
members of every cluster are the copies of the points labelled with it. -/
theorem recalc_cost (km : KMeans α) (points : List (Point α)) (ht : km.Tidy points)
    (hlab : ∀ p ∈ points, 0 ≤ p.id_cluster ∧ p.id_cluster < km.K)
    (hcopy : km.CopiesAgree points) :
    km.recentred.cost points ≤ km.cost points := by
  have hlen : ((km.clusters.map Cluster.points).length : Int) = km.K := by
    rw [List.length_map]
    exact ht.ready.shaped.1
  have hlab1 : ∀ p ∈ points,
      0 ≤ p.id_cluster ∧ p.id_cluster.toNat < (km.clusters.map Cluster.points).length := by
    intro p hp
    have := hlab p hp
    omega
  have hcopy1 : ∀ ms ∈ km.clusters.map Cluster.points, ∀ q ∈ ms,
      ∃ p ∈ points, p.id_point = q.id_point ∧ q.values = p.values := by
    intro ms hms q hq
    obtain ⟨c, hc, hcms⟩ := List.mem_map.mp hms
    rw [← hcms] at hq
    exact hcopy c hc q hq
  have hsum := regroup points (km.clusters.map Cluster.points) ht.distinct hlab1 ht.counts
    hcopy1
  rw [cost_eq, cost_eq]
  have e1 := hsum (fun k v => sqDist km.total_values.toNat
    ((km.clusters[k]?.map Cluster.central_values).getD []) v)
  have e2 := hsum (fun k v => sqDist km.total_values.toNat
    ((km.recentred.clusters[k]?.map Cluster.central_values).getD []) v)
  have e1a : (points.map (fun p => km.sqDistTo p p.id_cluster.toNat)).sum = _ := e1
  have e2a : (points.map (fun p => km.recentred.sqDistTo p p.id_cluster.toNat)).sum = _ := e2
  rw [e1a, e2a]
  apply Finset.sum_le_sum
  intro k hk
  have hk1 : k < km.clusters.length := by
    have := Finset.mem_range.mp hk
    rwa [List.length_map] at this
  obtain ⟨c, hc⟩ : ∃ c, km.clusters[k]? = some c := ⟨km.clusters[k], List.getElem?_eq_getElem hk1⟩
  have hmem : (km.clusters.map Cluster.points).getD k [] = c.points := by
    rw [List.getD_eq_getElem?_getD, List.getElem?_map, hc]
    rfl
  have hrc : km.recentred.clusters[k]? = some (recentre c km.total_values.toNat) := by
    show (km.clusters.map _)[k]? = _
    rw [List.getElem?_map, hc]
    rfl
  rw [hmem]
  simp only [hc, hrc, Option.map_some', Option.getD_some]
  apply recentre_cost
  have := ht.ready.shaped.2 c (List.mem_iff_getElem?.mpr ⟨k, hc⟩)
  omega

/-- The assignment step keeps the member copies in agreement with the coordinates of
the points. -/
theorem assign_copies (km : KMeans α) (points : List (Point α))
    (hcopy : km.CopiesAgree points) (km1 : KMeans α)
    (hmem : km1.clusters.map Cluster.points =
      km.migrateAll points (km.clusters.map Cluster.points)) :
    km1.CopiesAgree (points.map km.relabel) := by
  intro c1 hc1 q hq
  obtain ⟨k, hk⟩ := List.mem_iff_getElem?.mp hc1
  have hms1 : (km.migrateAll points (km.clusters.map Cluster.points))[k]? = some c1.points := by
    rw [← hmem, List.getElem?_map, hk]
    rfl
  rcases mem_migrateAll km points _ k c1.points hms1 q hq with ⟨ms, hms, hqms⟩ | ⟨p, hp, hqp, _⟩
  · obtain ⟨c, hc, hcms⟩ := List.mem_map.mp (List.mem_iff_getElem?.mpr ⟨k, hms⟩)
    rw [← hcms] at hqms
    obtain ⟨p, hp, hid, hval⟩ := hcopy c hc q hqms
    exact ⟨km.relabel p, List.mem_map_of_mem _ hp, hid, hval⟩
  · exact ⟨km.relabel p, List.mem_map_of_mem _ hp, by rw [hqp]; rfl, by rw [hqp]; rfl⟩

/-- C16: for a state with `K ≥ 1` well-shaped clusters and points of pairwise distinct
ids, in which every label is in `[0, K)`, the label/membership invariant holds (a point
has exactly one entry in the members of the cluster it is labelled with and none in the
others) and every member entry has the id and the coordinates of a top-level point: the
assignment step and the centre recomputation after it do not fault, this is what a pass
of the driver loop runs, and the within-cluster sum of squares after the assignment, and
after the recomputation, is at most the one before. -/
theorem C16_cost_does_not_increase (km : KMeans α) (points : List (Point α))
    (ht : km.Tidy points)
    (hlab : ∀ p ∈ points, 0 ≤ p.id_cluster ∧ p.id_cluster < km.K)
    (hcopy : km.CopiesAgree points) :
    ∃ st km2, km.assignPointsToClusters points = Except.ok st ∧
      st.1.recalcCenters = Except.ok km2 ∧
      (∀ iter, ∃ s, km.iteration points iter = Except.ok s ∧ s.km = km2 ∧ s.points = st.2) ∧
      st.1.cost st.2 ≤ km.cost points ∧
      km2.cost st.2 ≤ st.1.cost st.2 ∧
      km2.cost st.2 ≤ km.cost points := by
  obtain ⟨km1, hrun, hsame, hmem, hr1⟩ := assign_ready km points ht.ready
  obtain ⟨km1a, hruna, ht1a⟩ := assign_tidy km points ht
  have hkm : km1a = km1 := by
    have h := hruna.symm.trans hrun
    injection h with h
    exact (Prod.mk.inj h).1
  have ht1 : km1.Tidy (points.map km.relabel) := hkm ▸ ht1a
  have hcopy1 := assign_copies km points hcopy km1 hmem
  have hlab1 : ∀ p ∈ points.map km.relabel, 0 ≤ p.id_cluster ∧ p.id_cluster < km1.K := by
    intro q hq
    obtain ⟨p, hp, hpq⟩ := List.mem_map.mp hq
    rw [← hpq, hsame.1]
    exact (nearestId_ok km p ht.ready.kpos ht.ready.shaped (ht.ready.pointsOk.2 p hp)).2
  obtain ⟨hrec, _⟩ := recalc_tidy km1 _ ht1
  have hA := assign_cost km points ht.ready hlab km1 hsame
  have hB := recalc_cost km1 _ ht1 hlab1 hcopy1
  refine ⟨(km1, points.map km.relabel), km1.recentred, hrun, hrec, ?_, hA, hB, le_trans hB hA⟩
  intro iter
  obtain ⟨km1b, s, hrunb, hit, hskm, hspts, _⟩ := iteration_spec km points iter ht.ready
  have hkmb : km1b = km1 := by
    have h := hrunb.symm.trans hrun
    injection h with h
    exact (Prod.mk.inj h).1
  exact ⟨s, hit, by rw [hskm, hkmb], hspts⟩

theorem stray_tidy : strayKMeans.Tidy strayPoints := by
  refine ⟨⟨by decide, by simp [KMeans.Shaped, strayKMeans],
    by simp [KMeans.PointsOk, strayKMeans, strayPoints],
    by simp [KMeans.LabelsOk, strayKMeans, strayPoints],
    by simp [KMeans.MembersOk, strayKMeans]⟩, by simp [strayPoints], ?_, ?_⟩
  · intro k c h
    rcases k with _ | _ | k <;> simp [strayKMeans] at h <;> subst h <;> rfl
  · intro p hp k ms hms
    simp only [strayPoints, List.mem_cons, List.mem_singleton, List.not_mem_nil, or_false] at hp
    rcases k with _ | _ | k <;> simp [strayKMeans] at hms <;> subst hms <;>
      rcases hp with h | h | h <;> subst h <;> simp [memberCount]

theorem stray_labels :
    ∀ p ∈ strayPoints, 0 ≤ p.id_cluster ∧ p.id_cluster < strayKMeans.K := by
  simp [strayPoints, strayKMeans]

theorem stray_copies : strayKMeans.CopiesAgree strayPoints := by
  simp [KMeans.CopiesAgree, strayKMeans, strayPoints]

theorem C16_cost_does_not_increase_witness :
    strayKMeans.Tidy strayPoints ∧
    (∀ p ∈ strayPoints, 0 ≤ p.id_cluster ∧ p.id_cluster < strayKMeans.K) ∧
    strayKMeans.CopiesAgree strayPoints ∧
    ∃ st km2, strayKMeans.assignPointsToClusters strayPoints = Except.ok st ∧
      st.1.recalcCenters = Except.ok km2 ∧
      (∀ iter, ∃ s, strayKMeans.iteration strayPoints iter = Except.ok s ∧ s.km = km2 ∧
        s.points = st.2) ∧
      st.1.cost st.2 ≤ strayKMeans.cost strayPoints ∧
      km2.cost st.2 ≤ st.1.cost st.2 ∧
      km2.cost st.2 ≤ strayKMeans.cost strayPoints :=
  ⟨stray_tidy, stray_labels, stray_copies,
    C16_cost_does_not_increase strayKMeans strayPoints stray_tidy stray_labels stray_copies⟩

end Kmeans
